import Mathlib

/-! Host-embedding runtime of the Tengo script engine (`script.go`)

A shallow embedding of `Compiled` (the compiled-program handle) and of the
operations `Get`, `Set`, `IsDefined`, `Call`, `CallContext`, `CallByName`,
`CallByNameContext`, `call` and `callCompiled`.

Conventions of the embedding

* A Go variable of interface type `Object` is an `Option Object`: `none` is the
  Go `nil`, `some o` a non-nil object.  Objects are compared by identity in the
  source (`v != UndefinedValue`); here identity is equality of the value.
* A Go slice is a `List`; slot indices are natural numbers (a symbol index is a
  count of definitions).  An access outside the slice is a `Panic`.
* A Go map `map[string]int` is an association list read with `List.lookup`.
* The packages the file calls but does not define (the value contract, the
  marshalling layer, the instruction encoder and the execution engine) are the
  fields of `Deps`; every theorem holds for all of them unless it states a
  hypothesis about them.
* The mutex is not part of the sequential model.
* Programs in memory come at two levels of detail.  `Family` has the structs of
  a program and of its clones around the one `Bytecode` they point to, each
  struct with its slot table in it.  `Memory` has the slot tables as arrays of
  their own, which the structs address, so that two structs can hold the slice
  of one array; it is the level at which `Clone` is seen to make a new table.
* The operators of `Time` (`stdlib/datetime_time.go`) are embedded over
  `Stdlib.Obj`, the objects as that file tells them apart, with the conversion
  `ToInt64` of the package `tengo` as a field of `Stdlib.Deps`.  An int64 is an
  `Int` in the range `IsInt64`; its negation wraps (`time.Duration.neg`).
* The functions of the datetime module (`stdlib/datetime.go`) and the members of
  a `Time` take a list of non-nil objects and return the pair of the object and
  the error.  What they need of Go's package `time` beyond the arithmetic of
  instants (the clock, the calendar, the time zone database) is a field of
  `time.Package`.
-/

deriving instance DecidableEq for Except

namespace Tengo

/-! ## Data model -/

/-- The opcodes of the parser package that `callCompiled` emits. -/
inductive Opcode
  | OpConstant
  | OpCall
  | OpSetGlobal
  | OpSuspend
  deriving DecidableEq, Repr

/-- A Go `error` value.  `New msg` is an error made in `script.go` itself by
`errors.New` or `fmt.Errorf` (with its message); `foreign e` is an error value
handed over by a collaborator (marshalling layer, engine, context).  Go compares
errors by identity, so the two kinds never coincide. -/
inductive Error (E : Type)
  | New (msg : String)
  | foreign (e : E)
  deriving DecidableEq, Repr

/-- A Go run-time panic raised inside `script.go`. -/
inductive Panic
  | indexOutOfRange (index length : Nat)
  | unableToCreateVariable
  | nilPointerDereference
  | wrongSymbolIndex (idx index : Nat)
  | sliceBoundsOutOfRange (bound capacity : Nat)
  deriving DecidableEq, Repr

/-- The type `CompiledFunction`, reduced to the field `script.go` writes. -/
structure CompiledFunction where
  Instructions : List Nat
  deriving DecidableEq, Repr

/-- The type `Bytecode`: the replaceable entry function and the constant pool. -/
structure Bytecode (Object : Type) where
  MainFunction : CompiledFunction
  Constants : List (Option Object)
  deriving DecidableEq, Repr

/-- The type `Variable`, a named object. -/
structure Variable (Object : Type) where
  name : String
  value : Object
  deriving DecidableEq, Repr

/-- The type `Compiled` without its mutex. -/
structure Compiled (Object : Type) where
  bytecode : Bytecode Object
  indexes : List (String × Nat)
  globals : List (Option Object)
  maxAllocs : Int
  outIdx : Nat
  deriving DecidableEq, Repr

/-- The engine bound to a program: the three arguments of `NewVM`. -/
structure VM (Object : Type) where
  bytecode : Bytecode Object
  globals : List (Option Object)
  maxAllocs : Int
  deriving DecidableEq, Repr

/-- What one `vm.Run()` leaves behind: the program behind the bytecode pointer,
the contents of the slot table it was given, and the error it returns. -/
structure RunResult (Object E : Type) where
  bytecode : Bytecode Object
  globals : List (Option Object)
  err : Option E

/-- A non-nil `context.Context`, described by what the `select` of
`runVMContext` observes first: `live` when the completion of the run comes
first (always so for `context.Background()`), `done err abortAt` when
`ctx.Done()` comes first, `err` being `ctx.Err()` and `abortAt` the
instruction boundary at which the engine sees the abort request. -/
inductive Context (E : Type)
  | live
  | done (err : E) (abortAt : Nat)
  deriving DecidableEq, Repr

/-- The collaborators of `script.go`, which the file uses but does not define:
the value contract (`UndefinedValue`, `CanCall`, `Copy`), the marshalling layer
(`FromInterface`, `ToInterface`; `hostOfObject` is the conversion of an `Object`
to `interface{}`), the instruction encoder `MakeInstruction` and the engine
(`Run abort vm` is `vm.Run()`, `abort` being the instruction boundary at which
an `Abort` request reaches it, if any). -/
structure Deps (Object Host E : Type) where
  UndefinedValue : Object
  CanCall : Object → Bool
  Copy : Object → Object
  FromInterface : Host → Except E Object
  ToInterface : Option Object → Host
  hostOfObject : Object → Host
  MakeInstruction : Opcode → List Nat → List Nat
  Run : Option Nat → VM Object → RunResult Object E

/-- The state a call leaves, what it returns, and the engines it ran. -/
structure Outcome (Object α : Type) where
  state : Compiled Object
  ret : α
  runs : List (VM Object)
  deriving DecidableEq, Repr

/-- The type `Script`.  A Go map `map[string]*Variable` is an association list
with one entry per key, written with `mapStore` and `mapDelete`; `trace` and
`modules` are nil (`none`) or a value of the collaborator's type.  The field
`vars` is the field `variables` of the source, a word Lean reserves. -/
structure Script (Object M W : Type) where
  trace : Option W
  modules : Option M
  vars : List (String × Variable Object)
  src : List Nat
  maxAllocs : Int
  importDir : String
  deriving DecidableEq, Repr

/-- The struct `Compiled` as it sits in memory, but for its field `bytecode`,
which is a pointer. -/
structure Handle (Object : Type) where
  indexes : List (String × Nat)
  globals : List (Option Object)
  maxAllocs : Int
  outIdx : Nat
  deriving DecidableEq, Repr

/-- A compiled program and the clones made of it, in memory.  `Clone` copies the
pointer `bytecode`, so all of them point to one `Bytecode` struct, the field
`bytecode` here; each of them has its own slot table.  A `*Compiled` is the
position of its struct in `members`. -/
structure Family (Object : Type) where
  bytecode : Bytecode Object
  members : List (Handle Object)
  deriving DecidableEq, Repr

/-- The memory a call leaves, what it returns, and the engines it ran. -/
structure Effect (Object α : Type) where
  state : Family Object
  ret : α
  runs : List (VM Object)
  deriving DecidableEq, Repr

/-- The type `Callback`; `compiled` is nil or a pointer to a program. -/
structure Callback (Object Host : Type) where
  Args : List Host
  compiled : Option Nat
  fn : Option Object
  deriving DecidableEq, Repr

/-- The scope of a symbol. -/
inductive SymbolScope
  | ScopeGlobal
  | ScopeLocal
  | ScopeBuiltin
  | ScopeFree
  deriving DecidableEq, Repr

/-- The type `Symbol`. -/
structure Symbol where
  Name : String
  Scope : SymbolScope
  Index : Nat
  deriving DecidableEq, Repr

/-- Modelled from the spec: the top-level `SymbolTable` of symbol_table.go, which
assigns each defined name the next slot index in definition order: the symbols
by name, the number of definitions made, and the largest number of slots in
use. -/
structure SymbolTable where
  store : List (String × Symbol)
  numDefinition : Nat
  maxDefinition : Nat
  deriving DecidableEq, Repr

/-- The source file registered with the file set: `AddFile(name, -1, size)`. -/
structure SourceFile where
  Name : String
  Size : Nat
  deriving DecidableEq, Repr

/-- The type `Compiler`, reduced to what `Script.compile` hands to it or sets
on it. -/
structure Compiler (M W : Type) where
  file : SourceFile
  symbolTable : SymbolTable
  modules : Option M
  trace : Option W
  allowFileImport : Bool
  importDir : String
  deriving DecidableEq, Repr

/-- The parser and compiler `Script.compile` drives, which script.go uses but
does not define: the size `GlobalsSize` of a fresh slot table, the parser
(`ParseFile`), the constructor `NewCompiler`, the compilation proper (`Compile cc
file` is `cc.Compile(file)` followed by `cc.Bytecode()`; it yields the symbol
table as compilation leaves it and the bytecode) and `RemoveDuplicates`. -/
structure Toolchain (Object E M W File : Type) where
  GlobalsSize : Nat
  ParseFile : SourceFile → List Nat → Except E File
  NewCompiler : SourceFile → SymbolTable → Option M → Option W → Compiler M W
  Compile : Compiler M W → File → Except E (SymbolTable × Bytecode Object)
  RemoveDuplicates : Bytecode Object → Bytecode Object

/-- Modelled from the spec: `Variable.Object` of variable.go, the held object. -/
def Variable.Object {O : Type} (v : Variable O) : O := v.value

/-- What the goroutine of `runVMContext` does, one entry per statement it
executes: `spawn` is the `go` statement that starts `vm.Run()`, `received err`
a receive from `errch` (the run has completed and sent `err`), `done` the
receive from `ctx.Done()`, `abort` the call `vm.Abort()`, and `ret err` the
return of `err`. -/
inductive Event (E : Type)
  | spawn
  | received (err : Option E)
  | done
  | abort
  | ret (err : Option E)
  deriving DecidableEq, Repr

/-- The exported methods of `Compiled` that touch the slot table or the
program. -/
inductive Method
  | Clone
  | CallByName
  | CallByNameContext
  | Call
  | CallContext
  | Get
  | GetAll
  | Set
  | IsDefined
  deriving DecidableEq, Repr

/-- What a statement of a method body does to the mutex `c.mu` or to the state
it guards: the four lock operations of `sync.RWMutex`, a read of `c.indexes`,
`c.globals` or `c.bytecode`, and a write to `c.globals` or `c.bytecode` (the
engine run of a call is a write). -/
inductive Step
  | RLock
  | RUnlock
  | Lock
  | Unlock
  | read
  | write
  deriving DecidableEq, Repr

/-- The state of a `sync.RWMutex`: the number of readers holding it, and
whether a writer holds it. -/
structure RWMutex where
  readers : Nat
  writer : Bool
  deriving DecidableEq, Repr

/-- Modelled from the spec: the operator tokens of the package `token`, which
the engine hands to `BinaryOp`. -/
inductive token.Token
  | Add
  | Sub
  | Mul
  | Quo
  | Rem
  | And
  | Or
  | Xor
  | Shl
  | Shr
  | AndNot
  | LAnd
  | LOr
  | Equal
  | NotEqual
  | Less
  | Greater
  | LessEq
  | GreaterEq
  deriving DecidableEq, Repr

/-- Go's `time.Duration`: a count of nanoseconds held in an int64. -/
abbrev time.Duration := Int

/-- Go's `time.Time`, as the package `time` documents it: an instant of the
wall clock, counted in nanoseconds, an optional reading of the monotonic
clock, and a location.  The limits of the representation (the years a wall
clock can hold, a monotonic reading that leaves its range) are not modelled:
instants are unbounded. -/
structure time.Time where
  wall : Int
  mono : Option Int
  loc : String
  deriving DecidableEq, Repr

/-- The type `Time` of datetime_time.go.  The embedded `ImmutableMap` of member
functions is built from `time` by `CreateTime`, the one place where a `Time` is
made, and is not part of the model; a `*Time` is taken to be non-nil. -/
structure Stdlib.Time where
  time : time.Time
  deriving DecidableEq, Repr

/-- A non-nil value of the interface `tengo.Object`, as the datetime library
tells them apart: a `*Time`, one of the two values `TengoBool` returns, or any
other object, of the type `O`. -/
inductive Stdlib.Obj (O : Type)
  | time (t : Stdlib.Time)
  | bool (b : Bool)
  | other (o : O)
  deriving DecidableEq, Repr

/-- Modelled from the spec: the error values the datetime library returns.
`ErrInvalidOperator` and `ErrWrongNumArguments` are values of the package
`tengo`, `ErrInvalidArgumentType` is its struct of that name, and `foreign msg`
is an error handed over by Go's package `time`, with its message; Go tells the
four kinds apart. -/
inductive Stdlib.Err
  | ErrInvalidOperator
  | ErrWrongNumArguments
  | ErrInvalidArgumentType (Name Expected Found : String)
  | foreign (msg : String)
  deriving DecidableEq, Repr

/-- The package `tengo` as the datetime library uses it, without defining it:
the conversions `ToInt64`, `ToInt` and `ToString` of an object (nil included),
`none` when they report `ok = false`; the method `TypeName` of the objects other
than `Time`; and the objects the library makes, `NewInt v` for
`&tengo.Int{Value: v}` and `NewIntArray vs` for the `&tengo.ImmutableArray` whose
elements are the `&tengo.Int` of the values `vs`. -/
structure Stdlib.Deps (O : Type) where
  ToInt64 : Option (Stdlib.Obj O) → Option Int
  ToInt : Option (Stdlib.Obj O) → Option Int
  ToString : Option (Stdlib.Obj O) → Option String
  TypeName : Stdlib.Obj O → String
  NewInt : Int → O
  NewIntArray : List Int → O

/-- Go's `*time.Location`, told apart by its name. -/
abbrev time.Location := String

/-- Go's package `time` as the datetime library uses it, beyond the arithmetic
and the comparisons of `time.Time`: what depends on the clock, on the calendar
or on the time zone database.  `Now` is the reading `time.Now()` returns,
`Local` the variable `time.Local`, `LoadLocation`, `Date`, `Parse` and
`ParseDuration` the functions of these names (an error is carried by its
message), and `TimeAddDate`, `TimeUTC`, `TimeDate`, `TimeClock` the methods
`AddDate`, `UTC`, `Date` and `Clock` of `time.Time`.  A Go `int` is an `Int`. -/
structure time.Package where
  Now : time.Time
  Local : time.Location
  LoadLocation : String → Except String time.Location
  Date : Int → Int → Int → Int → Int → Int → Int → time.Location → time.Time
  Parse : String → String → Except String time.Time
  ParseDuration : String → Except String time.Duration
  TimeAddDate : time.Time → Int → Int → Int → time.Time
  TimeUTC : time.Time → time.Time
  TimeDate : time.Time → Int × Int × Int
  TimeClock : time.Time → Int × Int × Int

/-- The type a parameter of a datetime function expects: the argument is
converted by `ToInt` or by `ToString`. -/
inductive Stdlib.ArgKind
  | int
  | string
  deriving DecidableEq, Repr

/-- The struct `Compiled` as it sits in memory, with its slice as a reference:
`globals` is the address of the backing array of the slice `c.globals`.  No
method of `Compiled` reslices `c.globals`, so the slice is taken to span the
array, and its length is the length of the array.  The map `indexes` is never
written after `compile`, so it is held by value; `bytecode` is the pointer all
the programs of a memory share. -/
structure Layout where
  indexes : List (String × Nat)
  globals : Nat
  maxAllocs : Int
  outIdx : Nat
  deriving DecidableEq, Repr

/-- The memory of compiled programs with the slot tables as cells of their own:
`arrays` are the backing arrays, an address is a position in the list, and
`programs` are the structs; a `*Compiled` is a position in `programs`.  Two
structs that hold the same address share one slot table. -/
structure Memory (Object : Type) where
  bytecode : Bytecode Object
  arrays : List (List (Option Object))
  programs : List Layout
  deriving DecidableEq, Repr

section Operations

variable {Object Host E M W File : Type}

/-- Modelled from the spec: `NewVariable` of variable.go, which creates a
`Variable` from a name and a host value: it marshals the value and pairs the
object with the name, and fails with the marshalling error. -/
def NewVariable (X : Deps Object Host E) (name : String) (value : Host) :
    Except E (Variable Object) :=
  match X.FromInterface value with
  | .error err => .error err
  | .ok obj => .ok { name := name, value := obj }

/-- Modelled from the spec: `Variable.Value` of variable.go, the host form
(`ToInterface`) of the held object. -/
def Variable.Value (X : Deps Object Host E) (v : Variable Object) : Host :=
  X.ToInterface (some v.value)

/-- The constant `context.Background()`: never cancelled. -/
def Context.Background : Context E := Context.live

/-- The function `runVMContext`: the run races against `ctx.Done()`.  When the
completion comes first its error is returned; otherwise the engine is aborted,
the run is awaited, and `ctx.Err()` is returned. -/
def runVMContext (X : Deps Object Host E) (ctx : Context E) (vm : VM Object) :
    RunResult Object E :=
  match ctx with
  | .live => X.Run none vm
  | .done err abortAt =>
    let r := X.Run (some abortAt) vm
    { r with err := some err }

/-- The statement `if ctx == nil ... else ...` of `callCompiled`: run the engine
directly, or under the cancellation wrapper. -/
def runEngine (X : Deps Object Host E) (ctx : Option (Context E)) (vm : VM Object) :
    RunResult Object E :=
  match ctx with
  | none => X.Run none vm
  | some ctx => runVMContext X ctx vm

/-- The method `Compiled.callCompiled`. -/
def Compiled.callCompiled (X : Deps Object Host E) (c : Compiled Object)
    (ctx : Option (Context E)) (fn : Option Object) (args : List (Option Object)) :
    Except Panic (Outcome Object (Option Object × Option (Error E))) :=
  let constsOffset := c.bytecode.Constants.length
  -- Load fn
  let inst := X.MakeInstruction .OpConstant [constsOffset]
  -- Load args
  let inst := (List.range args.length).foldl
    (fun inst i => inst ++ X.MakeInstruction .OpConstant [constsOffset + i + 1]) inst
  -- Call, set value to a global, stop
  let inst := inst ++ X.MakeInstruction .OpCall [args.length]
  let inst := inst ++ X.MakeInstruction .OpSetGlobal [c.outIdx]
  let inst := inst ++ X.MakeInstruction .OpSuspend []
  let constants := c.bytecode.Constants ++ [fn]
  let constants := constants ++ args
  let bytecode : Bytecode Object :=
    { MainFunction := { Instructions := inst }, Constants := constants }
  let vm : VM Object :=
    { bytecode := bytecode, globals := c.globals, maxAllocs := c.maxAllocs }
  let r := runEngine X ctx vm
  -- avoid memory leak
  let constants := (List.range' constsOffset (r.bytecode.Constants.length - constsOffset)).foldl
    (fun cs i => cs.set i none) r.bytecode.Constants
  let constants := constants.take constsOffset
  let c' : Compiled Object :=
    { c with bytecode := { r.bytecode with Constants := constants }, globals := r.globals }
  -- get symbol using index and return it
  match c'.globals[c'.outIdx]? with
  | none => .error (.indexOutOfRange c'.outIdx c'.globals.length)
  | some v => .ok { state := c', ret := (v, r.err.map Error.foreign), runs := [vm] }

/-- The argument loop of `Compiled.call`: marshal left to right, stop at the
first failure. -/
def Compiled.marshalArgs (X : Deps Object Host E) :
    List Host → List Object → Except E (List Object)
  | [], targs => .ok targs
  | a :: rest, targs =>
    match X.FromInterface a with
    | .error err => .error err
    | .ok v => Compiled.marshalArgs X rest (targs ++ [v])

/-- The method `Compiled.call`. -/
def Compiled.call (X : Deps Object Host E) (c : Compiled Object)
    (ctx : Option (Context E)) (cfn : Option Object) (args : List Host) :
    Except Panic (Outcome Object (Except (Error E) Host)) :=
  match Compiled.marshalArgs X args [] with
  | .error err => .ok { state := c, ret := .error (.foreign err), runs := [] }
  | .ok targs =>
    match c.callCompiled X ctx cfn (targs.map some) with
    | .error p => .error p
    | .ok o =>
      match o.ret with
      | (_, some err) => .ok { state := o.state, ret := .error err, runs := o.runs }
      | (v, none) => .ok { state := o.state, ret := .ok (X.ToInterface v), runs := o.runs }

/-- The method `Compiled.CallContext`. -/
def Compiled.CallContext (X : Deps Object Host E) (c : Compiled Object)
    (ctx : Option (Context E)) (fn : Option Object) (args : List Host) :
    Except Panic (Outcome Object (Except (Error E) Host)) :=
  match fn with
  | none => .ok { state := c, ret := .error (.New "callable expected, got nil"), runs := [] }
  | some f =>
    if !X.CanCall f then
      .ok { state := c, ret := .error (.New "not a callable"), runs := [] }
    else
      c.call X ctx fn args

/-- The method `Compiled.Call`. -/
def Compiled.Call (X : Deps Object Host E) (c : Compiled Object)
    (fn : Option Object) (args : List Host) :
    Except Panic (Outcome Object (Except (Error E) Host)) :=
  c.CallContext X (some Context.Background) fn args

/-- The method `Compiled.CallByNameContext`. -/
def Compiled.CallByNameContext (X : Deps Object Host E) (c : Compiled Object)
    (ctx : Option (Context E)) (fn : String) (args : List Host) :
    Except Panic (Outcome Object (Except (Error E) Host)) :=
  match c.indexes.lookup fn with
  | none =>
    .ok { state := c, ret := .error (.New ("'" ++ fn ++ "' not found")), runs := [] }
  | some idx =>
    match c.globals[idx]? with
    | none => .error (.indexOutOfRange idx c.globals.length)
    | some none =>
      .ok { state := c, ret := .error (.New "callable expected, got nil"), runs := [] }
    | some (some cfn) =>
      if !X.CanCall cfn then
        .ok { state := c, ret := .error (.New "not a callable"), runs := [] }
      else
        c.call X ctx (some cfn) args

/-- The method `Compiled.CallByName`. -/
def Compiled.CallByName (X : Deps Object Host E) (c : Compiled Object)
    (fn : String) (args : List Host) :
    Except Panic (Outcome Object (Except (Error E) Host)) :=
  c.CallByNameContext X (some Context.Background) fn args

/-- The method `Compiled.Get`. -/
def Compiled.Get (X : Deps Object Host E) (c : Compiled Object) (name : String) :
    Except Panic (Variable Object) :=
  let value : Except Panic Object :=
    match c.indexes.lookup name with
    | some idx =>
      match c.globals[idx]? with
      | none => .error (.indexOutOfRange idx c.globals.length)
      | some none => .ok X.UndefinedValue
      | some (some value) => .ok value
    | none => .ok X.UndefinedValue
  match value with
  | .error p => .error p
  | .ok value =>
    match NewVariable X name (X.hostOfObject value) with
    | .error _ => .error .unableToCreateVariable
    | .ok v => .ok v

/-- The method `Compiled.Set`: the new state and the returned error. -/
def Compiled.Set (X : Deps Object Host E) (c : Compiled Object) (name : String)
    (value : Host) : Except Panic (Compiled Object × Option (Error E)) :=
  match X.FromInterface value with
  | .error err => .ok (c, some (.foreign err))
  | .ok obj =>
    match c.indexes.lookup name with
    | none => .ok (c, some (.New ("'" ++ name ++ "' is not defined")))
    | some idx =>
      if idx < c.globals.length then
        .ok ({ c with globals := c.globals.set idx (some obj) }, none)
      else
        .error (.indexOutOfRange idx c.globals.length)

/-- The method `Compiled.IsDefined`. -/
def Compiled.IsDefined [DecidableEq Object] (X : Deps Object Host E) (c : Compiled Object)
    (name : String) : Except Panic Bool :=
  match c.indexes.lookup name with
  | none => .ok false
  | some idx =>
    match c.globals[idx]? with
    | none => .error (.indexOutOfRange idx c.globals.length)
    | some none => .ok false
    | some (some v) => .ok (decide (v ≠ X.UndefinedValue))

/-! ## Vocabulary of the properties -/

/-- Every slot index of the name index, and the output slot index, is a valid
index of the slot table (the state `Script.compile` builds). -/
def Compiled.InBounds (c : Compiled Object) : Prop :=
  (∀ name idx, c.indexes.lookup name = some idx → idx < c.globals.length) ∧
    c.outIdx < c.globals.length

/-- The engine run does not alter the constant pool. -/
def Deps.KeepsPool (X : Deps Object Host E) : Prop :=
  ∀ abort vm, (X.Run abort vm).bytecode.Constants = vm.bytecode.Constants

/-- The engine run keeps the length of the slot table (it holds a copy of the
slice header and can only overwrite elements). -/
def Deps.KeepsLength (X : Deps Object Host E) : Prop :=
  ∀ abort vm, (X.Run abort vm).globals.length = vm.globals.length

/-- Marshalling an `Object` yields that object (the remark in `Get`: the value
will already be a tengo object). -/
def Deps.MarshalsObjects (X : Deps Object Host E) : Prop :=
  ∀ o, X.FromInterface (X.hostOfObject o) = .ok o

/-- Two program states agree on everything but the contents of the slot table
and the program: same name index, output slot, budget and table length. -/
def Compiled.SameShape (c d : Compiled Object) : Prop :=
  d.indexes = c.indexes ∧ d.outIdx = c.outIdx ∧ d.maxAllocs = c.maxAllocs ∧
    d.globals.length = c.globals.length

/-- The entry sequence in the words of the specification: load the callable,
load each argument in order, call with `n` arguments, store into the output
slot, suspend. -/
def specEntrySequence (k n outIdx : Nat) : List (Opcode × List Nat) :=
  (Opcode.OpConstant, [k]) ::
    ((List.range n).map (fun i => (Opcode.OpConstant, [k + (i + 1)])) ++
      [(Opcode.OpCall, [n]), (Opcode.OpSetGlobal, [outIdx]), (Opcode.OpSuspend, [])])

/-- The bytes of a sequence of instructions. -/
def encode (X : Deps Object Host E) (l : List (Opcode × List Nat)) : List Nat :=
  l.flatMap (fun p => X.MakeInstruction p.1 p.2)

/-- The engine a call is expected to run, in the words of the specification:
the pool extended by the callable and the arguments, the synthesized entry
sequence, the slot table and the allocation budget of the program. -/
def specCallVM (X : Deps Object Host E) (c : Compiled Object) (fn : Option Object)
    (args : List (Option Object)) : VM Object :=
  { bytecode :=
      { MainFunction :=
          { Instructions :=
              encode X (specEntrySequence c.bytecode.Constants.length args.length c.outIdx) },
        Constants := c.bytecode.Constants ++ fn :: args },
    globals := c.globals,
    maxAllocs := c.maxAllocs }

/-- A host request to call into a program, by value or by name. -/
inductive Request (Object Host E : Type)
  | Call (fn : Option Object) (args : List Host)
  | CallContext (ctx : Option (Context E)) (fn : Option Object) (args : List Host)
  | CallByName (fn : String) (args : List Host)
  | CallByNameContext (ctx : Option (Context E)) (fn : String) (args : List Host)

/-- The context a request runs under (`Call` and `CallByName` use the
background context). -/
def Request.ctx : Request Object Host E → Option (Context E)
  | .Call _ _ => some Context.Background
  | .CallContext ctx _ _ => ctx
  | .CallByName _ _ => some Context.Background
  | .CallByNameContext ctx _ _ => ctx

/-- Serve one request with the method it names. -/
def Compiled.serve (X : Deps Object Host E) (c : Compiled Object) :
    Request Object Host E → Except Panic (Outcome Object (Except (Error E) Host))
  | .Call fn args => c.Call X fn args
  | .CallContext ctx fn args => c.CallContext X ctx fn args
  | .CallByName fn args => c.CallByName X fn args
  | .CallByNameContext ctx fn args => c.CallByNameContext X ctx fn args

/-- Serve requests one after the other on the same program. -/
def Compiled.serveAll (X : Deps Object Host E) :
    List (Request Object Host E) → Compiled Object → Except Panic (Compiled Object)
  | [], c => .ok c
  | req :: rest, c =>
    match c.serve X req with
    | .error p => .error p
    | .ok o => Compiled.serveAll X rest o.state

/-! ## The script before compilation -/

/-- The constant `reservedVar`. -/
def reservedVar : String := "$out"

/-- The Go statement `m[k] = v` on a map: the entry of `k` is replaced. -/
def mapStore {α : Type} (m : List (String × α)) (k : String) (v : α) : List (String × α) :=
  (k, v) :: m.filter (fun p => p.1 != k)

/-- The Go statement `delete(m, k)` on a map. -/
def mapDelete {α : Type} (m : List (String × α)) (k : String) : List (String × α) :=
  m.filter (fun p => p.1 != k)

/-- The function `NewScript`. -/
def NewScript (src : List Nat) : Script Object M W :=
  { trace := none, modules := none, vars := [], src := src, maxAllocs := -1,
    importDir := "" }

/-- The method `Script.Add`: the script afterwards and the returned error. -/
def Script.Add (X : Deps Object Host E) (s : Script Object M W) (name : String)
    (value : Host) : Script Object M W × Option (Error E) :=
  if name = reservedVar then
    (s, some (.New "variable name must be different"))
  else
    match NewVariable X name value with
    | .error err => (s, some (.foreign err))
    | .ok v => ({ s with vars := mapStore s.vars name v }, none)

/-- The method `Script.Remove`: the script afterwards and the returned flag. -/
def Script.Remove (s : Script Object M W) (name : String) : Script Object M W × Bool :=
  if name = reservedVar then
    (s, false)
  else
    match s.vars.lookup name with
    | none => (s, false)
    | some _ => ({ s with vars := mapDelete s.vars name }, true)

/-- A host edit of the pending variables. -/
inductive Edit (Host : Type)
  | Add (name : String) (value : Host)
  | Remove (name : String)

/-- Apply edits one after the other to a script. -/
def Script.edits (X : Deps Object Host E) :
    List (Edit Host) → Script Object M W → Script Object M W
  | [], s => s
  | .Add name value :: rest, s => Script.edits X rest (s.Add X name value).1
  | .Remove name :: rest, s => Script.edits X rest (s.Remove name).1

/-! ## Clones, enumeration and callbacks -/

/-- The method `Compiled.Clone`, on the program seen by value: the pointer
`bytecode` is copied, the slot table is made anew and filled with the copies of
the non-nil objects. -/
def Compiled.Clone (X : Deps Object Host E) (c : Compiled Object) : Compiled Object :=
  let globals : List (Option Object) := List.replicate c.globals.length none
  -- copy global objects
  let globals := c.globals.enum.foldl
    (fun gs p =>
      match p.2 with
      | some g => gs.set p.1 (some (X.Copy g))
      | none => gs) globals
  { bytecode := c.bytecode, indexes := c.indexes, globals := globals,
    maxAllocs := c.maxAllocs, outIdx := c.outIdx }

/-- The loop of `Compiled.GetAll` over the entries of the name index. -/
def Compiled.GetAll.loop (X : Deps Object Host E) (c : Compiled Object) :
    List (String × Nat) → List (Variable Object) → Except Panic (List (Variable Object))
  | [], vars => .ok vars
  | (name, idx) :: rest, vars =>
    match c.globals[idx]? with
    | none => .error (.indexOutOfRange idx c.globals.length)
    | some value =>
      let value := match value with
        | none => X.UndefinedValue
        | some v => v
      match NewVariable X name (X.hostOfObject value) with
      | .error _ => .error .unableToCreateVariable
      | .ok tv => Compiled.GetAll.loop X c rest (vars ++ [tv])

/-- The method `Compiled.GetAll`. -/
def Compiled.GetAll (X : Deps Object Host E) (c : Compiled Object) :
    Except Panic (List (Variable Object)) :=
  Compiled.GetAll.loop X c c.indexes []

/-- The fields of a program held in its struct. -/
def Compiled.toHandle (c : Compiled Object) : Handle Object :=
  { indexes := c.indexes, globals := c.globals, maxAllocs := c.maxAllocs, outIdx := c.outIdx }

/-- The memory right after compilation: one program, no clone. -/
def Family.ofCompiled (c : Compiled Object) : Family Object :=
  { bytecode := c.bytecode, members := [c.toHandle] }

/-- The program behind a pointer, seen by value. -/
def Family.view (F : Family Object) (p : Nat) : Option (Compiled Object) :=
  match F.members[p]? with
  | none => none
  | some h =>
    some { bytecode := F.bytecode, indexes := h.indexes, globals := h.globals,
           maxAllocs := h.maxAllocs, outIdx := h.outIdx }

/-- Write back the program behind a pointer: its struct, and the `Bytecode` it
points to. -/
def Family.put (F : Family Object) (p : Nat) (c : Compiled Object) : Family Object :=
  { bytecode := c.bytecode, members := F.members.set p c.toHandle }

/-- The method `Clone` in memory: a new struct, pointing to the same
`Bytecode`; the pointer to it is returned. -/
def Family.Clone (X : Deps Object Host E) (F : Family Object) (p : Nat) :
    Except Panic (Family Object × Nat) :=
  match F.view p with
  | none => .error .nilPointerDereference
  | some c => .ok ({ F with members := F.members ++ [(c.Clone X).toHandle] }, F.members.length)

/-- The method `Set` in memory. -/
def Family.Set (X : Deps Object Host E) (F : Family Object) (p : Nat) (name : String)
    (value : Host) : Except Panic (Family Object × Option (Error E)) :=
  match F.view p with
  | none => .error .nilPointerDereference
  | some c =>
    match c.Set X name value with
    | .error e => .error e
    | .ok (d, err) => .ok (F.put p d, err)

/-- The method `Get` in memory. -/
def Family.Get (X : Deps Object Host E) (F : Family Object) (p : Nat) (name : String) :
    Except Panic (Variable Object) :=
  match F.view p with
  | none => .error .nilPointerDereference
  | some c => c.Get X name

/-- A call request served in memory. -/
def Family.serve (X : Deps Object Host E) (F : Family Object) (p : Nat)
    (req : Request Object Host E) :
    Except Panic (Effect Object (Except (Error E) Host)) :=
  match F.view p with
  | none => .error .nilPointerDereference
  | some c =>
    match c.serve X req with
    | .error e => .error e
    | .ok o => .ok { state := F.put p o.state, ret := o.ret, runs := o.runs }

/-- The function `NewCallback`. -/
def NewCallback (fn : Option Object) (args : List Host) : Callback Object Host :=
  { fn := fn, Args := args, compiled := none }

/-- The method `Callback.Set`. -/
def Callback.Set (cb : Callback Object Host) (c : Option Nat) : Callback Object Host :=
  { cb with compiled := c }

/-- The method `Callback.Call`. -/
def Callback.Call (X : Deps Object Host E) (F : Family Object) (cb : Callback Object Host)
    (args : List Host) : Except Panic (Effect Object (Except (Error E) Host)) :=
  match cb.compiled with
  | none => .ok { state := F, ret := .error (.New "compiled code not set"), runs := [] }
  | some p => F.serve X p (.Call cb.fn args)

/-- The method `Callback.CallContext`. -/
def Callback.CallContext (X : Deps Object Host E) (F : Family Object)
    (cb : Callback Object Host) (ctx : Option (Context E)) (args : List Host) :
    Except Panic (Effect Object (Except (Error E) Host)) :=
  match cb.compiled with
  | none => .ok { state := F, ret := .error (.New "compiled code not set"), runs := [] }
  | some p => F.serve X p (.CallContext ctx cb.fn args)

/-! ## Compilation -/

/-- Modelled from the spec: `NewSymbolTable` of symbol_table.go, the empty
table. -/
def NewSymbolTable : SymbolTable :=
  { store := [], numDefinition := 0, maxDefinition := 0 }

/-- Modelled from the spec: `SymbolTable.Define` of symbol_table.go on the
top-level table: the name gets a global symbol whose index is the number of
definitions made so far. -/
def SymbolTable.Define (t : SymbolTable) (name : String) : SymbolTable × Symbol :=
  let symbol : Symbol := { Name := name, Scope := .ScopeGlobal, Index := t.numDefinition }
  ({ store := mapStore t.store name symbol,
     numDefinition := t.numDefinition + 1,
     maxDefinition := max t.maxDefinition (t.numDefinition + 1) }, symbol)

/-- Modelled from the spec: `SymbolTable.Names` of symbol_table.go, the names
in the table. -/
def SymbolTable.Names (t : SymbolTable) : List String :=
  t.store.map Prod.fst

/-- Modelled from the spec: `SymbolTable.Resolve` of symbol_table.go on the
top-level table, the symbol of a name (nil when there is none). -/
def SymbolTable.Resolve (t : SymbolTable) (name : String) : Option Symbol :=
  t.store.lookup name

/-- Modelled from the spec: `SymbolTable.MaxSymbols` of symbol_table.go, the
maximum symbol count. -/
def SymbolTable.MaxSymbols (t : SymbolTable) : Nat :=
  t.maxDefinition

/-- Modelled from the spec: `Compiler.EnableFileImport` of compiler.go. -/
def Compiler.EnableFileImport (cc : Compiler M W) (enable : Bool) : Compiler M W :=
  { cc with allowFileImport := enable }

/-- Modelled from the spec: `Compiler.SetImportDir` of compiler.go. -/
def Compiler.SetImportDir (cc : Compiler M W) (dir : String) : Compiler M W :=
  { cc with importDir := dir }

/-- The second loop of `Script.prepCompile`, over the enumerated names: define
each name and store its object at the assigned slot. -/
def Script.prepCompile.loop (s : Script Object M W) :
    List (Nat × String) → SymbolTable → List (Option Object) →
      Except Panic (SymbolTable × List (Option Object))
  | [], symbolTable, globals => .ok (symbolTable, globals)
  | (idx, name) :: rest, symbolTable, globals =>
    let defined := symbolTable.Define name
    let symbolTable := defined.1
    let symbol := defined.2
    if symbol.Index ≠ idx then
      .error (.wrongSymbolIndex idx symbol.Index)
    else
      match s.vars.lookup name with
      | none => .error .nilPointerDereference
      | some v =>
        if symbol.Index < globals.length then
          Script.prepCompile.loop s rest symbolTable (globals.set symbol.Index (some v.Object))
        else
          .error (.indexOutOfRange symbol.Index globals.length)

/-- The method `Script.prepCompile`.  The names are enumerated in the order of
the association list. -/
def Script.prepCompile (T : Toolchain Object E M W File) (s : Script Object M W) :
    Except Panic (SymbolTable × List (Option Object)) :=
  let names := s.vars.map Prod.fst
  let symbolTable := NewSymbolTable
  let globals : List (Option Object) := List.replicate T.GlobalsSize none
  Script.prepCompile.loop s names.enum symbolTable globals

/-- The loop of `Script.compile` that maps global symbol names to indexes. -/
def Script.compile.indexes (symbolTable : SymbolTable) :
    List String → List (String × Nat) → Except Panic (List (String × Nat))
  | [], globalIndexes => .ok globalIndexes
  | name :: rest, globalIndexes =>
    match symbolTable.Resolve name with
    | none => .error .nilPointerDereference
    | some symbol =>
      if symbol.Scope = .ScopeGlobal then
        Script.compile.indexes symbolTable rest (mapStore globalIndexes name symbol.Index)
      else
        Script.compile.indexes symbolTable rest globalIndexes

/-- The method `Script.compile`: a panic, an error, or the compiled program.
The engine of the bootstrap run gets a `Bytecode` struct of its own
(`cc.Bytecode()` makes a new one at each call). -/
def Script.compile (X : Deps Object Host E) (T : Toolchain Object E M W File)
    (s : Script Object M W) (ctx : Option (Context E)) :
    Except Panic (Except (Error E) (Compiled Object)) :=
  match s.prepCompile T with
  | .error p => .error p
  | .ok (symbolTable, globals) =>
    let srcFile : SourceFile := { Name := "(main)", Size := s.src.length }
    match T.ParseFile srcFile s.src with
    | .error err => .ok (.error (.foreign err))
    | .ok file =>
      let defined := symbolTable.Define reservedVar
      let symbolTable := defined.1
      let out := defined.2
      if out.Index < globals.length then
        let globals := globals.set out.Index (some X.UndefinedValue)
        let cc := T.NewCompiler srcFile symbolTable s.modules s.trace
        let cc := cc.EnableFileImport true
        let cc := cc.SetImportDir cc.importDir
        match T.Compile cc file with
        | .error err => .ok (.error (.foreign err))
        | .ok (symbolTable, bytecode) =>
          if symbolTable.MaxSymbols + 1 ≤ globals.length then
            let globals := globals.take (symbolTable.MaxSymbols + 1)
            -- global symbol names to indexes
            match Script.compile.indexes symbolTable symbolTable.Names [] with
            | .error p => .error p
            | .ok globalIndexes =>
              -- run VM once and fill globals
              let vm : VM Object :=
                { bytecode := bytecode, globals := globals, maxAllocs := s.maxAllocs }
              let r := runEngine X ctx vm
              match r.err with
              | some err => .ok (.error (.foreign err))
              | none =>
                .ok (.ok
                  { bytecode := T.RemoveDuplicates bytecode,
                    globals := r.globals,
                    indexes := globalIndexes,
                    maxAllocs := s.maxAllocs,
                    outIdx := out.Index })
          else
            .error (.sliceBoundsOutOfRange (symbolTable.MaxSymbols + 1) globals.length)
      else
        .error (.indexOutOfRange out.Index globals.length)

/-- The method `Script.CompileRun`. -/
def Script.CompileRun (X : Deps Object Host E) (T : Toolchain Object E M W File)
    (s : Script Object M W) : Except Panic (Except (Error E) (Compiled Object)) :=
  s.compile X T (some Context.Background)

/-- The method `Script.CompileRunContext`. -/
def Script.CompileRunContext (X : Deps Object Host E) (T : Toolchain Object E M W File)
    (s : Script Object M W) (ctx : Option (Context E)) :
    Except Panic (Except (Error E) (Compiled Object)) :=
  s.compile X T ctx

/-- The compiler leaves the reserved symbol as `Script.compile` defined it: `$`
is no character of an identifier, so no definition of the script replaces it. -/
def Toolchain.KeepsReserved (T : Toolchain Object E M W File) : Prop :=
  (∀ sf st m w, (T.NewCompiler sf st m w).symbolTable.store.lookup "$out" =
      st.store.lookup "$out") ∧
    (∀ cc file st bc, T.Compile cc file = .ok (st, bc) →
      st.store.lookup "$out" = cc.symbolTable.store.lookup "$out")

/-- What a read of slot `idx` reports: the object in the slot, or the undefined
value for an empty slot. -/
def Compiled.read (X : Deps Object Host E) (c : Compiled Object) (idx : Nat) : Object :=
  match c.globals[idx]? with
  | some (some v) => v
  | _ => X.UndefinedValue

/-- The method `Script.SetImportDir`: the script afterwards and the returned
error.  `abs` is `filepath.Abs`, which the file uses but does not define. -/
def Script.SetImportDir (abs : String → Except E String) (s : Script Object M W)
    (dir : String) : Script Object M W × Option (Error E) :=
  match abs dir with
  | .error err => (s, some (.foreign err))
  | .ok dir => ({ s with importDir := dir }, none)

/-- The statements `runVMContext` executes, in order: the `go` statement, then
the branch of the `select` that is taken, then the return. -/
def runVMContext.events (X : Deps Object Host E) (ctx : Context E) (vm : VM Object) :
    List (Event E) :=
  match ctx with
  | .live =>
    let err := (X.Run none vm).err
    [.spawn, .received err, .ret err]
  | .done err abortAt =>
    let r := X.Run (some abortAt) vm
    [.spawn, .done, .abort, .received r.err, .ret (some err)]

/-- The engine, told to abort before its first instruction, writes no slot. -/
def Deps.AbortsAtOnce (X : Deps Object Host E) : Prop :=
  ∀ vm, (X.Run (some 0) vm).globals = vm.globals

/-- The compiler never lowers the slot count of the symbol table it is handed:
the table is shared with `Script.compile`, and definitions only add slots. -/
def Toolchain.KeepsSlots (T : Toolchain Object E M W File) : Prop :=
  (∀ sf st m w, st.maxDefinition ≤ (T.NewCompiler sf st m w).symbolTable.maxDefinition) ∧
    (∀ cc file st bc, T.Compile cc file = .ok (st, bc) →
      cc.symbolTable.maxDefinition ≤ st.maxDefinition)

/-- The engine of the bootstrap run, for the slot table `g` that `prepCompile`
returns, the symbol table `st` the compilation leaves and its bytecode `bc`: the
sentinel is written into the slot after the host variables, and the table is
cut to the slots in use. -/
def bootVM (X : Deps Object Host E) (s : Script Object M W) (g : List (Option Object))
    (st : SymbolTable) (bc : Bytecode Object) : VM Object :=
  { bytecode := bc,
    globals := (g.set s.vars.length (some X.UndefinedValue)).take (st.MaxSymbols + 1),
    maxAllocs := s.maxAllocs }

/-- The lock operations and accesses of each method body, in program order.  A
deferred unlock is the last step; `Call` and `CallByName` are their `Context`
variants with the background context. -/
def Method.body : Method → List Step
  | .Clone => [.RLock, .read, .RUnlock]
  | .CallByNameContext => [.Lock, .read, .write, .Unlock]
  | .CallByName => [.Lock, .read, .write, .Unlock]
  | .CallContext => [.Lock, .write, .Unlock]
  | .Call => [.Lock, .write, .Unlock]
  | .Get => [.RLock, .read, .RUnlock]
  | .GetAll => [.read]
  | .Set => [.read, .write]
  | .IsDefined => [.RLock, .read, .RUnlock]

/-- One step of a goroutine on the mutex: `none` when the step blocks. -/
def RWMutex.step (m : RWMutex) : Step → Option RWMutex
  | .RLock => if m.writer then none else some { m with readers := m.readers + 1 }
  | .RUnlock => some { m with readers := m.readers - 1 }
  | .Lock => if m.writer || m.readers != 0 then none else some { m with writer := true }
  | .Unlock => some { m with writer := false }
  | .read => some m
  | .write => some m

/-- Two goroutines are both about to access the guarded state, and one of the
accesses is a write. -/
def conflict : Option Step → Option Step → Bool
  | some .write, some .write => true
  | some .write, some .read => true
  | some .read, some .write => true
  | _, _ => false

/-- Search of the interleavings of two goroutines with the remaining steps `a`
and `b`: is a state reachable in which their next steps conflict? -/
def races.go : Nat → RWMutex → List Step → List Step → Bool
  | 0, _, _, _ => false
  | fuel + 1, m, a, b =>
    conflict a.head? b.head? ||
      (match a with
        | [] => false
        | s :: a' =>
          match m.step s with
          | none => false
          | some m' => races.go fuel m' a' b) ||
      (match b with
        | [] => false
        | s :: b' =>
          match m.step s with
          | none => false
          | some m' => races.go fuel m' a b')

/-- Two goroutines run the methods `p` and `q` on the same program: can they
reach conflicting accesses? -/
def Method.races (p q : Method) : Bool :=
  races.go (p.body.length + q.body.length + 1) { readers := 0, writer := false } p.body q.body

/-- The lock a method holds from its first statement to its last: `RLock`,
`Lock`, or none. -/
def Method.guard (m : Method) : Option Step :=
  match m.body with
  | .RLock :: rest => if rest.getLast? = some .RUnlock then some .RLock else none
  | .Lock :: rest => if rest.getLast? = some .Unlock then some .Lock else none
  | _ => none

/-- The call variants. -/
def Method.isCall : Method → Bool
  | .CallByName => true
  | .CallByNameContext => true
  | .Call => true
  | .CallContext => true
  | _ => false

/-- The values of Go's type int64. -/
def IsInt64 (x : Int) : Prop := -2 ^ 63 ≤ x ∧ x < 2 ^ 63

instance (x : Int) : Decidable (IsInt64 x) := by
  unfold IsInt64
  infer_instance

/-- Go's unary minus on a `time.Duration`, an int64 in two's complement: the
result wraps, so the minimum is its own negation. -/
def time.Duration.neg (d : time.Duration) : time.Duration :=
  (-d + 2 ^ 63) % 2 ^ 64 - 2 ^ 63

/-- Go's `Time.Add`: the time `t+d`; the duration is added to the wall clock
and to the monotonic clock reading. -/
def time.Time.Add (t : time.Time) (d : time.Duration) : time.Time :=
  { t with wall := t.wall + d, mono := t.mono.map (fun m => m + d) }

/-- Go's `Time.After`: is the instant `t` after `u`?  When both times hold a
monotonic clock reading the readings alone are compared. -/
def time.Time.After (t u : time.Time) : Bool :=
  match t.mono, u.mono with
  | some a, some b => decide (b < a)
  | _, _ => decide (u.wall < t.wall)

/-- Go's `Time.Before`: is the instant `t` before `u`? -/
def time.Time.Before (t u : time.Time) : Bool :=
  match t.mono, u.mono with
  | some a, some b => decide (a < b)
  | _, _ => decide (t.wall < u.wall)

/-- Go's `Time.Equal`: do `t` and `u` represent the same instant?  The
locations are not compared. -/
def time.Time.Equal (t u : time.Time) : Bool :=
  match t.mono, u.mono with
  | some a, some b => decide (a = b)
  | _, _ => decide (t.wall = u.wall)

/-- Modelled from the spec: `TengoBool` of the package `stdlib`, the object
`tengo.TrueValue` or `tengo.FalseValue` of a Go boolean. -/
def Stdlib.TengoBool {O : Type} (b : Bool) : Stdlib.Obj O := .bool b

/-- The function `CreateTime`: the `Time` of a Go time. -/
def Stdlib.CreateTime (t : time.Time) : Stdlib.Time := { time := t }

/-- The function `ToTime`: the type assertion `o.(*Time)`; `none` is the
result `(nil, false)`. -/
def Stdlib.ToTime {O : Type} (o : Option (Stdlib.Obj O)) : Option Stdlib.Time :=
  match o with
  | some (.time t) => some t
  | _ => none

/-- The method `Time.arithmeticOp`. -/
def Stdlib.Time.arithmeticOp {O : Type} (t : Stdlib.Time) (op : token.Token)
    (rhs : time.Duration) : Option (Stdlib.Obj O) × Option Stdlib.Err :=
  match op with
  | .Add => (some (.time (Stdlib.CreateTime (t.time.Add rhs))), none)
  | .Sub => (some (.time (Stdlib.CreateTime (t.time.Add (time.Duration.neg rhs)))), none)
  | _ => (none, some .ErrInvalidOperator)

/-- The method `Time.compareOp`. -/
def Stdlib.Time.compareOp {O : Type} (t : Stdlib.Time) (op : token.Token)
    (rhs : Stdlib.Time) : Option (Stdlib.Obj O) × Option Stdlib.Err :=
  match op with
  | .Greater => (some (Stdlib.TengoBool (t.time.After rhs.time)), none)
  | .GreaterEq =>
    (some (Stdlib.TengoBool (t.time.After rhs.time || t.time.Equal rhs.time)), none)
  | .Less => (some (Stdlib.TengoBool (t.time.Before rhs.time)), none)
  | .LessEq =>
    (some (Stdlib.TengoBool (t.time.Before rhs.time || t.time.Equal rhs.time)), none)
  | _ => (none, some .ErrInvalidOperator)

/-- The method `Time.BinaryOp`: the returned object and error.  The conversion
`time.Duration(d)` of an int64 is the identity. -/
def Stdlib.Time.BinaryOp {O : Type} (X : Stdlib.Deps O) (t : Stdlib.Time)
    (op : token.Token) (rhs : Option (Stdlib.Obj O)) :
    Option (Stdlib.Obj O) × Option Stdlib.Err :=
  match X.ToInt64 rhs with
  | some d => t.arithmeticOp op d
  | none =>
    match rhs with
    | some (.time u) => t.compareOp op u
    | _ => (none, some .ErrInvalidOperator)

/-- The method `Time.Equals`. -/
def Stdlib.Time.Equals {O : Type} (t : Stdlib.Time) (o : Option (Stdlib.Obj O)) : Bool :=
  match Stdlib.ToTime o with
  | none => false
  | some u => t.time.Equal u.time

/-- The method `Time.GoTime`. -/
def Stdlib.Time.GoTime (t : Stdlib.Time) : time.Time := t.time

/-! ## The datetime module -/

/-- Go's constant `time.Nanosecond`. -/
def time.Nanosecond : time.Duration := 1

/-- Go's constant `time.Microsecond`. -/
def time.Microsecond : time.Duration := 1000 * time.Nanosecond

/-- Go's constant `time.Millisecond`. -/
def time.Millisecond : time.Duration := 1000 * time.Microsecond

/-- Go's constant `time.Second`. -/
def time.Second : time.Duration := 1000 * time.Millisecond

/-- Go's constant `time.Minute`. -/
def time.Minute : time.Duration := 60 * time.Second

/-- Go's constant `time.Hour`. -/
def time.Hour : time.Duration := 60 * time.Minute

/-- Go's constants `time.Sunday` to `time.Saturday`, of the type `Weekday`, an
`int`: `Sunday` is `iota`, that is 0, and each next day one more. -/
def time.Sunday : Int := 0

/-- Go's constant `time.Monday`. -/
def time.Monday : Int := time.Sunday + 1

/-- Go's constant `time.Tuesday`. -/
def time.Tuesday : Int := time.Monday + 1

/-- Go's constant `time.Wednesday`. -/
def time.Wednesday : Int := time.Tuesday + 1

/-- Go's constant `time.Thursday`. -/
def time.Thursday : Int := time.Wednesday + 1

/-- Go's constant `time.Friday`. -/
def time.Friday : Int := time.Thursday + 1

/-- Go's constant `time.Saturday`. -/
def time.Saturday : Int := time.Friday + 1

/-- Go's constants `time.January` to `time.December`, of the type `Month`, an
`int`: `January` is `1 + iota`, that is 1, and each next month one more. -/
def time.January : Int := 1

/-- Go's constant `time.February`. -/
def time.February : Int := time.January + 1

/-- Go's constant `time.March`. -/
def time.March : Int := time.February + 1

/-- Go's constant `time.April`. -/
def time.April : Int := time.March + 1

/-- Go's constant `time.May`. -/
def time.May : Int := time.April + 1

/-- Go's constant `time.June`. -/
def time.June : Int := time.May + 1

/-- Go's constant `time.July`. -/
def time.July : Int := time.June + 1

/-- Go's constant `time.August`. -/
def time.August : Int := time.July + 1

/-- Go's constant `time.September`. -/
def time.September : Int := time.August + 1

/-- Go's constant `time.October`. -/
def time.October : Int := time.September + 1

/-- Go's constant `time.November`. -/
def time.November : Int := time.October + 1

/-- Go's constant `time.December`. -/
def time.December : Int := time.November + 1

/-- The entries of the map `datetimeModule` that are a `&tengo.Int`: the key
and the `Value`, in the order of the source.  The conversion `int64(...)` of a
`Duration`, a `Weekday` or a `Month` is the identity. -/
def Stdlib.datetimeModule.ints : List (String × Int) :=
  [ -- Time unit constants.
    ("nanosecond", time.Nanosecond),
    ("microsecond", time.Microsecond),
    ("millisecond", time.Millisecond),
    ("second", time.Second),
    ("minute", time.Minute),
    ("hour", time.Hour),
    -- Weekday constants.
    ("sunday", time.Sunday),
    ("monday", time.Monday),
    ("tuesday", time.Tuesday),
    ("wednesday", time.Wednesday),
    ("thursday", time.Thursday),
    ("friday", time.Friday),
    ("saturday", time.Saturday),
    -- Month constants.
    ("january", time.January),
    ("february", time.February),
    ("march", time.March),
    ("april", time.April),
    ("may", time.May),
    ("june", time.June),
    ("july", time.July),
    ("august", time.August),
    ("september", time.September),
    ("october", time.October),
    ("november", time.November),
    ("december", time.December) ]

/-- The method `Time.TypeName`. -/
def Stdlib.Time.TypeName (_ : Stdlib.Time) : String := "datetime.Time"

/-- The method `TypeName` of an object: that of a `Time`, or that of the
package `tengo` for any other object. -/
def Stdlib.Obj.TypeName {O : Type} (X : Stdlib.Deps O) (o : Stdlib.Obj O) : String :=
  match o with
  | .time t => t.TypeName
  | o => X.TypeName o

/-- The function `datetimeNow`.  An argument list holds non-nil objects, as
the engine passes them.  In the functions below the elements `args[i]` are
named by a match on the list, whose last alternative is never reached after the
check of the count. -/
def Stdlib.datetimeNow {O : Type} (G : time.Package) (args : List (Stdlib.Obj O)) :
    Option (Stdlib.Obj O) × Option Stdlib.Err :=
  if args.length ≠ 0 then
    (none, some .ErrWrongNumArguments)
  else
    (some (.time (Stdlib.CreateTime G.Now)), none)

/-- The function `datetimeParse`. -/
def Stdlib.datetimeParse {O : Type} (X : Stdlib.Deps O) (G : time.Package)
    (args : List (Stdlib.Obj O)) : Option (Stdlib.Obj O) × Option Stdlib.Err :=
  if args.length ≠ 2 then
    (none, some .ErrWrongNumArguments)
  else
    match args with
    | [a0, a1] =>
      match X.ToString (some a0) with
      | none => (none, some (.ErrInvalidArgumentType "layout" "string" (a0.TypeName X)))
      | some layout =>
        match X.ToString (some a1) with
        | none => (none, some (.ErrInvalidArgumentType "value" "string" (a1.TypeName X)))
        | some value =>
          match G.Parse layout value with
          | .error err => (none, some (.foreign err))
          | .ok parsed => (some (.time (Stdlib.CreateTime parsed)), none)
    | _ => (none, some .ErrWrongNumArguments)

/-- The function `datetimeNewTime`.  After the check of the count the list has
six arguments and `rest`, which holds `args[6]` when `len(args) >= 7` and
`args[7]` as well when `len(args) == 8`; the conversion `time.Month(month)` is
the identity. -/
def Stdlib.datetimeNewTime {O : Type} (X : Stdlib.Deps O) (G : time.Package)
    (args : List (Stdlib.Obj O)) : Option (Stdlib.Obj O) × Option Stdlib.Err :=
  if args.length < 6 ∨ args.length > 8 then
    (none, some .ErrWrongNumArguments)
  else
    match args with
    | a0 :: a1 :: a2 :: a3 :: a4 :: a5 :: rest =>
      match X.ToInt (some a0) with
      | none => (none, some (.ErrInvalidArgumentType "year" "int" (a0.TypeName X)))
      | some year =>
      match X.ToInt (some a1) with
      | none => (none, some (.ErrInvalidArgumentType "month" "int" (a1.TypeName X)))
      | some month =>
      match X.ToInt (some a2) with
      | none => (none, some (.ErrInvalidArgumentType "days" "int" (a2.TypeName X)))
      | some day =>
      match X.ToInt (some a3) with
      | none => (none, some (.ErrInvalidArgumentType "hour" "int" (a3.TypeName X)))
      | some hour =>
      match X.ToInt (some a4) with
      | none => (none, some (.ErrInvalidArgumentType "minute" "int" (a4.TypeName X)))
      | some minute =>
      match X.ToInt (some a5) with
      | none => (none, some (.ErrInvalidArgumentType "second" "int" (a5.TypeName X)))
      | some second =>
      match rest with
      | [] =>
        (some (.time (Stdlib.CreateTime
          (G.Date year month day hour minute second 0 G.Local))), none)
      | [a6] =>
        match X.ToInt (some a6) with
        | none => (none, some (.ErrInvalidArgumentType "nanosecond" "int" (a6.TypeName X)))
        | some nsec =>
          (some (.time (Stdlib.CreateTime
            (G.Date year month day hour minute second nsec G.Local))), none)
      | a6 :: a7 :: _ =>
        match X.ToInt (some a6) with
        | none => (none, some (.ErrInvalidArgumentType "nanosecond" "int" (a6.TypeName X)))
        | some nsec =>
          match X.ToString (some a7) with
          | none => (none, some (.ErrInvalidArgumentType "location" "string" (a7.TypeName X)))
          | some loc =>
            match G.LoadLocation loc with
            | .error err => (none, some (.foreign err))
            | .ok parsedLoc =>
              (some (.time (Stdlib.CreateTime
                (G.Date year month day hour minute second nsec parsedLoc))), none)
    | _ => (none, some .ErrWrongNumArguments)

/-- The function `datetimeParseDuration`. -/
def Stdlib.datetimeParseDuration {O : Type} (X : Stdlib.Deps O) (G : time.Package)
    (args : List (Stdlib.Obj O)) : Option (Stdlib.Obj O) × Option Stdlib.Err :=
  if args.length ≠ 1 then
    (none, some .ErrWrongNumArguments)
  else
    match args with
    | [a0] =>
      match X.ToString (some a0) with
      | none => (none, some (.ErrInvalidArgumentType "duration" "string" (a0.TypeName X)))
      | some durationString =>
        match G.ParseDuration durationString with
        | .error err => (none, some (.foreign err))
        | .ok duration => (some (.other (X.NewInt duration)), none)
    | _ => (none, some .ErrWrongNumArguments)

/-- The function `timeDate`: the member `date` of the time `t`. -/
def Stdlib.timeDate {O : Type} (X : Stdlib.Deps O) (G : time.Package) (t : time.Time)
    (args : List (Stdlib.Obj O)) : Option (Stdlib.Obj O) × Option Stdlib.Err :=
  if args.length ≠ 0 then
    (none, some .ErrWrongNumArguments)
  else
    (some (.other (X.NewIntArray
      [(G.TimeDate t).1, (G.TimeDate t).2.1, (G.TimeDate t).2.2])), none)

/-- The function `timeAddDate`: the member `add_date` of the time `t`. -/
def Stdlib.timeAddDate {O : Type} (X : Stdlib.Deps O) (G : time.Package) (t : time.Time)
    (args : List (Stdlib.Obj O)) : Option (Stdlib.Obj O) × Option Stdlib.Err :=
  if args.length ≠ 3 then
    (none, some .ErrWrongNumArguments)
  else
    match args with
    | [a0, a1, a2] =>
      match X.ToInt (some a0) with
      | none => (none, some (.ErrInvalidArgumentType "years" "int" (a0.TypeName X)))
      | some years =>
        match X.ToInt (some a1) with
        | none => (none, some (.ErrInvalidArgumentType "months" "int" (a1.TypeName X)))
        | some month =>
          match X.ToInt (some a2) with
          | none => (none, some (.ErrInvalidArgumentType "days" "int" (a2.TypeName X)))
          | some days =>
            (some (.time (Stdlib.CreateTime (G.TimeAddDate t years month days))), none)
    | _ => (none, some .ErrWrongNumArguments)

/-- The function `timeClock`: the member `clock` of the time `t`. -/
def Stdlib.timeClock {O : Type} (X : Stdlib.Deps O) (G : time.Package) (t : time.Time)
    (args : List (Stdlib.Obj O)) : Option (Stdlib.Obj O) × Option Stdlib.Err :=
  if args.length ≠ 0 then
    (none, some .ErrWrongNumArguments)
  else
    (some (.other (X.NewIntArray
      [(G.TimeClock t).1, (G.TimeClock t).2.1, (G.TimeClock t).2.2])), none)

/-- The function `timeUTC`: the member `utc` of the time `t`. -/
def Stdlib.timeUTC {O : Type} (G : time.Package) (t : time.Time)
    (args : List (Stdlib.Obj O)) : Option (Stdlib.Obj O) × Option Stdlib.Err :=
  if args.length ≠ 0 then
    (none, some .ErrWrongNumArguments)
  else
    (some (.time (Stdlib.CreateTime (G.TimeUTC t))), none)

/-- The entries of the map `datetimeModule` that are a `&tengo.UserFunction`:
the key, which is also the `Name`, and the `Value`. -/
def Stdlib.datetimeModule.funcs {O : Type} (X : Stdlib.Deps O) (G : time.Package) :
    List (String × (List (Stdlib.Obj O) → Option (Stdlib.Obj O) × Option Stdlib.Err)) :=
  [ ("now", Stdlib.datetimeNow G),
    ("new", Stdlib.datetimeNewTime X G),
    ("parse", Stdlib.datetimeParse X G),
    ("parse_duration", Stdlib.datetimeParseDuration X G) ]

/-- The members of the map `CreateTime(t)` builds whose functions are defined
in datetime_time.go: the key, which is also the `Name`, and the `Value`.  The
other members are made by helpers of the package that are not among the
sources. -/
def Stdlib.CreateTime.funcs {O : Type} (X : Stdlib.Deps O) (G : time.Package) (t : time.Time) :
    List (String × (List (Stdlib.Obj O) → Option (Stdlib.Obj O) × Option Stdlib.Err)) :=
  [ ("add_date", Stdlib.timeAddDate X G t),
    ("clock", Stdlib.timeClock X G t),
    ("date", Stdlib.timeDate X G t),
    ("utc", Stdlib.timeUTC G t) ]

/-! ## Vocabulary of the properties of the datetime functions -/

/-- The value of the field `Expected` for a kind of parameter. -/
def Stdlib.ArgKind.Expected : Stdlib.ArgKind → String
  | .int => "int"
  | .string => "string"

/-- Does the object convert to the kind a parameter expects? -/
def Stdlib.Deps.converts {O : Type} (X : Stdlib.Deps O) :
    Stdlib.ArgKind → Stdlib.Obj O → Bool
  | .int, a => (X.ToInt (some a)).isSome
  | .string, a => (X.ToString (some a)).isSome

/-- The parameters of `datetime.new` in the words of the specification, from
left to right: the name reported for the parameter and the kind it expects. -/
def Stdlib.datetimeNewTime.params : List (String × Stdlib.ArgKind) :=
  [("year", .int), ("month", .int), ("days", .int), ("hour", .int), ("minute", .int),
    ("second", .int), ("nanosecond", .int), ("location", .string)]

/-- The parameters of `add_date` in the words of the specification. -/
def Stdlib.timeAddDate.params : List (String × Stdlib.ArgKind) :=
  [("years", .int), ("months", .int), ("days", .int)]

/-- The check of the arguments in the words of the specification: going from
left to right, the error for the first argument that does not convert to the
kind its parameter expects, with `Found` the name of its type; `none` when every
argument converts. -/
def Stdlib.firstInvalid {O : Type} (X : Stdlib.Deps O) :
    List (String × Stdlib.ArgKind) → List (Stdlib.Obj O) → Option Stdlib.Err
  | p :: ps, a :: as =>
    if X.converts p.2 a then
      Stdlib.firstInvalid X ps as
    else
      some (.ErrInvalidArgumentType p.1 p.2.Expected (a.TypeName X))
  | _, _ => none

/-- The function `time.Date` returns a time in the location it is given. -/
def time.Package.DateInLocation (G : time.Package) : Prop :=
  ∀ year month day hour min sec nsec loc,
    (G.Date year month day hour min sec nsec loc).loc = loc

/-- A function of the library checks the count of its arguments against the
range `lo..hi`: it returns `ErrWrongNumArguments` exactly for the argument
lists whose length is outside the range, and then with the nil object. -/
def Stdlib.ChecksCount {O : Type}
    (f : List (Stdlib.Obj O) → Option (Stdlib.Obj O) × Option Stdlib.Err) (lo hi : Nat) : Prop :=
  ∀ args : List (Stdlib.Obj O),
    ((f args).2 = some .ErrWrongNumArguments ↔ ¬ (lo ≤ args.length ∧ args.length ≤ hi)) ∧
      (¬ (lo ≤ args.length ∧ args.length ≤ hi) → f args = (none, some .ErrWrongNumArguments))

/-- The memory right after compilation: one program, with its slot table at
address 0. -/
def Memory.ofCompiled (c : Compiled Object) : Memory Object :=
  { bytecode := c.bytecode, arrays := [c.globals],
    programs := [{ indexes := c.indexes, globals := 0, maxAllocs := c.maxAllocs,
                   outIdx := c.outIdx }] }

/-- The program behind a pointer, seen by value: its struct, with the slot
table read from the array the struct points to. -/
def Memory.view (S : Memory Object) (p : Nat) : Option (Compiled Object) :=
  match S.programs[p]? with
  | none => none
  | some l =>
    match S.arrays[l.globals]? with
    | none => none
    | some g =>
      some { bytecode := S.bytecode, indexes := l.indexes, globals := g,
             maxAllocs := l.maxAllocs, outIdx := l.outIdx }

/-- The assignment `s[idx] = v` through a slice whose backing array is at
`addr`: the array is updated in place, so every slice on it sees the value. -/
def Memory.store (arrays : List (List (Option Object))) (addr idx : Nat)
    (v : Option Object) : List (List (Option Object)) :=
  match arrays[addr]? with
  | none => arrays
  | some g => arrays.set addr (g.set idx v)

/-- The method `Compiled.Clone` in memory.  The struct literal copies `indexes`,
`bytecode`, `maxAllocs` and `outIdx`; `make([]Object, len(c.globals))` allocates
a new array, at an address not in use; the loop then writes the copies of the
non-nil objects of the origin through the slice of the clone.  The pointer to
the new struct is returned. -/
def Memory.Clone (X : Deps Object Host E) (S : Memory Object) (p : Nat) :
    Except Panic (Memory Object × Nat) :=
  match S.programs[p]? with
  | none => .error .nilPointerDereference
  | some c =>
    match S.arrays[c.globals]? with
    | none => .error .nilPointerDereference
    | some cglobals =>
      let made := S.arrays.length
      let arrays := S.arrays ++ [List.replicate cglobals.length none]
      let clone : Layout :=
        { indexes := c.indexes, globals := made, maxAllocs := c.maxAllocs, outIdx := c.outIdx }
      -- copy global objects
      let arrays := cglobals.enum.foldl
        (fun arrays e =>
          match e.2 with
          | some g => Memory.store arrays clone.globals e.1 (some (X.Copy g))
          | none => arrays) arrays
      .ok ({ bytecode := S.bytecode, arrays := arrays, programs := S.programs ++ [clone] },
        S.programs.length)

/-- The method `Compiled.Set` in memory: `c.globals[idx] = obj` writes into the
array the struct of `c` points to. -/
def Memory.Set (X : Deps Object Host E) (S : Memory Object) (p : Nat) (name : String)
    (value : Host) : Except Panic (Memory Object × Option (Error E)) :=
  match S.programs[p]? with
  | none => .error .nilPointerDereference
  | some c =>
    match X.FromInterface value with
    | .error err => .ok (S, some (.foreign err))
    | .ok obj =>
      match c.indexes.lookup name with
      | none => .ok (S, some (.New ("'" ++ name ++ "' is not defined")))
      | some idx =>
        match S.arrays[c.globals]? with
        | none => .error .nilPointerDereference
        | some g =>
          if idx < g.length then
            .ok ({ S with arrays := Memory.store S.arrays c.globals idx (some obj) }, none)
          else
            .error (.indexOutOfRange idx g.length)

/-- Every struct points to an array of the memory: there is no dangling slice. -/
def Memory.WellFormed (S : Memory Object) : Prop :=
  ∀ l ∈ S.programs, l.globals < S.arrays.length

/-- The method `Compiled.Get` in memory: it reads the struct and the array the
struct points to. -/
def Memory.Get (X : Deps Object Host E) (S : Memory Object) (p : Nat) (name : String) :
    Except Panic (Variable Object) :=
  match S.view p with
  | none => .error .nilPointerDereference
  | some c => c.Get X name

/-- A context that is already cancelled, or past its deadline, when the method
is invoked, `err` being its `ctx.Err()`, as the `select` of `runVMContext` may
observe it.  `ctx.Done()` is closed from the start, so the second case can
proceed, and the abort request then reaches the engine at some instruction
boundary.  The first case can proceed as well, once the goroutine started just
before has finished `vm.Run()` and is at its send on `errch`; if it is there
when the `select` is evaluated, both cases can proceed, and `select` takes
either.  `runVMContext` does not read `ctx.Err()` before the `select`, so the
observation `live` is not ruled out. -/
def Context.AlreadyCancelled (err : E) (ctx : Context E) : Prop :=
  ctx = .live ∨ ∃ abortAt, ctx = .done err abortAt

end Operations

/-! ## A concrete host

A small instance of the collaborators, on which the operations can be evaluated:
integers, strings, two callables, and a stack engine for the four opcodes. -/

namespace Demo

/-- Script values of the example host: `Sum` is a callable adding its integer
arguments, `Fail` a callable that always raises. -/
inductive Obj
  | Undefined
  | Int (v : Int)
  | String (s : String)
  | Sum
  | Fail
  deriving DecidableEq, Repr

/-- Host values of the example host; `chan` stands for a value that has no
script counterpart. -/
inductive HostVal
  | null
  | int (v : Int)
  | str (s : String)
  | obj (o : Obj)
  | chan
  deriving DecidableEq, Repr

/-- Marshalling of the example host. -/
def fromInterface : HostVal → Except String Obj
  | .null => .ok .Undefined
  | .int v => .ok (.Int v)
  | .str s => .ok (.String s)
  | .obj o => .ok o
  | .chan => .error "unsupported type"

/-- Unmarshalling of the example host. -/
def toInterface : Option Obj → HostVal
  | none => .null
  | some .Undefined => .null
  | some (.Int v) => .int v
  | some (.String s) => .str s
  | some o => .obj o

/-- Encoder of the example host: the opcode number, then the operands. -/
def makeInstruction (op : Opcode) (operands : List Nat) : List Nat :=
  (match op with
    | .OpConstant => 0
    | .OpCall => 1
    | .OpSetGlobal => 2
    | .OpSuspend => 3) :: operands

/-- Sum of the integers among the given objects. -/
def sumInts : List (Option Obj) → Int
  | [] => 0
  | some (.Int v) :: rest => v + sumInts rest
  | _ :: rest => sumInts rest

/-- Stack engine of the example host.  It stops at `OpSuspend`, at an unknown
instruction, on a failing call, or at the instruction boundary `abort`. -/
def exec (consts : List (Option Obj)) :
    List Nat → Option Nat → List (Option Obj) → List (Option Obj) →
      List (Option Obj) × Option String
  | _, some 0, _, globals => (globals, none)
  | 0 :: k :: rest, abort, stack, globals =>
    exec consts rest (abort.map Nat.pred) (consts.getD k none :: stack) globals
  | 1 :: n :: rest, abort, stack, globals =>
    match stack.drop n with
    | some .Sum :: below =>
      exec consts rest (abort.map Nat.pred)
        (some (.Int (sumInts (stack.take n))) :: below) globals
    | some .Fail :: _ => (globals, some "Runtime Error: failed")
    | _ => (globals, some "Runtime Error: not callable")
  | 2 :: g :: rest, abort, v :: stack, globals =>
    exec consts rest (abort.map Nat.pred) stack (globals.set g v)
  | _, _, _, globals => (globals, none)

/-- Engine run of the example host. -/
def run (abort : Option Nat) (vm : VM Obj) : RunResult Obj String :=
  let r := exec vm.bytecode.Constants vm.bytecode.MainFunction.Instructions abort [] vm.globals
  { bytecode := vm.bytecode, globals := r.1, err := r.2 }

/-- The collaborators of the example host. -/
def deps : Deps Obj HostVal String where
  UndefinedValue := .Undefined
  CanCall := fun o => o = .Sum || o = .Fail
  Copy := fun o => o
  FromInterface := fromInterface
  ToInterface := toInterface
  hostOfObject := .obj
  MakeInstruction := makeInstruction
  Run := run

/-- A compiled program of the example host: globals `a = 5`, `add = Sum`,
`boom = Fail`, an unassigned `u`, and the output slot. -/
def prog : Compiled Obj where
  bytecode := { MainFunction := { Instructions := [3] }, Constants := [some (.Int 5)] }
  indexes := [("a", 0), ("add", 1), ("boom", 2), ("u", 3), ("$out", 4)]
  globals := [some (.Int 5), some .Sum, some .Fail, none, some .Undefined]
  maxAllocs := -1
  outIdx := 4

/-- A script of the example host with one pending variable, `b = 5`. -/
def script : Script Obj Unit Unit where
  trace := none
  modules := none
  vars := [("b", { name := "b", value := .Int 5 })]
  src := []
  maxAllocs := -1
  importDir := ""

/-- The parser and compiler of the example host.  A source byte is the name of
a variable the script defines at top level; the compiler knows one builtin,
`len`, rejects the reserved name, and emits a program that suspends at once. -/
def toolchain : Toolchain Obj String Unit Unit (List String) where
  GlobalsSize := 8
  ParseFile := fun _ src => .ok (src.map fun b => String.singleton (Char.ofNat b))
  NewCompiler := fun sf st m w =>
    { file := sf,
      symbolTable :=
        { st with store := mapStore st.store "len" { Name := "len", Scope := .ScopeBuiltin,
                                                     Index := 0 } },
      modules := m, trace := w, allowFileImport := false, importDir := "" }
  Compile := fun cc file =>
    if file.contains "$out" then
      .error "illegal character"
    else
      .ok (file.foldl (fun st n => (st.Define n).1) cc.symbolTable,
        { MainFunction := { Instructions := [3] }, Constants := [] })
  RemoveDuplicates := fun bc => bc

/-- The script of the example host with its source: it defines `a`. -/
def source : Script Obj Unit Unit :=
  { script with src := [97] }

/-- The program `Script.compile` returns for `source`: `b` from the host, the
output slot, and `a` defined (and left unassigned) by the script. -/
def compiled : Compiled Obj where
  bytecode := { MainFunction := { Instructions := [3] }, Constants := [] }
  indexes := [("b", 0), ("$out", 1), ("a", 2)]
  globals := [some (.Int 5), some .Undefined, none, none]
  maxAllocs := -1
  outIdx := 1

/-- The function `filepath.Abs` of the example host, whose working directory is
`/work`. -/
def abs (dir : String) : Except String String :=
  match dir.data with
  | '/' :: _ => .ok dir
  | _ => .ok ("/work/" ++ dir)

/-- A compiler of the example host that reports the import directory it is
configured with: compilation fails, and the message is that directory. -/
def dirProbe : Toolchain Obj String Unit Unit (List String) :=
  { toolchain with Compile := fun cc _ => .error cc.importDir }

/-- The objects of the example host other than times and booleans: integers,
strings, arrays of integers and the undefined value. -/
inductive Val
  | Int (v : Int)
  | String (s : String)
  | IntArray (vs : List Int)
  | Undefined
  deriving DecidableEq, Repr

/-- The value of a string of decimal digits, after the digits read so far. -/
def parseDigits : List Char → Nat → Option Nat
  | [], acc => some acc
  | c :: cs, acc =>
    if 48 ≤ c.toNat ∧ c.toNat ≤ 57 then parseDigits cs (acc * 10 + (c.toNat - 48)) else none

/-- The integer a string denotes in base 10, with an optional sign. -/
def parseInt (s : String) : Option Int :=
  match s.data with
  | [] => none
  | '-' :: c :: cs => (parseDigits (c :: cs) 0).map (fun n => -(n : Int))
  | '+' :: c :: cs => (parseDigits (c :: cs) 0).map (fun n => (n : Int))
  | cs => (parseDigits cs 0).map (fun n => (n : Int))

/-- The function `ToInt64` of the example host: an integer converts to itself,
a boolean to 1 or 0, a string to the int64 it denotes in base 10; a time and
nil do not convert. -/
def toInt64 : Option (Stdlib.Obj Val) → Option Int
  | some (.bool b) => some (if b then 1 else 0)
  | some (.other (.Int v)) => some v
  | some (.other (.String s)) =>
    match parseInt s with
    | some v => if IsInt64 v then some v else none
    | none => none
  | _ => none

/-- The function `ToString` of the example host: a string converts to itself,
an integer to its decimal form, a boolean to `true` or `false`; the undefined
value and nil do not convert, and the example host displays a time and an array
by the name of their type. -/
def toStr : Option (Stdlib.Obj Val) → Option String
  | some (.other (.String s)) => some s
  | some (.other (.Int v)) => some (toString v)
  | some (.bool b) => some (if b then "true" else "false")
  | some (.time _) => some "datetime.Time"
  | some (.other (.IntArray _)) => some "immutable-array"
  | _ => none

/-- The method `TypeName` of the objects of the example host. -/
def typeName : Stdlib.Obj Val → String
  | .other (.Int _) => "int"
  | .other (.String _) => "string"
  | .other (.IntArray _) => "immutable-array"
  | .other .Undefined => "undefined"
  | .bool _ => "bool"
  | .time _ => "datetime.Time"

/-- The example host of the datetime library; a Go `int` has 64 bits, so
`ToInt` converts as `ToInt64` does. -/
def stdlib : Stdlib.Deps Val :=
  { ToInt64 := toInt64,
    ToInt := toInt64,
    ToString := toStr,
    TypeName := typeName,
    NewInt := .Int,
    NewIntArray := .IntArray }

/-- The time 2003-12-26 20:04:37 UTC, in nanoseconds since the Unix epoch,
without a monotonic clock reading. -/
def base : Stdlib.Time :=
  Stdlib.CreateTime { wall := 1072469077000000000, mono := none, loc := "UTC" }

/-- A time read from the clock, with a monotonic clock reading. -/
def now : Stdlib.Time :=
  Stdlib.CreateTime { wall := 1793822400000000000, mono := some 5000, loc := "Local" }

/-- The number of days from 1970-01-01 to the given day of the proleptic
Gregorian calendar, for a month from 1 to 12. -/
def daysFromCivil (y m d : Int) : Int :=
  let y := if m ≤ 2 then y - 1 else y
  let era := y / 400
  let yoe := y - era * 400
  let doy := (153 * (if m > 2 then m - 3 else m + 9) + 2) / 5 + d - 1
  let doe := yoe * 365 + yoe / 4 - yoe / 100 + doy
  era * 146097 + doe - 719468

/-- The year, month and day of the day that many days after 1970-01-01. -/
def civilFromDays (z : Int) : Int × Int × Int :=
  let z := z + 719468
  let era := z / 146097
  let doe := z - era * 146097
  let yoe := (doe - doe / 1460 + doe / 36524 - doe / 146096) / 365
  let doy := doe - (365 * yoe + yoe / 4 - yoe / 100)
  let mp := (5 * doy + 2) / 153
  let d := doy - (153 * mp + 2) / 5 + 1
  let m := if mp < 10 then mp + 3 else mp - 9
  (if m ≤ 2 then yoe + era * 400 + 1 else yoe + era * 400, m, d)

/-- The function `time.Date` of the example host, whose locations, `UTC` and
`Local`, are both at the offset zero, so that the wall clock of a location is
the instant: the values may be outside their usual ranges, and the month is
normalized into the year. -/
def date (year month day hour min sec nsec : Int) (loc : time.Location) : time.Time :=
  let y := year + (month - 1) / 12
  let m := (month - 1) % 12 + 1
  { wall := ((daysFromCivil y m 1 + (day - 1)) * 86400 + hour * 3600 + min * 60 + sec) *
      1000000000 + nsec,
    mono := none,
    loc := loc }

/-- The function `time.LoadLocation` of the example host, which has no time zone
database: it knows `UTC`, also under the empty name, and `Local`, and fails on
every other name. -/
def loadLocation (name : String) : Except String time.Location :=
  if name = "" ∨ name = "UTC" then .ok "UTC"
  else if name = "Local" then .ok "Local"
  else .error ("unknown time zone " ++ name)

/-- The methods `Date` and `Clock` of the example host read the wall clock at
the offset zero. -/
def timeDate (t : time.Time) : Int × Int × Int :=
  civilFromDays (t.wall / 86400000000000)

/-- The method `Clock` of the example host. -/
def timeClock (t : time.Time) : Int × Int × Int :=
  let s := (t.wall / 1000000000) % 86400
  (s / 3600, (s % 3600) / 60, s % 60)

/-- The method `AddDate` of the example host: the date of the time with the
years, months and days added, at the same time of the day, without a monotonic
clock reading. -/
def timeAddDate (t : time.Time) (years months days : Int) : time.Time :=
  date ((timeDate t).1 + years) ((timeDate t).2.1 + months) ((timeDate t).2.2 + days)
    (timeClock t).1 (timeClock t).2.1 (timeClock t).2.2 (t.wall % 1000000000) t.loc

/-- The package `time` of the example host.  It parses no layout, and no
duration but `0`. -/
def timePkg : time.Package :=
  { Now := now.time,
    Local := "Local",
    LoadLocation := loadLocation,
    Date := date,
    Parse := fun layout value =>
      .error ("parsing time \"" ++ value ++ "\" as \"" ++ layout ++ "\""),
    ParseDuration := fun s =>
      if s = "0" then .ok 0 else .error ("time: invalid duration \"" ++ s ++ "\""),
    TimeAddDate := timeAddDate,
    TimeUTC := fun t => { t with loc := "UTC" },
    TimeDate := timeDate,
    TimeClock := timeClock }

/-- A memory in which two structs hold the slice of the same array: what
`Clone` would build if it copied the slice `c.globals` instead of making a new
one. -/
def aliased : Memory Obj :=
  { bytecode := prog.bytecode, arrays := [prog.globals],
    programs := [{ indexes := prog.indexes, globals := 0, maxAllocs := prog.maxAllocs,
                   outIdx := prog.outIdx },
                 { indexes := prog.indexes, globals := 0, maxAllocs := prog.maxAllocs,
                   outIdx := prog.outIdx }] }

/-- A time read from the clock: wall instant 10, monotonic reading 1. -/
def early : Stdlib.Time := Stdlib.CreateTime { wall := 10, mono := some 1, loc := "Local" }

/-- A time read from the clock later, after the wall clock was set back: wall
instant 0, monotonic reading 2. -/
def late : Stdlib.Time := Stdlib.CreateTime { wall := 0, mono := some 2, loc := "Local" }

/-- A time that was not read from the clock (parsed or built from a date): wall
instant 5, no monotonic reading. -/
def parsed : Stdlib.Time := Stdlib.CreateTime { wall := 5, mono := none, loc := "UTC" }

end Demo

end Tengo



/-! ## Properties -/

namespace Tengo

section Lemmas

variable {Object Host E M W File : Type}

/-- Clearing slots at or above `k` does not touch the first `k` entries. -/
theorem take_foldl_set_none (k : Nat) :
    ∀ (l : List Nat) (cs : List (Option Object)), (∀ i ∈ l, k ≤ i) →
      (l.foldl (fun cs i => cs.set i none) cs).take k = cs.take k := by
  intro l
  induction l with
  | nil => intro cs _; rfl
  | cons i l ih =>
    intro cs h
    rw [List.foldl_cons, ih _ (fun j hj => h j (List.mem_cons_of_mem _ hj))]
    have hi : k ≤ i := h i (List.mem_cons_self _ _)
    apply List.ext_getElem?
    intro n
    simp only [List.getElem?_take]
    split
    · rename_i hn
      rw [List.getElem?_set_ne (by omega)]
    · rfl

/-- The clean-up of `callCompiled` restores a pool that was only extended. -/
theorem rollback_append (pool extra : List (Option Object)) :
    ((List.range' pool.length ((pool ++ extra).length - pool.length)).foldl
      (fun cs i => cs.set i none) (pool ++ extra)).take pool.length = pool := by
  rw [take_foldl_set_none]
  · simp
  · intro i hi
    rw [List.mem_range'_1] at hi
    exact hi.1

/-- The argument loop of `callCompiled` appends one instruction per index. -/
theorem foldl_append_flatMap {α β : Type} (f : α → List β) :
    ∀ (l : List α) (init : List β),
      l.foldl (fun inst i => inst ++ f i) init = init ++ l.flatMap f := by
  intro l
  induction l with
  | nil => intro init; simp
  | cons a l ih => intro init; simp [ih, List.append_assoc]

/-- The instructions `callCompiled` builds are the encoding of the sequence the
specification describes. -/
theorem entry_eq_encode (X : Deps Object Host E) (k n outIdx : Nat) :
    (List.range n).foldl
        (fun inst i => inst ++ X.MakeInstruction .OpConstant [k + i + 1])
        (X.MakeInstruction .OpConstant [k]) ++
      X.MakeInstruction .OpCall [n] ++ X.MakeInstruction .OpSetGlobal [outIdx] ++
      X.MakeInstruction .OpSuspend [] =
    encode X (specEntrySequence k n outIdx) := by
  rw [foldl_append_flatMap]
  simp [encode, specEntrySequence, List.flatMap_cons, List.flatMap_append, List.flatMap_map,
    List.append_assoc, Nat.add_assoc, List.flatMap]
  rfl

/-- Neither branch of the engine statement changes what the run did to the
program and the slot table. -/
theorem runEngine_bytecode_globals (X : Deps Object Host E) (ctx : Option (Context E))
    (vm : VM Object) :
    ∃ abort, (runEngine X ctx vm).bytecode = (X.Run abort vm).bytecode ∧
      (runEngine X ctx vm).globals = (X.Run abort vm).globals := by
  cases ctx with
  | none => exact ⟨none, rfl, rfl⟩
  | some ctx =>
    cases ctx with
    | live => exact ⟨none, rfl, rfl⟩
    | done err abortAt => exact ⟨some abortAt, rfl, rfl⟩

/-- The engine `callCompiled` builds is the one the specification describes. -/
theorem callCompiled_vm (X : Deps Object Host E) (c : Compiled Object) (fn : Option Object)
    (args : List (Option Object)) :
    (VM.mk
      (Bytecode.mk
        (CompiledFunction.mk
          ((List.range args.length).foldl
              (fun inst i =>
                inst ++ X.MakeInstruction .OpConstant [c.bytecode.Constants.length + i + 1])
              (X.MakeInstruction .OpConstant [c.bytecode.Constants.length]) ++
            X.MakeInstruction .OpCall [args.length] ++
            X.MakeInstruction .OpSetGlobal [c.outIdx] ++
            X.MakeInstruction .OpSuspend []))
        (c.bytecode.Constants ++ [fn] ++ args))
      c.globals c.maxAllocs : VM Object) = specCallVM X c fn args := by
  rw [entry_eq_encode]
  simp [specCallVM]

/-- When the output slot index is out of range after the run, `callCompiled`
panics. -/
theorem callCompiled_panics (X : Deps Object Host E) (c : Compiled Object)
    (ctx : Option (Context E)) (fn : Option Object) (args : List (Option Object))
    (hv : (runEngine X ctx (specCallVM X c fn args)).globals[c.outIdx]? = none) :
    c.callCompiled X ctx fn args =
      .error (.indexOutOfRange c.outIdx
        (runEngine X ctx (specCallVM X c fn args)).globals.length) := by
  have hvm := callCompiled_vm X c fn args
  unfold Compiled.callCompiled
  simp only [hvm, hv]

/-- What `callCompiled` computes, once the read of the output slot is known to
be in range: the engine is run once, on the program of `specCallVM`. -/
theorem callCompiled_eq (X : Deps Object Host E) (c : Compiled Object)
    (ctx : Option (Context E)) (fn : Option Object) (args : List (Option Object))
    (v : Option Object)
    (hv : (runEngine X ctx (specCallVM X c fn args)).globals[c.outIdx]? = some v) :
    c.callCompiled X ctx fn args =
      .ok { state :=
              { c with
                bytecode :=
                  { MainFunction :=
                      (runEngine X ctx (specCallVM X c fn args)).bytecode.MainFunction,
                    Constants :=
                      ((List.range' c.bytecode.Constants.length
                          ((runEngine X ctx (specCallVM X c fn args)).bytecode.Constants.length -
                            c.bytecode.Constants.length)).foldl
                        (fun cs i => cs.set i none)
                        (runEngine X ctx (specCallVM X c fn args)).bytecode.Constants).take
                        c.bytecode.Constants.length },
                globals := (runEngine X ctx (specCallVM X c fn args)).globals },
            ret := (v, (runEngine X ctx (specCallVM X c fn args)).err.map Error.foreign),
            runs := [specCallVM X c fn args] } := by
  have hvm := callCompiled_vm X c fn args
  unfold Compiled.callCompiled
  simp only [hvm, hv]

theorem runEngine_globals_length (X : Deps Object Host E) (hlen : X.KeepsLength)
    (ctx : Option (Context E)) (vm : VM Object) :
    (runEngine X ctx vm).globals.length = vm.globals.length := by
  obtain ⟨abort, -, hg⟩ := runEngine_bytecode_globals X ctx vm
  rw [hg]
  exact hlen abort vm

theorem runEngine_constants (X : Deps Object Host E) (hpool : X.KeepsPool)
    (ctx : Option (Context E)) (vm : VM Object) :
    (runEngine X ctx vm).bytecode.Constants = vm.bytecode.Constants := by
  obtain ⟨abort, hb, -⟩ := runEngine_bytecode_globals X ctx vm
  rw [hb]
  exact hpool abort vm

theorem Compiled.SameShape.refl (c : Compiled Object) : c.SameShape c :=
  ⟨rfl, rfl, rfl, rfl⟩

theorem Compiled.SameShape.trans {c d e : Compiled Object} (h₁ : c.SameShape d) (h₂ : d.SameShape e) :
    c.SameShape e :=
  ⟨h₂.1.trans h₁.1, h₂.2.1.trans h₁.2.1, h₂.2.2.1.trans h₁.2.2.1, h₂.2.2.2.trans h₁.2.2.2⟩

theorem Compiled.SameShape.inBounds {c d : Compiled Object} (h : c.SameShape d) (hc : c.InBounds) :
    d.InBounds := by
  obtain ⟨hi, ho, -, hl⟩ := h
  refine ⟨fun name idx hlk => ?_, ?_⟩
  · rw [hl]
    exact hc.1 name idx (hi ▸ hlk)
  · rw [hl, ho]
    exact hc.2

/-- With an engine that keeps the table length and an output slot in range,
`callCompiled` returns: it ran the engine once on the program of `specCallVM`,
left the slot table as the run left it, and restored the pool up to what the
run did to it. -/
theorem callCompiled_ok (X : Deps Object Host E) (hlen : X.KeepsLength) (c : Compiled Object)
    (hout : c.outIdx < c.globals.length) (ctx : Option (Context E)) (fn : Option Object)
    (args : List (Option Object)) :
    ∃ o v, c.callCompiled X ctx fn args = .ok o ∧
      (runEngine X ctx (specCallVM X c fn args)).globals[c.outIdx]? = some v ∧
      o.ret = (v, (runEngine X ctx (specCallVM X c fn args)).err.map Error.foreign) ∧
      o.runs = [specCallVM X c fn args] ∧
      o.state.globals = (runEngine X ctx (specCallVM X c fn args)).globals ∧
      c.SameShape o.state ∧
      (X.KeepsPool → o.state.bytecode.Constants = c.bytecode.Constants) := by
  have hl := runEngine_globals_length X hlen ctx (specCallVM X c fn args)
  have hlt : c.outIdx < (runEngine X ctx (specCallVM X c fn args)).globals.length := by
    rw [hl]
    exact hout
  refine ⟨_, _, callCompiled_eq X c ctx fn args _ (List.getElem?_eq_getElem hlt),
    List.getElem?_eq_getElem hlt, rfl, rfl, rfl, ⟨rfl, rfl, rfl, hl⟩, ?_⟩
  intro hpool
  have hc := runEngine_constants X hpool ctx (specCallVM X c fn args)
  show List.take _ (List.foldl _ _ _) = _
  rw [hc]
  exact rollback_append c.bytecode.Constants (fn :: args)

/-- The method `call` returns whenever `callCompiled` does, and leaves the
state either untouched (no engine run) or as `callCompiled` left it. -/
theorem call_ok (X : Deps Object Host E) (hlen : X.KeepsLength) (c : Compiled Object)
    (hout : c.outIdx < c.globals.length) (ctx : Option (Context E)) (cfn : Option Object)
    (args : List Host) :
    ∃ o, c.call X ctx cfn args = .ok o ∧ c.SameShape o.state ∧
      (X.KeepsPool → o.state.bytecode.Constants = c.bytecode.Constants) := by
  unfold Compiled.call
  cases hm : Compiled.marshalArgs X args [] with
  | error err => exact ⟨_, rfl, Compiled.SameShape.refl c, fun _ => rfl⟩
  | ok targs =>
    obtain ⟨o, v, ho, -, hret, -, -, hs, hp⟩ :=
      callCompiled_ok X hlen c hout ctx cfn (targs.map some)
    simp only [ho, hret]
    cases (runEngine X ctx (specCallVM X c cfn (targs.map some))).err with
    | none => exact ⟨_, rfl, hs, hp⟩
    | some e => exact ⟨_, rfl, hs, hp⟩

/-- Every request is served without panic on a program in bounds, and leaves a
program of the same shape, with the pool restored when the engine keeps it. -/
theorem serve_ok (X : Deps Object Host E) (hlen : X.KeepsLength) (c : Compiled Object)
    (hc : c.InBounds) (req : Request Object Host E) :
    ∃ o, c.serve X req = .ok o ∧ c.SameShape o.state ∧
      (X.KeepsPool → o.state.bytecode.Constants = c.bytecode.Constants) := by
  have hval : ∀ ctx fn args, ∃ o, c.CallContext X ctx fn args = .ok o ∧ c.SameShape o.state ∧
      (X.KeepsPool → o.state.bytecode.Constants = c.bytecode.Constants) := by
    intro ctx fn args
    unfold Compiled.CallContext
    cases fn with
    | none => exact ⟨_, rfl, Compiled.SameShape.refl c, fun _ => rfl⟩
    | some f =>
      by_cases hcall : X.CanCall f = true
      · simp only [hcall, Bool.not_true, Bool.false_eq_true, if_false]
        exact call_ok X hlen c hc.2 ctx (some f) args
      · simp only [hcall, Bool.not_false, if_true]
        exact ⟨_, rfl, Compiled.SameShape.refl c, fun _ => rfl⟩
  have hname : ∀ ctx fn args, ∃ o, c.CallByNameContext X ctx fn args = .ok o ∧
      c.SameShape o.state ∧
      (X.KeepsPool → o.state.bytecode.Constants = c.bytecode.Constants) := by
    intro ctx fn args
    unfold Compiled.CallByNameContext
    cases hlk : c.indexes.lookup fn with
    | none => exact ⟨_, rfl, Compiled.SameShape.refl c, fun _ => rfl⟩
    | some idx =>
      have hidx := hc.1 fn idx hlk
      simp only [List.getElem?_eq_getElem hidx]
      cases hslot : c.globals[idx] with
      | none => exact ⟨_, rfl, Compiled.SameShape.refl c, fun _ => rfl⟩
      | some f =>
        by_cases hcall : X.CanCall f = true
        · simp only [hcall, Bool.not_true, Bool.false_eq_true, if_false]
          exact call_ok X hlen c hc.2 ctx (some f) args
        · simp only [hcall, Bool.not_false, if_true]
          exact ⟨_, rfl, Compiled.SameShape.refl c, fun _ => rfl⟩
  cases req with
  | Call fn args => exact hval _ fn args
  | CallContext ctx fn args => exact hval ctx fn args
  | CallByName fn args => exact hname _ fn args
  | CallByNameContext ctx fn args => exact hname ctx fn args

/-- Any sequence of requests is served without panic on a program in bounds,
and the invariants of `serve_ok` carry through the sequence. -/
theorem serveAll_ok (X : Deps Object Host E) (hlen : X.KeepsLength) :
    ∀ (reqs : List (Request Object Host E)) (c : Compiled Object), c.InBounds →
      ∃ d, Compiled.serveAll X reqs c = .ok d ∧ c.SameShape d ∧
        (X.KeepsPool → d.bytecode.Constants = c.bytecode.Constants) := by
  intro reqs
  induction reqs with
  | nil => intro c _; exact ⟨c, rfl, Compiled.SameShape.refl c, fun _ => rfl⟩
  | cons req rest ih =>
    intro c hc
    obtain ⟨o, ho, hs, hp⟩ := serve_ok X hlen c hc req
    obtain ⟨d, hd, hs', hp'⟩ := ih o.state (hs.inBounds hc)
    refine ⟨d, ?_, hs.trans hs', fun hpool => (hp' hpool).trans (hp hpool)⟩
    simp only [Compiled.serveAll, ho, hd]

/-- A successful lookup returns a slot listed in the association list. -/
theorem mem_map_snd_of_lookup {l : List (String × Nat)} {name : String} {idx : Nat}
    (h : l.lookup name = some idx) : idx ∈ l.map Prod.snd := by
  induction l with
  | nil => simp at h
  | cons p l ih =>
    obtain ⟨k, v⟩ := p
    rw [List.lookup_cons] at h
    split at h
    · simp only [Option.some.injEq] at h
      simp [h]
    · simp [ih h]

/-- The stack engine of the example host keeps the length of the slot table. -/
theorem Demo.exec_length (consts : List (Option Demo.Obj)) :
    ∀ (inst : List Nat) (abort : Option Nat) (stack globals : List (Option Demo.Obj)),
      (Demo.exec consts inst abort stack globals).1.length = globals.length := by
  intro inst abort stack globals
  induction inst, abort, stack, globals using Demo.exec.induct consts with
  | case1 => simp [Demo.exec]
  | case2 => simp_all [Demo.exec]
  | case3 => simp_all [Demo.exec]
  | case4 => simp_all [Demo.exec]
  | case5 => simp_all [Demo.exec]
  | case6 => simp_all [Demo.exec]
  | case7 => simp_all [Demo.exec]

theorem Demo.deps_keepsLength : Demo.deps.KeepsLength := by
  intro abort vm
  exact Demo.exec_length _ _ _ _ _

theorem Demo.deps_keepsPool : Demo.deps.KeepsPool := by
  intro abort vm
  rfl

theorem Demo.deps_marshalsObjects : Demo.deps.MarshalsObjects := by
  intro o
  rfl

theorem Demo.prog_inBounds : Demo.prog.InBounds := by
  refine ⟨fun name idx h => ?_, by decide⟩
  have hm := mem_map_snd_of_lookup h
  have hall : ∀ i ∈ Demo.prog.indexes.map Prod.snd, i < Demo.prog.globals.length := by decide
  exact hall idx hm

/-- Reading an appended list past its first part reads the second part. -/
theorem getElem?_length_add {α : Type} (l₁ l₂ : List α) (j : Nat) :
    (l₁ ++ l₂)[l₁.length + j]? = l₂[j]? := by
  rw [List.getElem?_append_right (Nat.le_add_right _ _), Nat.add_sub_cancel_left]

/-- The instructions of the specified entry sequence, position by position. -/
theorem specEntrySequence_getElem? (k n outIdx : Nat) :
    (specEntrySequence k n outIdx).length = n + 4 ∧
    (specEntrySequence k n outIdx)[0]? = some (Opcode.OpConstant, [k]) ∧
    (∀ i, 1 ≤ i → i ≤ n →
      (specEntrySequence k n outIdx)[i]? = some (Opcode.OpConstant, [k + i])) ∧
    (specEntrySequence k n outIdx)[n + 1]? = some (Opcode.OpCall, [n]) ∧
    (specEntrySequence k n outIdx)[n + 2]? = some (Opcode.OpSetGlobal, [outIdx]) ∧
    (specEntrySequence k n outIdx)[n + 3]? = some (Opcode.OpSuspend, []) := by
  have hl : ((List.range n).map (fun i => (Opcode.OpConstant, [k + (i + 1)]))).length = n := by
    simp
  have key : ∀ j tail,
      ((List.range n).map (fun i => (Opcode.OpConstant, [k + (i + 1)])) ++ tail)[n + j]? =
        tail[j]? := by
    intro j tail
    have h := getElem?_length_add
      ((List.range n).map (fun i => (Opcode.OpConstant, [k + (i + 1)]))) tail j
    rw [hl] at h
    exact h
  refine ⟨by simp [specEntrySequence], by simp [specEntrySequence], ?_, ?_, ?_, ?_⟩
  · intro i h1 hi
    obtain ⟨j, rfl⟩ : ∃ j, i = j + 1 := ⟨i - 1, by omega⟩
    have hj : j < n := by omega
    simp [specEntrySequence, List.getElem?_append_left, hj]
  · show (_ :: _)[n + 1]? = _
    rw [List.getElem?_cons_succ]
    exact key 0 _
  · show (_ :: _)[n + 1 + 1]? = _
    rw [List.getElem?_cons_succ]
    exact key 1 _
  · show (_ :: _)[n + 2 + 1]? = _
    rw [List.getElem?_cons_succ]
    exact key 2 _

/-- The argument loop succeeds with the marshalled arguments, in order, when
each argument marshals. -/
theorem marshalArgs_ok (X : Deps Object Host E) :
    ∀ (args : List Host) (targs acc : List Object),
      List.Forall₂ (fun a t => X.FromInterface a = .ok t) args targs →
      Compiled.marshalArgs X args acc = .ok (acc ++ targs) := by
  intro args
  induction args with
  | nil =>
    intro targs acc h
    cases h
    simp [Compiled.marshalArgs]
  | cons a rest ih =>
    intro targs acc h
    cases h with
    | cons ha hrest =>
      simp only [Compiled.marshalArgs, ha]
      rw [ih _ _ hrest]
      simp

/-- A list whose elements all marshal has a list of marshalled elements. -/
theorem exists_marshalled (X : Deps Object Host E) :
    ∀ (args : List Host), (∀ a ∈ args, ∃ t, X.FromInterface a = .ok t) →
      ∃ targs, List.Forall₂ (fun a t => X.FromInterface a = .ok t) args targs := by
  intro args
  induction args with
  | nil => intro _; exact ⟨[], List.Forall₂.nil⟩
  | cons a rest ih =>
    intro h
    obtain ⟨t, ht⟩ := h a (List.mem_cons_self _ _)
    obtain ⟨ts, hts⟩ := ih (fun b hb => h b (List.mem_cons_of_mem _ hb))
    exact ⟨t :: ts, List.Forall₂.cons ht hts⟩

/-- What `call` does once the arguments have marshalled: one engine run on the
program of `specCallVM`, the result read from the output slot, the error of the
run handed on. -/
theorem call_marshalled (X : Deps Object Host E) (hlen : X.KeepsLength) (c : Compiled Object)
    (hout : c.outIdx < c.globals.length) (ctx : Option (Context E)) (cfn : Option Object)
    (args : List Host) (targs : List Object)
    (hargs : List.Forall₂ (fun a t => X.FromInterface a = .ok t) args targs) :
    ∃ o v, c.call X ctx cfn args = .ok o ∧
      o.runs = [specCallVM X c cfn (targs.map some)] ∧
      (runEngine X ctx (specCallVM X c cfn (targs.map some))).globals[c.outIdx]? = some v ∧
      o.state.globals = (runEngine X ctx (specCallVM X c cfn (targs.map some))).globals ∧
      ((runEngine X ctx (specCallVM X c cfn (targs.map some))).err = none →
        o.ret = .ok (X.ToInterface v)) ∧
      (∀ e, (runEngine X ctx (specCallVM X c cfn (targs.map some))).err = some e →
        o.ret = .error (.foreign e)) := by
  have hm := marshalArgs_ok X args targs [] hargs
  rw [List.nil_append] at hm
  obtain ⟨o, v, ho, hv, hret, hruns, hg, -, -⟩ :=
    callCompiled_ok X hlen c hout ctx cfn (targs.map some)
  unfold Compiled.call
  simp only [hm, ho, hret]
  cases he : (runEngine X ctx (specCallVM X c cfn (targs.map some))).err with
  | none =>
    refine ⟨_, v, rfl, hruns, hv, hg, fun _ => rfl, fun e h => ?_⟩
    cases h
  | some e =>
    refine ⟨_, v, rfl, hruns, hv, hg, fun h => ?_, fun e' h => ?_⟩
    · cases h
    · cases h
      rfl

theorem nil_callable_ne_not_found (name : String) :
    "callable expected, got nil" ≠ "'" ++ name ++ "' not found" := by
  intro h
  have h0 := congrArg (fun s => s.data.head?) h
  simp [String.data_append] at h0

theorem not_callable_ne_not_found (name : String) :
    "not a callable" ≠ "'" ++ name ++ "' not found" := by
  intro h
  have h0 := congrArg (fun s => s.data.head?) h
  simp [String.data_append] at h0

/-- The error `callCompiled` returns is the error of the run, if any. -/
theorem callCompiled_err_foreign (X : Deps Object Host E) (c : Compiled Object)
    (ctx : Option (Context E)) (fn : Option Object) (args : List (Option Object))
    (o : Outcome Object (Option Object × Option (Error E)))
    (h : c.callCompiled X ctx fn args = .ok o) :
    ∃ e : Option E, o.ret.2 = e.map Error.foreign := by
  unfold Compiled.callCompiled at h
  simp only at h
  split at h
  · cases h
  · cases h
    exact ⟨_, rfl⟩

/-- The method `call` never returns an error made by `script.go` itself. -/
theorem call_ret_ne_New (X : Deps Object Host E) (c : Compiled Object)
    (ctx : Option (Context E)) (cfn : Option Object) (args : List Host)
    (o : Outcome Object (Except (Error E) Host)) (h : c.call X ctx cfn args = .ok o)
    (msg : String) : o.ret ≠ .error (.New msg) := by
  unfold Compiled.call at h
  split at h
  · cases h
    simp
  · split at h
    · cases h
    · rename_i o' ho'
      obtain ⟨e, he⟩ := callCompiled_err_foreign X c ctx cfn _ o' ho'
      split at h
      · rename_i v err hret
        cases h
        rw [hret] at he
        cases e with
        | none => simp at he
        | some e' =>
          simp only [Option.map_some'] at he
          cases he
          simp
      · cases h
        simp

/-- Whenever `callCompiled` returns, it ran the engine once on the program of
`specCallVM` and the slot table is the one the run left. -/
theorem callCompiled_inv (X : Deps Object Host E) (c : Compiled Object)
    (ctx : Option (Context E)) (fn : Option Object) (args : List (Option Object))
    (o : Outcome Object (Option Object × Option (Error E)))
    (h : c.callCompiled X ctx fn args = .ok o) :
    o.runs = [specCallVM X c fn args] ∧
      o.state.globals = (runEngine X ctx (specCallVM X c fn args)).globals := by
  cases hv : (runEngine X ctx (specCallVM X c fn args)).globals[c.outIdx]? with
  | none =>
    rw [callCompiled_panics X c ctx fn args hv] at h
    cases h
  | some v =>
    rw [callCompiled_eq X c ctx fn args v hv] at h
    cases h
    exact ⟨rfl, rfl⟩

/-- Whenever `call` returns, either no engine was run and the state is
untouched, or one engine was run on the program's slot table and budget and the
slot table is the one the run left. -/
theorem call_runs (X : Deps Object Host E) (c : Compiled Object) (ctx : Option (Context E))
    (cfn : Option Object) (args : List Host) (o : Outcome Object (Except (Error E) Host))
    (h : c.call X ctx cfn args = .ok o) :
    (o.runs = [] ∧ o.state = c) ∨
      ∃ vm, o.runs = [vm] ∧ vm.globals = c.globals ∧ vm.maxAllocs = c.maxAllocs ∧
        o.state.globals = (runEngine X ctx vm).globals := by
  unfold Compiled.call at h
  split at h
  · cases h
    exact Or.inl ⟨rfl, rfl⟩
  · split at h
    · cases h
    · rename_i targs _ _ o' ho'
      obtain ⟨hr, hg⟩ := callCompiled_inv X c ctx cfn _ o' ho'
      right
      refine ⟨specCallVM X c cfn (targs.map some), ?_, rfl, rfl, ?_⟩
      · split at h <;> cases h <;> exact hr
      · split at h <;> cases h <;> exact hg

/-- Whenever a request is served, either no engine was run and the state is
untouched, or one engine was run on the program's slot table and budget, under
the context of the request, and the slot table is the one the run left. -/
theorem serve_runs (X : Deps Object Host E) (c : Compiled Object)
    (req : Request Object Host E) (o : Outcome Object (Except (Error E) Host))
    (h : c.serve X req = .ok o) :
    (o.runs = [] ∧ o.state = c) ∨
      ∃ vm, o.runs = [vm] ∧ vm.globals = c.globals ∧ vm.maxAllocs = c.maxAllocs ∧
        o.state.globals = (runEngine X req.ctx vm).globals := by
  have hval : ∀ ctx fn args, c.CallContext X ctx fn args = .ok o →
      (o.runs = [] ∧ o.state = c) ∨
        ∃ vm, o.runs = [vm] ∧ vm.globals = c.globals ∧ vm.maxAllocs = c.maxAllocs ∧
          o.state.globals = (runEngine X ctx vm).globals := by
    intro ctx fn args h
    unfold Compiled.CallContext at h
    split at h
    · cases h
      exact Or.inl ⟨rfl, rfl⟩
    · split at h
      · cases h
        exact Or.inl ⟨rfl, rfl⟩
      · exact call_runs X c ctx _ args o h
  have hname : ∀ ctx fn args, c.CallByNameContext X ctx fn args = .ok o →
      (o.runs = [] ∧ o.state = c) ∨
        ∃ vm, o.runs = [vm] ∧ vm.globals = c.globals ∧ vm.maxAllocs = c.maxAllocs ∧
          o.state.globals = (runEngine X ctx vm).globals := by
    intro ctx fn args h
    unfold Compiled.CallByNameContext at h
    split at h
    · cases h
      exact Or.inl ⟨rfl, rfl⟩
    · split at h
      · cases h
      · cases h
        exact Or.inl ⟨rfl, rfl⟩
      · split at h
        · cases h
          exact Or.inl ⟨rfl, rfl⟩
        · exact call_runs X c ctx _ args o h
  cases req with
  | Call fn args => exact hval _ fn args h
  | CallContext ctx fn args => exact hval ctx fn args h
  | CallByName fn args => exact hname _ fn args h
  | CallByNameContext ctx fn args => exact hname ctx fn args h

/-- The method `Set` on a known name and a value that marshals writes the
marshalled object into the slot of the name. -/
theorem set_known (X : Deps Object Host E) (c : Compiled Object) (name : String) (idx : Nat)
    (hlk : c.indexes.lookup name = some idx) (hidx : idx < c.globals.length) (v : Host)
    (obj : Object) (hv : X.FromInterface v = .ok obj) :
    c.Set X name v = .ok ({ c with globals := c.globals.set idx (some obj) }, none) := by
  simp [Compiled.Set, hv, hlk, hidx]

/-- The method `Get` on a known name whose slot is in range returns the object
in the slot, or the undefined value for an empty slot. -/
theorem get_known (X : Deps Object Host E) (hobj : X.MarshalsObjects) (c : Compiled Object)
    (name : String) (idx : Nat) (hlk : c.indexes.lookup name = some idx)
    (slot : Option Object) (hslot : c.globals[idx]? = some slot) :
    c.Get X name = .ok { name := name, value := slot.getD X.UndefinedValue } := by
  cases slot with
  | none => simp [Compiled.Get, hlk, hslot, NewVariable, hobj X.UndefinedValue]
  | some o => simp [Compiled.Get, hlk, hslot, NewVariable, hobj o]

/-- The method `Get` on an unknown name returns the undefined value. -/
theorem get_unknown (X : Deps Object Host E) (hobj : X.MarshalsObjects) (c : Compiled Object)
    (name : String) (hlk : c.indexes.lookup name = none) :
    c.Get X name = .ok { name := name, value := X.UndefinedValue } := by
  simp [Compiled.Get, hlk, NewVariable, hobj X.UndefinedValue]

/-! ### Maps as association lists -/

/-- Reading a map from which the key `k` was filtered out. -/
theorem lookup_filter_ne {α : Type} (m : List (String × α)) (k n : String) :
    (m.filter (fun p => p.1 != k)).lookup n = if n = k then none else m.lookup n := by
  induction m with
  | nil => simp
  | cons p m ih =>
    obtain ⟨a, b⟩ := p
    by_cases hak : a = k
    · subst hak
      rw [List.filter_cons_of_neg (by simp), ih, List.lookup_cons]
      by_cases hn : n = a
      · simp [hn]
      · have : (n == a) = false := by simpa using hn
        simp [hn, this]
    · rw [List.filter_cons_of_pos (by simpa using hak), List.lookup_cons, List.lookup_cons, ih]
      by_cases hna : n = a
      · subst hna
        simp [hak]
      · have : (n == a) = false := by simpa using hna
        simp [this]

theorem lookup_mapStore_self {α : Type} (m : List (String × α)) (k : String) (v : α) :
    (mapStore m k v).lookup k = some v := by
  simp [mapStore]

theorem lookup_mapStore_ne {α : Type} (m : List (String × α)) (k n : String) (v : α)
    (h : n ≠ k) : (mapStore m k v).lookup n = m.lookup n := by
  have hb : (n == k) = false := by simpa using h
  rw [mapStore, List.lookup_cons, hb, lookup_filter_ne]
  simp [h]

theorem lookup_mapDelete_self {α : Type} (m : List (String × α)) (k : String) :
    (mapDelete m k).lookup k = none := by
  rw [mapDelete, lookup_filter_ne]
  simp

theorem lookup_mapDelete_ne {α : Type} (m : List (String × α)) (k n : String) (h : n ≠ k) :
    (mapDelete m k).lookup n = m.lookup n := by
  rw [mapDelete, lookup_filter_ne]
  simp [h]

/-- A key that is not in the map is the key of no entry. -/
theorem ne_key_of_lookup_none {α : Type} {m : List (String × α)} {k : String}
    (h : m.lookup k = none) : ∀ p ∈ m, p.1 ≠ k := by
  induction m with
  | nil => intro p hp; cases hp
  | cons q m ih =>
    obtain ⟨a, b⟩ := q
    rw [List.lookup_cons] at h
    by_cases hka : k = a
    · subst hka
      simp at h
    · have hb : (k == a) = false := by simpa using hka
      rw [hb] at h
      intro p hp
      rcases List.mem_cons.mp hp with rfl | hp
      · exact fun h' => hka h'.symm
      · exact ih h p hp

/-- Deleting a key that is not in the map changes nothing. -/
theorem mapDelete_of_lookup_none {α : Type} {m : List (String × α)} {k : String}
    (h : m.lookup k = none) : mapDelete m k = m := by
  rw [mapDelete, List.filter_eq_self]
  intro p hp
  simpa using ne_key_of_lookup_none h p hp

theorem mapDelete_mapStore {α : Type} (m : List (String × α)) (k : String) (v : α) :
    mapDelete (mapStore m k v) k = mapDelete m k := by
  simp [mapDelete, mapStore, List.filter_filter]

theorem mapStore_mapStore {α : Type} (m : List (String × α)) (k : String) (v₁ v₂ : α) :
    mapStore (mapStore m k v₁) k v₂ = mapStore m k v₂ := by
  simp [mapStore, List.filter_filter]

/-- Stored once, a key has exactly one entry. -/
theorem count_key_mapStore {α : Type} (m : List (String × α)) (k : String) (v : α) :
    ((mapStore m k v).map Prod.fst).count k = 1 := by
  have h0 : ((m.filter (fun p => p.1 != k)).map Prod.fst).count k = 0 := by
    rw [List.count_eq_zero]
    intro hk
    obtain ⟨p, hp, hpk⟩ := List.mem_map.mp hk
    have := (List.mem_filter.mp hp).2
    simp [hpk] at this
  simp [mapStore, h0]

/-- The method `Add` on a name other than the reserved one and a value that
marshals stores the variable. -/
theorem add_ok (X : Deps Object Host E) (s : Script Object M W) (name : String)
    (hname : name ≠ "$out") (v : Host) (obj : Object) (hv : X.FromInterface v = .ok obj) :
    s.Add X name v =
      ({ s with vars := mapStore s.vars name { name := name, value := obj } }, none) := by
  have hn : ¬ name = reservedVar := hname
  simp [Script.Add, hn, NewVariable, hv]

/-- No edit puts the reserved name into the pending variables. -/
theorem add_keeps_reserved_out (X : Deps Object Host E) (s : Script Object M W)
    (h : s.vars.lookup "$out" = none) (name : String) (v : Host) :
    (s.Add X name v).1.vars.lookup "$out" = none := by
  unfold Script.Add
  split
  · exact h
  · rename_i hn
    split
    · exact h
    · show List.lookup "$out" (mapStore s.vars name _) = none
      rw [lookup_mapStore_ne s.vars name "$out" _ (fun h' => hn h'.symm)]
      exact h

theorem remove_keeps_reserved_out (s : Script Object M W)
    (h : s.vars.lookup "$out" = none) (name : String) :
    (s.Remove name).1.vars.lookup "$out" = none := by
  unfold Script.Remove
  split
  · exact h
  · rename_i hn
    split
    · exact h
    · show List.lookup "$out" (mapDelete s.vars name) = none
      rw [lookup_mapDelete_ne s.vars name "$out" (fun h' => hn h'.symm)]
      exact h

theorem edits_keep_reserved_out (X : Deps Object Host E) :
    ∀ (ops : List (Edit Host)) (s : Script Object M W), s.vars.lookup "$out" = none →
      (Script.edits X ops s).vars.lookup "$out" = none := by
  intro ops
  induction ops with
  | nil => intro s h; exact h
  | cons op rest ih =>
    intro s h
    cases op with
    | Add name v => exact ih _ (add_keeps_reserved_out X s h name v)
    | Remove name => exact ih _ (remove_keeps_reserved_out s h name)

/-! ### Clones -/

/-- The copy loop of `Clone`, run on a fresh table at least as long as the
origin's, copies entry by entry and leaves the rest empty. -/
theorem clone_loop (X : Deps Object Host E) (l : List (Option Object)) :
    ∀ n, l.length ≤ n →
      l.enum.foldl
          (fun gs p =>
            match p.2 with
            | some g => gs.set p.1 (some (X.Copy g))
            | none => gs) (List.replicate n none) =
        l.map (Option.map X.Copy) ++ List.replicate (n - l.length) none := by
  induction l using List.reverseRecOn with
  | nil => intro n _; simp
  | append_singleton l a ih =>
    intro n hn
    rw [List.length_append, List.length_singleton] at hn
    obtain ⟨m, hm⟩ : ∃ m, n - l.length = m + 1 := ⟨n - l.length - 1, by omega⟩
    have hm' : n - (l ++ [a]).length = m := by
      rw [List.length_append, List.length_singleton]
      omega
    rw [List.enum, List.enumFrom_append, List.foldl_append, ← List.enum, ih n (by omega), hm,
      hm', List.replicate_succ]
    cases a with
    | none => simp
    | some g =>
      simp only [List.enumFrom_singleton, List.foldl_cons, List.foldl_nil, Nat.zero_add]
      rw [List.set_append_right _ _ (by simp)]
      simp

/-- The slot table of a clone holds the copies of the objects of the origin,
slot by slot. -/
theorem clone_globals (X : Deps Object Host E) (c : Compiled Object) :
    (c.Clone X).globals = c.globals.map (Option.map X.Copy) := by
  have h := clone_loop X c.globals c.globals.length (Nat.le_refl _)
  simp only [Nat.sub_self, List.replicate_zero, List.append_nil] at h
  exact h

theorem view_eq_some {F : Family Object} {p : Nat} {c : Compiled Object}
    (h : F.view p = some c) :
    p < F.members.length ∧ c.bytecode = F.bytecode ∧ F.members[p]? = some c.toHandle := by
  unfold Family.view at h
  split at h
  · cases h
  · rename_i hd hm
    cases h
    exact ⟨(List.getElem?_eq_some.mp hm).1, rfl, hm⟩

theorem view_ofCompiled (c : Compiled Object) : (Family.ofCompiled c).view 0 = some c := rfl

/-- Reading back the program just written. -/
theorem view_put_same (F : Family Object) (p : Nat) (hp : p < F.members.length)
    (c : Compiled Object) : (F.put p c).view p = some c := by
  simp [Family.view, Family.put, hp, Compiled.toHandle]

/-- Writing a program leaves the struct of every other program as it was; the
other program sees the `Bytecode` just written, to which it points as well. -/
theorem view_put_ne (F : Family Object) (p q : Nat) (hq : q ≠ p) (c : Compiled Object) :
    (F.put p c).view q = (F.view q).map (fun d => { d with bytecode := c.bytecode }) := by
  simp only [Family.view, Family.put, List.getElem?_set_ne (Ne.symm hq)]
  cases F.members[q]? <;> rfl

/-- The memory after `Clone`: the structs there before are untouched, and the
new pointer leads to the clone. -/
theorem clone_views (X : Deps Object Host E) (F : Family Object) (p : Nat)
    (c : Compiled Object) (hc : F.view p = some c) :
    F.Clone X p =
        .ok ({ F with members := F.members ++ [(c.Clone X).toHandle] }, F.members.length) ∧
      (∀ q, q < F.members.length →
        Family.view { F with members := F.members ++ [(c.Clone X).toHandle] } q = F.view q) ∧
      Family.view { F with members := F.members ++ [(c.Clone X).toHandle] } F.members.length =
        some (c.Clone X) := by
  obtain ⟨_, hb, _⟩ := view_eq_some hc
  refine ⟨by simp [Family.Clone, hc], fun q hq => ?_, ?_⟩
  · simp [Family.view, List.getElem?_append_left hq]
  · simp only [Family.view, List.getElem?_append_right (Nat.le_refl _), Nat.sub_self,
      List.getElem?_cons_zero]
    rw [← hb]
    rfl

/-- The method `Set` returns on a program in bounds, and touches neither the
program's `Bytecode` nor its shape. -/
theorem set_total (X : Deps Object Host E) (c : Compiled Object) (hc : c.InBounds)
    (name : String) (v : Host) :
    ∃ d err, c.Set X name v = .ok (d, err) ∧ d.bytecode = c.bytecode ∧ c.SameShape d := by
  unfold Compiled.Set
  cases X.FromInterface v with
  | error e => exact ⟨c, _, rfl, rfl, Compiled.SameShape.refl c⟩
  | ok obj =>
    cases hlk : c.indexes.lookup name with
    | none => exact ⟨c, _, rfl, rfl, Compiled.SameShape.refl c⟩
    | some idx =>
      have hidx := hc.1 name idx hlk
      simp only [hidx, if_true]
      exact ⟨_, _, rfl, rfl, ⟨rfl, rfl, rfl, by simp⟩⟩

/-- The method `Set` in memory changes the struct of the program it is called
on and nothing else: every other program is seen as before. -/
theorem family_set_frame (X : Deps Object Host E) (F : Family Object) (p : Nat)
    (c : Compiled Object) (hp : F.view p = some c) (hc : c.InBounds) (name : String)
    (v : Host) :
    ∃ G err, F.Set X p name v = .ok (G, err) ∧ G.bytecode = F.bytecode ∧
      G.members.length = F.members.length ∧ ∀ q, q ≠ p → G.view q = F.view q := by
  obtain ⟨d, err, hd, hb, -⟩ := set_total X c hc name v
  obtain ⟨-, hcb, -⟩ := view_eq_some hp
  refine ⟨F.put p d, err, by simp [Family.Set, hp, hd], hb.trans hcb, by simp [Family.put],
    fun q hq => ?_⟩
  rw [view_put_ne F p q hq d, hb, hcb]
  unfold Family.view
  cases F.members[q]? <;> rfl

/-- A clone has the shape of its origin. -/
theorem clone_sameShape (X : Deps Object Host E) (c : Compiled Object) :
    c.SameShape (c.Clone X) :=
  ⟨rfl, rfl, rfl, by rw [clone_globals, List.length_map]⟩

/-- The method `Get` in memory reads the struct of the program only. -/
theorem family_get_congr (X : Deps Object Host E) (F G : Family Object) (p : Nat)
    (h : G.view p = F.view p) (n : String) : G.Get X p n = F.Get X p n := by
  simp only [Family.Get, h]

theorem not_set_ne_nil_callable : "callable expected, got nil" ≠ "compiled code not set" := by
  decide

theorem not_set_ne_not_callable : "not a callable" ≠ "compiled code not set" := by
  decide

/-- The methods `Call` and `CallContext` of a program never return the error of
an unbound callback. -/
theorem callContext_ret_ne_not_set (X : Deps Object Host E) (c : Compiled Object)
    (ctx : Option (Context E)) (fn : Option Object) (args : List Host)
    (o : Outcome Object (Except (Error E) Host)) (h : c.CallContext X ctx fn args = .ok o) :
    o.ret ≠ .error (.New "compiled code not set") := by
  unfold Compiled.CallContext at h
  split at h
  · cases h
    simp only [ne_eq, Except.error.injEq, Error.New.injEq]
    exact not_set_ne_nil_callable
  · split at h
    · cases h
      simp only [ne_eq, Except.error.injEq, Error.New.injEq]
      exact not_set_ne_not_callable
    · exact call_ret_ne_New X c ctx _ args o h _

/-! ### The name index built by `Script.compile` -/

/-- A key that is read from a map is a key of the map. -/
theorem mem_keys_of_lookup {α : Type} {m : List (String × α)} {k : String} {v : α}
    (h : m.lookup k = some v) : k ∈ m.map Prod.fst := by
  induction m with
  | nil => simp at h
  | cons p m ih =>
    obtain ⟨a, b⟩ := p
    rw [List.lookup_cons] at h
    by_cases hka : k = a
    · simp [hka]
    · have hb : (k == a) = false := by simpa using hka
      rw [hb] at h
      simp [ih h]

/-- Storing into a map with one entry per key leaves one entry per key. -/
theorem nodup_keys_mapStore {α : Type} (m : List (String × α)) (k : String) (v : α)
    (h : (m.map Prod.fst).Nodup) : ((mapStore m k v).map Prod.fst).Nodup := by
  rw [mapStore, List.map_cons, List.nodup_cons]
  refine ⟨?_, h.sublist ((List.filter_sublist m).map Prod.fst)⟩
  intro hk
  obtain ⟨p, hp, hpk⟩ := List.mem_map.mp hk
  have := (List.mem_filter.mp hp).2
  simp [hpk] at this

/-- The index loop of `compile` keeps one entry per name. -/
theorem indexes_loop_nodup (st : SymbolTable) :
    ∀ (names : List String) (acc m : List (String × Nat)),
      Script.compile.indexes st names acc = .ok m → (acc.map Prod.fst).Nodup →
      (m.map Prod.fst).Nodup := by
  intro names
  induction names with
  | nil =>
    intro acc m h hacc
    simp only [Script.compile.indexes, Except.ok.injEq] at h
    rw [← h]
    exact hacc
  | cons name rest ih =>
    intro acc m h hacc
    unfold Script.compile.indexes at h
    split at h
    · cases h
    · split at h
      · exact ih _ m h (nodup_keys_mapStore _ _ _ hacc)
      · exact ih _ m h hacc

/-- The index loop of `compile` maps a name it meets, whose symbol is global, to
the index of the symbol. -/
theorem indexes_loop_lookup (st : SymbolTable) (k : String) (sym : Symbol)
    (hres : st.Resolve k = some sym) (hglobal : sym.Scope = .ScopeGlobal) :
    ∀ (names : List String) (acc m : List (String × Nat)),
      Script.compile.indexes st names acc = .ok m →
      (acc.lookup k = some sym.Index ∨ k ∈ names) → m.lookup k = some sym.Index := by
  intro names
  induction names with
  | nil =>
    intro acc m h hk
    simp only [Script.compile.indexes, Except.ok.injEq] at h
    rw [← h]
    rcases hk with hk | hk
    · exact hk
    · cases hk
  | cons name rest ih =>
    intro acc m h hk
    unfold Script.compile.indexes at h
    split at h
    · cases h
    · rename_i symbol hsym
      by_cases hname : k = name
      · subst hname
        rw [hres] at hsym
        cases hsym
        simp only [hglobal, if_true] at h
        exact ih _ m h (Or.inl (lookup_mapStore_self _ _ _))
      · have hk' : acc.lookup k = some sym.Index ∨ k ∈ rest := by
          rcases hk with hk | hk
          · exact Or.inl hk
          · rcases List.mem_cons.mp hk with hk | hk
            · exact absurd hk hname
            · exact Or.inr hk
        split at h
        · refine ih _ m h ?_
          rcases hk' with hk' | hk'
          · left
            rw [lookup_mapStore_ne _ _ _ _ hname]
            exact hk'
          · exact Or.inr hk'
        · exact ih _ m h hk'

/-- Every program `Script.compile` returns has the reserved name `$out` in its
name index, at the output slot index, and one entry per name in the index. -/
theorem compile_reserved (X : Deps Object Host E) (T : Toolchain Object E M W File)
    (hT : T.KeepsReserved) (s : Script Object M W) (ctx : Option (Context E))
    (c : Compiled Object) (h : s.compile X T ctx = .ok (.ok c)) :
    c.indexes.lookup "$out" = some c.outIdx ∧ (c.indexes.map Prod.fst).Nodup := by
  unfold Script.compile at h
  split at h
  · cases h
  · rename_i st₀ globals₀ _
    dsimp only at h
    split at h
    · cases h
    · rename_i file _
      split at h
      · split at h
        · cases h
        · rename_i st bytecode hcomp
          split at h
          · split at h
            · cases h
            · rename_i idxs hidx
              split at h
              · cases h
              · simp only [Except.ok.injEq] at h
                subst h
                have hst : st.store.lookup "$out" = some (st₀.Define reservedVar).2 := by
                  rw [hT.2 _ _ _ _ hcomp]
                  show (T.NewCompiler _ _ _ _).symbolTable.store.lookup "$out" = _
                  rw [hT.1]
                  exact lookup_mapStore_self _ _ _
                exact ⟨indexes_loop_lookup st "$out" _ hst rfl _ _ _ hidx
                    (Or.inr (mem_keys_of_lookup hst)),
                  indexes_loop_nodup st _ _ _ hidx List.nodup_nil⟩
          · cases h
      · cases h

/-- In a map with one entry per key, an entry is what a read of its key gives. -/
theorem lookup_of_mem_nodup {α : Type} {m : List (String × α)}
    (h : (m.map Prod.fst).Nodup) {k : String} {v : α} (hm : (k, v) ∈ m) :
    m.lookup k = some v := by
  induction m with
  | nil => cases hm
  | cons p m ih =>
    obtain ⟨a, b⟩ := p
    rw [List.map_cons, List.nodup_cons] at h
    rw [List.lookup_cons]
    rcases List.mem_cons.mp hm with heq | hm'
    · cases heq
      simp
    · have hne : k ≠ a := by
        intro hka
        subst hka
        exact h.1 (List.mem_map.mpr ⟨(k, v), hm', rfl⟩)
      have hb : (k == a) = false := by simpa using hne
      rw [hb]
      exact ih h.2 hm'

/-- The loop of `GetAll` appends one variable per entry, in order, holding
what a read of the entry's slot reports. -/
theorem getAll_loop (X : Deps Object Host E) (hobj : X.MarshalsObjects) (c : Compiled Object) :
    ∀ (l : List (String × Nat)) (acc : List (Variable Object)),
      (∀ p ∈ l, p.2 < c.globals.length) →
      Compiled.GetAll.loop X c l acc =
        .ok (acc ++ l.map fun p => { name := p.1, value := c.read X p.2 }) := by
  intro l
  induction l with
  | nil => intro acc _; simp [Compiled.GetAll.loop]
  | cons p l ih =>
    intro acc h
    obtain ⟨name, idx⟩ := p
    have hidx : idx < c.globals.length := h (name, idx) (List.mem_cons_self _ _)
    have hl := ih
    unfold Compiled.GetAll.loop
    rw [List.getElem?_eq_getElem hidx]
    have hread : c.read X idx = match c.globals[idx] with
        | none => X.UndefinedValue
        | some v => v := by
      unfold Compiled.read
      rw [List.getElem?_eq_getElem hidx]
      cases c.globals[idx] <;> rfl
    simp only [NewVariable, hobj _]
    rw [ih _ (fun q hq => h q (List.mem_cons_of_mem _ hq)), ← hread]
    simp

/-- The compiler of the example host keeps the reserved symbol. -/
theorem Demo.define_keeps_reserved :
    ∀ (names : List String) (st : SymbolTable), names.contains "$out" = false →
      (names.foldl (fun st n => (st.Define n).1) st).store.lookup "$out" =
        st.store.lookup "$out" := by
  intro names
  induction names with
  | nil => intro st _; rfl
  | cons n rest ih =>
    intro st h
    have hn : ("$out" == n) = false ∧ rest.contains "$out" = false := by
      simpa [List.contains_cons] using h
    rw [List.foldl_cons, ih _ hn.2]
    exact lookup_mapStore_ne _ _ _ _ (by simpa using hn.1)

theorem Demo.toolchain_keepsReserved : Demo.toolchain.KeepsReserved := by
  refine ⟨fun sf st m w => ?_, fun cc file st bc h => ?_⟩
  · exact lookup_mapStore_ne _ _ _ _ (by decide)
  · simp only [Demo.toolchain] at h
    split at h
    · cases h
    · rename_i hfile
      cases h
      exact Demo.define_keeps_reserved file _ (by simpa using hfile)

/-- A map with one entry per key, holding the key `k`, has one entry more than
its entries of other keys. -/
theorem length_eq_others_add_one {α : Type} {m : List (String × α)}
    (h : (m.map Prod.fst).Nodup) {k : String} {v : α} (hk : m.lookup k = some v) :
    m.length = (m.filter (fun p => p.1 != k)).length + 1 := by
  have hcount : (m.map Prod.fst).count k = 1 :=
    List.count_eq_one_of_mem h (mem_keys_of_lookup hk)
  rw [List.count_eq_countP, List.countP_map, List.countP_eq_length_filter] at hcount
  have hsplit := List.length_eq_length_filter_add (l := m) (fun p => p.1 != k)
  have hfun : (fun p : String × α => !(p.1 != k)) = ((fun x => x == k) ∘ Prod.fst) := by
    funext p
    simp [bne]
  rw [hfun, hcount] at hsplit
  exact hsplit

theorem Demo.compile_source :
    Demo.source.compile Demo.deps Demo.toolchain (some Context.Background) =
      .ok (.ok Demo.compiled) := by
  rfl

theorem Demo.compiled_inBounds : Demo.compiled.InBounds := by
  refine ⟨fun name idx h => ?_, by decide⟩
  have hm := mem_map_snd_of_lookup h
  have hall' : ∀ i ∈ Demo.compiled.indexes.map Prod.snd, i < Demo.compiled.globals.length := by
    decide
  exact hall' idx hm

/-- The loop of `prepCompile` reads the script through its variables only. -/
theorem prepCompile_loop_congr (s s' : Script Object M W) (h : s'.vars = s.vars) :
    ∀ (l : List (Nat × String)) (st : SymbolTable) (g : List (Option Object)),
      Script.prepCompile.loop s' l st g = Script.prepCompile.loop s l st g := by
  intro l
  induction l with
  | nil => intro st g; rfl
  | cons p rest ih =>
    intro st g
    obtain ⟨idx, name⟩ := p
    simp only [Script.prepCompile.loop, h, ih]

/-- The method `compile` does not read the field `importDir` of the script. -/
theorem compile_importDir (X : Deps Object Host E) (T : Toolchain Object E M W File)
    (s : Script Object M W) (ctx : Option (Context E)) (d : String) :
    Script.compile X T { s with importDir := d } ctx = s.compile X T ctx := by
  have h := prepCompile_loop_congr { s with importDir := d } s rfl
  simp only [Script.compile, Script.prepCompile, h]

/-- The bootstrap run under a context whose cancellation is observed first
makes `compile` return an error. -/
theorem compile_done (X : Deps Object Host E) (T : Toolchain Object E M W File)
    (s : Script Object M W) (err : E) (k : Nat)
    (r : Except (Error E) (Compiled Object))
    (h : s.compile X T (some (.done err k)) = .ok r) :
    r = .error (.foreign err) ∨
      (∃ e, T.ParseFile { Name := "(main)", Size := s.src.length } s.src = .error e ∧
        r = .error (.foreign e)) ∨
      (∃ cc file e, T.Compile cc file = .error e ∧ r = .error (.foreign e)) := by
  unfold Script.compile at h
  split at h
  · cases h
  · dsimp only at h
    split at h
    · rename_i e hparse
      simp only [Except.ok.injEq] at h
      exact Or.inr (Or.inl ⟨e, hparse, h.symm⟩)
    · split at h
      · split at h
        · rename_i e hcomp
          simp only [Except.ok.injEq] at h
          exact Or.inr (Or.inr ⟨_, _, e, hcomp, h.symm⟩)
        · split at h
          · split at h
            · cases h
            · split at h
              · rename_i e he
                simp only [Except.ok.injEq] at h
                simp only [runEngine, runVMContext, Option.some.injEq] at he
                subst he
                exact Or.inl h.symm
              · rename_i he
                simp [runEngine, runVMContext] at he
          · cases h
      · cases h

/-- What the loop of `prepCompile` computes on a table with `k` definitions
made and a slot table with room for the names: it returns; the `i`-th name
gets the symbol with index `k + i`, its slot holds the object of the variable,
the other slots and the other names are as before. -/
theorem prepCompile_loop_ok (s : Script Object M W) :
    ∀ (names : List String) (k : Nat) (st : SymbolTable) (g : List (Option Object)),
      st.numDefinition = k → st.maxDefinition = k → k + names.length ≤ g.length →
      (∀ nm ∈ names, ∃ v, s.vars.lookup nm = some v) →
      ∃ st' g', Script.prepCompile.loop s (names.enumFrom k) st g = .ok (st', g') ∧
        st'.numDefinition = k + names.length ∧ st'.maxDefinition = k + names.length ∧
        g'.length = g.length ∧
        (∀ j, j < k ∨ k + names.length ≤ j → g'[j]? = g[j]?) ∧
        (∀ (i : Nat) nm, names[i]? = some nm →
          ∃ v, s.vars.lookup nm = some v ∧ g'[k + i]? = some (some v.Object)) ∧
        (∀ nm, nm ∉ names → st'.store.lookup nm = st.store.lookup nm) ∧
        (names.Nodup → ∀ (i : Nat) nm, names[i]? = some nm →
          st'.store.lookup nm = some { Name := nm, Scope := .ScopeGlobal, Index := k + i }) := by
  intro names
  induction names with
  | nil =>
    intro k st g hnum hmax _ _
    refine ⟨st, g, rfl, by simpa using hnum, by simpa using hmax, rfl, fun _ _ => rfl,
      ?_, fun _ _ => rfl, ?_⟩
    · intro i nm h
      simp at h
    · intro _ i nm h
      simp at h
  | cons nm rest ih =>
    intro k st g hnum hmax hlen hvars
    obtain ⟨v, hv⟩ := hvars nm (List.mem_cons_self _ _)
    have hk : k < g.length := by
      simp only [List.length_cons] at hlen
      omega
    have hlen' : (k + 1) + rest.length ≤ (g.set k (some v.Object)).length := by
      simp only [List.length_cons] at hlen
      rw [List.length_set]
      omega
    obtain ⟨st', g', hloop, hnum', hmax', hlen'', hframe, hslots, hstore, hres⟩ :=
      ih (k + 1) (st.Define nm).1 (g.set k (some v.Object))
        (by simp [SymbolTable.Define, hnum]) (by simp [SymbolTable.Define, hnum, hmax]) hlen'
        (fun n hn => hvars n (List.mem_cons_of_mem _ hn))
    refine ⟨st', g', ?_, ?_, ?_, ?_, ?_, ?_, ?_, ?_⟩
    · rw [List.enumFrom_cons, Script.prepCompile.loop]
      have hidx : (st.Define nm).2.Index = k := by simp [SymbolTable.Define, hnum]
      simp only [hidx, ne_eq, not_true_eq_false, if_false, hv, hk, if_true]
      exact hloop
    · rw [hnum', List.length_cons]
      omega
    · rw [hmax', List.length_cons]
      omega
    · rw [hlen'', List.length_set]
    · intro j hj
      have hj' : j < k + 1 ∨ k + 1 + rest.length ≤ j := by
        simp only [List.length_cons] at hj
        omega
      rw [hframe j hj']
      have hne : k ≠ j := by
        simp only [List.length_cons] at hj
        omega
      exact List.getElem?_set_ne hne
    · intro i n hi
      cases i with
      | zero =>
        simp only [List.getElem?_cons_zero, Option.some.injEq] at hi
        subst hi
        refine ⟨v, hv, ?_⟩
        rw [Nat.add_zero, hframe k (Or.inl (Nat.lt_succ_self k))]
        simp [hk]
      | succ i =>
        simp only [List.getElem?_cons_succ] at hi
        obtain ⟨w, hw, hgw⟩ := hslots i n hi
        exact ⟨w, hw, by rw [← hgw]; congr 1; omega⟩
    · intro n hn
      have hn' : n ≠ nm ∧ n ∉ rest := by
        simpa [List.mem_cons, not_or] using hn
      rw [hstore n hn'.2]
      exact lookup_mapStore_ne _ _ _ _ hn'.1
    · intro hnd i n hi
      have hnd' := List.nodup_cons.mp hnd
      cases i with
      | zero =>
        simp only [List.getElem?_cons_zero, Option.some.injEq] at hi
        subst hi
        rw [hstore _ hnd'.1]
        simp [SymbolTable.Define, hnum, lookup_mapStore_self]
      | succ i =>
        simp only [List.getElem?_cons_succ] at hi
        rw [hres hnd'.2 i n hi]
        congr 2
        omega

/-- The loop of `prepCompile`, on a table whose number of definitions is where
the enumeration starts, never reaches the "wrong symbol index" panic. -/
theorem prepCompile_loop_index (s : Script Object M W) :
    ∀ (names : List String) (k : Nat) (st : SymbolTable) (g : List (Option Object))
      (a b : Nat), st.numDefinition = k →
      Script.prepCompile.loop s (names.enumFrom k) st g ≠ .error (.wrongSymbolIndex a b) := by
  intro names
  induction names with
  | nil =>
    intro k st g a b _ h
    simp [Script.prepCompile.loop] at h
  | cons nm rest ih =>
    intro k st g a b hnum h
    rw [List.enumFrom_cons, Script.prepCompile.loop] at h
    have hidx : (st.Define nm).2.Index = k := by simp [SymbolTable.Define, hnum]
    simp only [hidx, ne_eq, not_true_eq_false, if_false] at h
    split at h
    · cases h
    · split at h
      · exact ih (k + 1) _ _ a b (by simp [SymbolTable.Define, hnum]) h
      · cases h

/-- Every key of a map has an entry. -/
theorem lookup_of_mem_keys {α : Type} {m : List (String × α)} {k : String}
    (h : k ∈ m.map Prod.fst) : ∃ v, m.lookup k = some v := by
  induction m with
  | nil => simp at h
  | cons p m ih =>
    obtain ⟨a, b⟩ := p
    rw [List.lookup_cons]
    by_cases hka : k = a
    · exact ⟨b, by simp [hka]⟩
    · have hb : (k == a) = false := by simpa using hka
      rw [hb]
      refine ih ?_
      simpa [hka] using h

/-- What a successful `compile` went through: the parse, the compilation with a
compiler made for the table that holds the reserved symbol, with file imports
enabled, the cut of the slot table, and the bootstrap run without error. -/
theorem compile_ok_inv (X : Deps Object Host E) (T : Toolchain Object E M W File)
    (s : Script Object M W) (ctx : Option (Context E)) (c : Compiled Object)
    (h : s.compile X T ctx = .ok (.ok c)) :
    ∃ st₀ g₀ file cc st bc idxs, s.prepCompile T = .ok (st₀, g₀) ∧
      T.ParseFile { Name := "(main)", Size := s.src.length } s.src = .ok file ∧
      cc.symbolTable =
        (T.NewCompiler { Name := "(main)", Size := s.src.length } (st₀.Define reservedVar).1
          s.modules s.trace).symbolTable ∧
      cc.allowFileImport = true ∧
      T.Compile cc file = .ok (st, bc) ∧
      (st₀.Define reservedVar).2.Index < g₀.length ∧
      st.MaxSymbols + 1 ≤ g₀.length ∧
      Script.compile.indexes st st.Names [] = .ok idxs ∧
      (runEngine X ctx
        { bytecode := bc,
          globals := (g₀.set (st₀.Define reservedVar).2.Index
            (some X.UndefinedValue)).take (st.MaxSymbols + 1),
          maxAllocs := s.maxAllocs }).err = none ∧
      c = { bytecode := T.RemoveDuplicates bc,
            globals := (runEngine X ctx
              { bytecode := bc,
                globals := (g₀.set (st₀.Define reservedVar).2.Index
                  (some X.UndefinedValue)).take (st.MaxSymbols + 1),
                maxAllocs := s.maxAllocs }).globals,
            indexes := idxs,
            maxAllocs := s.maxAllocs,
            outIdx := (st₀.Define reservedVar).2.Index } := by
  unfold Script.compile at h
  split at h
  · cases h
  · rename_i st₀ g₀ hprep
    dsimp only at h
    split at h
    · cases h
    · rename_i file hparse
      split at h
      · rename_i hout
        split at h
        · cases h
        · rename_i st bc hcomp
          split at h
          · rename_i hmax
            split at h
            · cases h
            · rename_i idxs hidx
              split at h
              · cases h
              · rename_i herr
                simp only [Except.ok.injEq] at h
                simp only [List.length_set] at hmax
                exact ⟨st₀, g₀, file,
                  ((T.NewCompiler { Name := "(main)", Size := s.src.length }
                    (st₀.Define reservedVar).1 s.modules s.trace).EnableFileImport
                      true).SetImportDir _,
                  st, bc, idxs, hprep, hparse, rfl, rfl, hcomp, hout, hmax, hidx, herr, h.symm⟩
          · cases h
      · cases h

/-- Definitions only add slots. -/
theorem foldl_define_maxDefinition :
    ∀ (names : List String) (st : SymbolTable),
      st.maxDefinition ≤ (names.foldl (fun st n => (st.Define n).1) st).maxDefinition := by
  intro names
  induction names with
  | nil => intro st; exact Nat.le_refl _
  | cons n rest ih =>
    intro st
    rw [List.foldl_cons]
    exact Nat.le_trans (by simp [SymbolTable.Define]) (ih _)

theorem Demo.toolchain_keepsSlots : Demo.toolchain.KeepsSlots := by
  refine ⟨fun sf st m w => Nat.le_refl _, fun cc file st bc h => ?_⟩
  simp only [Demo.toolchain] at h
  split at h
  · cases h
  · cases h
    exact foldl_define_maxDefinition file _

/-- The negation of an int64 other than the minimum is the negation of the
integer. -/
theorem duration_neg_of_ne_min (d : Int) (h : IsInt64 d) (hmin : d ≠ -2 ^ 63) :
    time.Duration.neg d = -d := by
  unfold IsInt64 at h
  show (-d + 2 ^ 63) % 2 ^ 64 - 2 ^ 63 = -d
  norm_num at h hmin ⊢
  omega

/-- The negation of the minimum int64 is the minimum. -/
theorem duration_neg_min : time.Duration.neg (-2 ^ 63) = -2 ^ 63 := by
  decide

/-- On integers, "less or equal" is the negation of "greater". -/
theorem decide_lt_or_eq (a b : Int) :
    (decide (a < b) || decide (a = b)) = !decide (b < a) := by
  by_cases h1 : a < b <;> by_cases h2 : a = b <;> by_cases h3 : b < a <;>
    simp [h1, h2, h3] <;> omega

/-- On integers, "greater or equal" is the negation of "less". -/
theorem decide_gt_or_eq (a b : Int) :
    (decide (b < a) || decide (a = b)) = !decide (a < b) := by
  by_cases h1 : a < b <;> by_cases h2 : a = b <;> by_cases h3 : b < a <;>
    simp [h1, h2, h3] <;> omega

/-- Adding a duration and then its negation gives the time back. -/
theorem time_add_add_neg (t : time.Time) (d : Int) : (t.Add d).Add (-d) = t := by
  cases t with
  | mk wall mono loc =>
    cases mono with
    | none => simp [time.Time.Add]
    | some m => simp [time.Time.Add]

/-- A time is equal to itself. -/
theorem time_equal_self (t : time.Time) : t.Equal t = true := by
  unfold time.Time.Equal
  cases t.mono <;> simp

/-- The argument loop fails with the error of the first argument that does not
marshal, whatever follows it. -/
theorem marshalArgs_error (X : Deps Object Host E) (a : Host) (rest : List Host) (e : E)
    (ha : X.FromInterface a = .error e) :
    ∀ (pre : List Host) (tpre acc : List Object),
      List.Forall₂ (fun a t => X.FromInterface a = .ok t) pre tpre →
      Compiled.marshalArgs X (pre ++ a :: rest) acc = .error e := by
  intro pre
  induction pre with
  | nil =>
    intro tpre acc _
    simp [Compiled.marshalArgs, ha]
  | cons b pre ih =>
    intro tpre acc h
    cases h with
    | cons hb htl =>
      rw [List.cons_append, Compiled.marshalArgs, hb]
      exact ih _ _ htl

/-- The method `Get` reads the program through the name index and the slot of
the name only. -/
theorem get_congr (X : Deps Object Host E) (c d : Compiled Object) (n : String)
    (hidx : d.indexes = c.indexes)
    (hslot : ∀ j, c.indexes.lookup n = some j →
      d.globals[j]? = c.globals[j]? ∧ d.globals.length = c.globals.length) :
    d.Get X n = c.Get X n := by
  unfold Compiled.Get
  rw [hidx]
  cases h : c.indexes.lookup n with
  | none => rfl
  | some j =>
    obtain ⟨h1, h2⟩ := hslot j h
    simp only [h1, h2]

/-- The loop of `GetAll` over entries whose slots are in range does not fail
with an index out of range. -/
theorem getAll_loop_inRange (X : Deps Object Host E) (c : Compiled Object) :
    ∀ (l : List (String × Nat)) (acc : List (Variable Object)) (i n : Nat),
      (∀ p ∈ l, p.2 < c.globals.length) →
      Compiled.GetAll.loop X c l acc ≠ .error (.indexOutOfRange i n) := by
  intro l
  induction l with
  | nil =>
    intro acc i n _ h
    simp [Compiled.GetAll.loop] at h
  | cons p rest ih =>
    intro acc i n hin h
    obtain ⟨name, idx⟩ := p
    have hidx : idx < c.globals.length := hin (name, idx) (List.mem_cons_self _ _)
    rw [Compiled.GetAll.loop, List.getElem?_eq_getElem hidx] at h
    dsimp only at h
    split at h
    · cases h
    · exact ih _ i n (fun q hq => hin q (List.mem_cons_of_mem _ hq)) h

/-- Go's `Equal` is symmetric. -/
theorem time_equal_comm (t u : time.Time) : t.Equal u = u.Equal t := by
  unfold time.Time.Equal
  cases t.mono <;> cases u.mono <;> simp only [decide_eq_decide] <;> exact eq_comm

/-- The function `datetimeNow` takes no argument. -/
theorem datetimeNow_checksCount {O : Type} (G : time.Package) :
    Stdlib.ChecksCount (Stdlib.datetimeNow (O := O) G) 0 0 := by
  intro args
  unfold Stdlib.datetimeNow
  rcases args with _ | ⟨a0, l⟩ <;> simp

/-- The member `date` takes no argument. -/
theorem timeDate_checksCount {O : Type} (X : Stdlib.Deps O) (G : time.Package) (t : time.Time) :
    Stdlib.ChecksCount (Stdlib.timeDate X G t) 0 0 := by
  intro args
  unfold Stdlib.timeDate
  rcases args with _ | ⟨a0, l⟩ <;> simp

/-- The member `clock` takes no argument. -/
theorem timeClock_checksCount {O : Type} (X : Stdlib.Deps O) (G : time.Package)
    (t : time.Time) : Stdlib.ChecksCount (Stdlib.timeClock X G t) 0 0 := by
  intro args
  unfold Stdlib.timeClock
  rcases args with _ | ⟨a0, l⟩ <;> simp

/-- The member `utc` takes no argument. -/
theorem timeUTC_checksCount {O : Type} (G : time.Package) (t : time.Time) :
    Stdlib.ChecksCount (Stdlib.timeUTC (O := O) G t) 0 0 := by
  intro args
  unfold Stdlib.timeUTC
  rcases args with _ | ⟨a0, l⟩ <;> simp

/-- The function `datetimeParseDuration` takes one argument. -/
theorem datetimeParseDuration_checksCount {O : Type} (X : Stdlib.Deps O) (G : time.Package) :
    Stdlib.ChecksCount (Stdlib.datetimeParseDuration X G) 1 1 := by
  intro args
  unfold Stdlib.datetimeParseDuration
  rcases args with _ | ⟨a0, _ | ⟨a1, l⟩⟩
  · simp
  · simp only [List.length_singleton, ne_eq, not_true_eq_false, if_false]
    refine ⟨?_, fun h => absurd ⟨le_refl _, le_refl _⟩ h⟩
    repeat' split
    all_goals simp
  · simp

/-- The function `datetimeParse` takes two arguments. -/
theorem datetimeParse_checksCount {O : Type} (X : Stdlib.Deps O) (G : time.Package) :
    Stdlib.ChecksCount (Stdlib.datetimeParse X G) 2 2 := by
  intro args
  unfold Stdlib.datetimeParse
  rcases args with _ | ⟨a0, _ | ⟨a1, _ | ⟨a2, l⟩⟩⟩
  · simp
  · simp
  · simp only [List.length_cons, List.length_nil, ne_eq, not_true_eq_false, if_false]
    refine ⟨?_, fun h => absurd ⟨le_refl _, le_refl _⟩ h⟩
    repeat' split
    all_goals simp
  · simp

/-- The member `add_date` takes three arguments. -/
theorem timeAddDate_checksCount {O : Type} (X : Stdlib.Deps O) (G : time.Package)
    (t : time.Time) : Stdlib.ChecksCount (Stdlib.timeAddDate X G t) 3 3 := by
  intro args
  unfold Stdlib.timeAddDate
  rcases args with _ | ⟨a0, _ | ⟨a1, _ | ⟨a2, _ | ⟨a3, l⟩⟩⟩⟩
  · simp
  · simp
  · simp
  · simp only [List.length_cons, List.length_nil, ne_eq, not_true_eq_false, if_false]
    refine ⟨?_, fun h => absurd ⟨le_refl _, le_refl _⟩ h⟩
    repeat' split
    all_goals simp
  · simp

/-- The function `datetimeNewTime` takes six to eight arguments. -/
theorem datetimeNewTime_checksCount {O : Type} (X : Stdlib.Deps O) (G : time.Package) :
    Stdlib.ChecksCount (Stdlib.datetimeNewTime X G) 6 8 := by
  intro args
  unfold Stdlib.datetimeNewTime
  by_cases hcount : args.length < 6 ∨ args.length > 8
  · rw [if_pos hcount]
    exact ⟨⟨fun _ => by omega, fun _ => rfl⟩, fun _ => rfl⟩
  · rw [if_neg hcount]
    refine ⟨⟨fun h => ?_, fun h => absurd h (by omega)⟩, fun h => absurd h (by omega)⟩
    exfalso
    revert h
    rcases args with _ | ⟨a0, _ | ⟨a1, _ | ⟨a2, _ | ⟨a3, _ | ⟨a4, _ | ⟨a5, rest⟩⟩⟩⟩⟩⟩
    any_goals (simp at hcount)
    dsimp only
    repeat' split
    all_goals simp

/-- The check in the words of the specification stops at the first argument
that does not convert: the arguments after it do not matter. -/
theorem firstInvalid_append {O : Type} (X : Stdlib.Deps O) (a : Stdlib.Obj O)
    (post : List (Stdlib.Obj O)) (p : String × Stdlib.ArgKind) (ha : X.converts p.2 a = false) :
    ∀ (pre : List (Stdlib.Obj O)) (P : List (String × Stdlib.ArgKind)),
      P[pre.length]? = some p →
      (∀ (i : Nat) b q, pre[i]? = some b → P[i]? = some q → X.converts q.2 b = true) →
      Stdlib.firstInvalid X P (pre ++ a :: post) =
        some (.ErrInvalidArgumentType p.1 p.2.Expected (a.TypeName X)) := by
  intro pre
  induction pre with
  | nil =>
    intro P hp _
    cases P with
    | nil => simp at hp
    | cons q P =>
      simp only [List.length_nil, List.getElem?_cons_zero, Option.some.injEq] at hp
      subst hp
      simp [Stdlib.firstInvalid, ha]
  | cons b pre ih =>
    intro P hp hpre
    cases P with
    | nil => simp at hp
    | cons q P =>
      simp only [List.length_cons, List.getElem?_cons_succ] at hp
      have hb : X.converts q.2 b = true := hpre 0 b q (by simp) (by simp)
      rw [List.cons_append, Stdlib.firstInvalid, if_pos hb]
      exact ih P hp (fun i c r hc hr => hpre (i + 1) c r (by simpa using hc) (by simpa using hr))

/-- The check in the words of the specification finds nothing exactly when
every argument converts to the kind its parameter expects. -/
theorem firstInvalid_eq_none {O : Type} (X : Stdlib.Deps O) :
    ∀ (P : List (String × Stdlib.ArgKind)) (args : List (Stdlib.Obj O)),
      Stdlib.firstInvalid X P args = none ↔
        ∀ (i : Nat) b q, args[i]? = some b → P[i]? = some q → X.converts q.2 b = true := by
  intro P
  induction P with
  | nil =>
    intro args
    simp [Stdlib.firstInvalid]
  | cons p P ih =>
    intro args
    cases args with
    | nil => simp [Stdlib.firstInvalid]
    | cons a as =>
      rw [Stdlib.firstInvalid]
      by_cases ha : X.converts p.2 a = true
      · rw [if_pos ha, ih as]
        constructor
        · intro h i b q hb hq
          cases i with
          | zero =>
            simp only [List.getElem?_cons_zero, Option.some.injEq] at hb hq
            subst hb
            subst hq
            exact ha
          | succ i => exact h i b q (by simpa using hb) (by simpa using hq)
        · intro h i b q hb hq
          exact h (i + 1) b q (by simpa using hb) (by simpa using hq)
      · rw [if_neg ha]
        simp only [reduceCtorEq, false_iff, not_forall]
        exact ⟨0, a, p, by simp, by simp, ha⟩

/-- The function `datetimeNewTime` returns the error the check in the words of
the specification finds. -/
theorem datetimeNewTime_firstInvalid {O : Type} (X : Stdlib.Deps O) (G : time.Package)
    (args : List (Stdlib.Obj O)) (hlo : 6 ≤ args.length) (hhi : args.length ≤ 8)
    (e : Stdlib.Err) (h : Stdlib.firstInvalid X Stdlib.datetimeNewTime.params args = some e) :
    Stdlib.datetimeNewTime X G args = (none, some e) := by
  unfold Stdlib.datetimeNewTime
  rw [if_neg (by omega)]
  revert h
  rcases args with _ | ⟨a0, _ | ⟨a1, _ | ⟨a2, _ | ⟨a3, _ | ⟨a4, _ | ⟨a5, rest⟩⟩⟩⟩⟩⟩
  any_goals (simp at hlo)
  rcases rest with _ | ⟨a6, _ | ⟨a7, _ | ⟨a8, l⟩⟩⟩
  any_goals (simp at hhi)
  all_goals
    simp only [Stdlib.firstInvalid, Stdlib.datetimeNewTime.params, Stdlib.Deps.converts,
      Stdlib.ArgKind.Expected]
    repeat' split
    all_goals simp_all

/-- The check in the words of the specification, one parameter at a time. -/
theorem firstInvalid_cons_none {O : Type} (X : Stdlib.Deps O) (p : String × Stdlib.ArgKind)
    (P : List (String × Stdlib.ArgKind)) (a : Stdlib.Obj O) (as : List (Stdlib.Obj O)) :
    Stdlib.firstInvalid X (p :: P) (a :: as) = none ↔
      X.converts p.2 a = true ∧ Stdlib.firstInvalid X P as = none := by
  rw [Stdlib.firstInvalid]
  by_cases ha : X.converts p.2 a = true
  · simp [ha]
  · simp [ha]

/-- An object converts to an int when `ToInt` reports a value. -/
theorem converts_int {O : Type} (X : Stdlib.Deps O) (a : Stdlib.Obj O) :
    X.converts .int a = true ↔ ∃ v, X.ToInt (some a) = some v := by
  simp [Stdlib.Deps.converts, Option.isSome_iff_exists]

/-- An object converts to a string when `ToString` reports a value. -/
theorem converts_string {O : Type} (X : Stdlib.Deps O) (a : Stdlib.Obj O) :
    X.converts .string a = true ↔ ∃ v, X.ToString (some a) = some v := by
  simp [Stdlib.Deps.converts, Option.isSome_iff_exists]

/-- What `datetimeNewTime` returns for six arguments that convert. -/
theorem datetimeNewTime_six {O : Type} (X : Stdlib.Deps O) (G : time.Package)
    (a0 a1 a2 a3 a4 a5 : Stdlib.Obj O) (y mo d h mi s : Int)
    (h0 : X.ToInt (some a0) = some y) (h1 : X.ToInt (some a1) = some mo)
    (h2 : X.ToInt (some a2) = some d) (h3 : X.ToInt (some a3) = some h)
    (h4 : X.ToInt (some a4) = some mi) (h5 : X.ToInt (some a5) = some s) :
    Stdlib.datetimeNewTime X G [a0, a1, a2, a3, a4, a5] =
      (some (.time (Stdlib.CreateTime (G.Date y mo d h mi s 0 G.Local))), none) := by
  simp [Stdlib.datetimeNewTime, h0, h1, h2, h3, h4, h5]

/-- What `datetimeNewTime` returns for seven arguments that convert. -/
theorem datetimeNewTime_seven {O : Type} (X : Stdlib.Deps O) (G : time.Package)
    (a0 a1 a2 a3 a4 a5 a6 : Stdlib.Obj O) (y mo d h mi s ns : Int)
    (h0 : X.ToInt (some a0) = some y) (h1 : X.ToInt (some a1) = some mo)
    (h2 : X.ToInt (some a2) = some d) (h3 : X.ToInt (some a3) = some h)
    (h4 : X.ToInt (some a4) = some mi) (h5 : X.ToInt (some a5) = some s)
    (h6 : X.ToInt (some a6) = some ns) :
    Stdlib.datetimeNewTime X G [a0, a1, a2, a3, a4, a5, a6] =
      (some (.time (Stdlib.CreateTime (G.Date y mo d h mi s ns G.Local))), none) := by
  simp [Stdlib.datetimeNewTime, h0, h1, h2, h3, h4, h5, h6]

/-- What `datetimeNewTime` returns for eight arguments that convert: the
outcome of `LoadLocation` decides. -/
theorem datetimeNewTime_eight {O : Type} (X : Stdlib.Deps O) (G : time.Package)
    (a0 a1 a2 a3 a4 a5 a6 a7 : Stdlib.Obj O) (y mo d h mi s ns : Int) (name : String)
    (h0 : X.ToInt (some a0) = some y) (h1 : X.ToInt (some a1) = some mo)
    (h2 : X.ToInt (some a2) = some d) (h3 : X.ToInt (some a3) = some h)
    (h4 : X.ToInt (some a4) = some mi) (h5 : X.ToInt (some a5) = some s)
    (h6 : X.ToInt (some a6) = some ns) (h7 : X.ToString (some a7) = some name) :
    Stdlib.datetimeNewTime X G [a0, a1, a2, a3, a4, a5, a6, a7] =
      match G.LoadLocation name with
      | .error err => (none, some (.foreign err))
      | .ok loc => (some (.time (Stdlib.CreateTime (G.Date y mo d h mi s ns loc))), none) := by
  cases hl : G.LoadLocation name <;>
    simp [Stdlib.datetimeNewTime, h0, h1, h2, h3, h4, h5, h6, h7, hl]

/-- The function `datetimeNewTime` succeeds exactly when the check in the words
of the specification finds nothing and the location, when one is given,
loads; and then it returns a time. -/
theorem datetimeNewTime_success {O : Type} (X : Stdlib.Deps O) (G : time.Package)
    (args : List (Stdlib.Obj O)) (hlo : 6 ≤ args.length) (hhi : args.length ≤ 8) :
    ((Stdlib.datetimeNewTime X G args).2 = none ↔
      Stdlib.firstInvalid X Stdlib.datetimeNewTime.params args = none ∧
        ∀ a7 loc, args[7]? = some a7 → X.ToString (some a7) = some loc →
          ∃ l, G.LoadLocation loc = .ok l) ∧
      ((Stdlib.datetimeNewTime X G args).2 = none →
        ∃ u, (Stdlib.datetimeNewTime X G args).1 = some (.time u)) := by
  cases hfi : Stdlib.firstInvalid X Stdlib.datetimeNewTime.params args with
  | some e =>
    rw [datetimeNewTime_firstInvalid X G args hlo hhi e hfi]
    simp
  | none =>
    rcases args with _ | ⟨a0, _ | ⟨a1, _ | ⟨a2, _ | ⟨a3, _ | ⟨a4, _ | ⟨a5, rest⟩⟩⟩⟩⟩⟩
    any_goals (simp at hlo)
    rcases rest with _ | ⟨a6, _ | ⟨a7, _ | ⟨a8, l⟩⟩⟩
    any_goals (simp at hhi)
    · simp only [Stdlib.datetimeNewTime.params, firstInvalid_cons_none, converts_int] at hfi
      obtain ⟨⟨y, h0⟩, ⟨mo, h1⟩, ⟨d, h2⟩, ⟨h, h3⟩, ⟨mi, h4⟩, ⟨s, h5⟩, -⟩ := hfi
      rw [datetimeNewTime_six X G a0 a1 a2 a3 a4 a5 y mo d h mi s h0 h1 h2 h3 h4 h5]
      simp
    · simp only [Stdlib.datetimeNewTime.params, firstInvalid_cons_none, converts_int] at hfi
      obtain ⟨⟨y, h0⟩, ⟨mo, h1⟩, ⟨d, h2⟩, ⟨h, h3⟩, ⟨mi, h4⟩, ⟨s, h5⟩, ⟨ns, h6⟩, -⟩ := hfi
      rw [datetimeNewTime_seven X G a0 a1 a2 a3 a4 a5 a6 y mo d h mi s ns h0 h1 h2 h3 h4 h5 h6]
      simp
    · simp only [Stdlib.datetimeNewTime.params, firstInvalid_cons_none, converts_int,
        converts_string] at hfi
      obtain ⟨⟨y, h0⟩, ⟨mo, h1⟩, ⟨d, h2⟩, ⟨h, h3⟩, ⟨mi, h4⟩, ⟨s, h5⟩, ⟨ns, h6⟩, ⟨name, h7⟩, -⟩ :=
        hfi
      rw [datetimeNewTime_eight X G a0 a1 a2 a3 a4 a5 a6 a7 y mo d h mi s ns name h0 h1 h2 h3 h4
        h5 h6 h7]
      cases hl : G.LoadLocation name with
      | error err => simp [h7, hl]
      | ok loc =>
        simp only [hl]
        refine ⟨⟨fun _ => ⟨trivial, fun b loc' hb hloc => ?_⟩, fun _ => trivial⟩,
          fun _ => ⟨_, rfl⟩⟩
        simp only [List.getElem?_cons_succ, List.getElem?_cons_zero, Option.some.injEq] at hb
        subst hb
        rw [h7] at hloc
        cases hloc
        exact ⟨loc, hl⟩

/-- The function `timeAddDate` returns the error the check in the words of the
specification finds, and succeeds, with a time, exactly when it finds
nothing. -/
theorem timeAddDate_firstInvalid {O : Type} (X : Stdlib.Deps O) (G : time.Package)
    (t : time.Time) (args : List (Stdlib.Obj O)) (hlen : args.length = 3) :
    (∀ e, Stdlib.firstInvalid X Stdlib.timeAddDate.params args = some e →
      Stdlib.timeAddDate X G t args = (none, some e)) ∧
      ((Stdlib.timeAddDate X G t args).2 = none ↔
        Stdlib.firstInvalid X Stdlib.timeAddDate.params args = none) ∧
      ((Stdlib.timeAddDate X G t args).2 = none →
        ∃ u, (Stdlib.timeAddDate X G t args).1 = some (.time u)) := by
  unfold Stdlib.timeAddDate
  rw [if_neg (by omega)]
  rcases args with _ | ⟨a0, _ | ⟨a1, _ | ⟨a2, _ | ⟨a3, l⟩⟩⟩⟩
  any_goals (simp at hlen)
  simp only [Stdlib.firstInvalid, Stdlib.timeAddDate.params, Stdlib.Deps.converts,
    Stdlib.ArgKind.Expected]
  repeat' split
  all_goals simp_all

/-- The function `time.Date` of the example host returns a time in the
location it is given. -/
theorem Demo.timePkg_dateInLocation : Demo.timePkg.DateInLocation := by
  intro year month day hour min sec nsec loc
  rfl

/-! ### Slot tables as cells of memory -/

theorem memory_view_eq_some {S : Memory Object} {p : Nat} {c : Compiled Object}
    (h : S.view p = some c) :
    ∃ l, S.programs[p]? = some l ∧ S.arrays[l.globals]? = some c.globals ∧
      c.bytecode = S.bytecode ∧ c.indexes = l.indexes ∧ c.maxAllocs = l.maxAllocs ∧
      c.outIdx = l.outIdx := by
  unfold Memory.view at h
  split at h
  · cases h
  · rename_i l hl
    split at h
    · cases h
    · rename_i g hg
      cases h
      exact ⟨l, hl, hg, rfl, rfl, rfl, rfl⟩

/-- What `view` gives is decided by the struct, the array it points to, and the
shared `Bytecode`. -/
theorem memory_view_congr (S T : Memory Object) (p : Nat) (l : Layout)
    (hb : T.bytecode = S.bytecode) (hl : S.programs[p]? = some l)
    (hl' : T.programs[p]? = some l) (ha : T.arrays[l.globals]? = S.arrays[l.globals]?) :
    T.view p = S.view p := by
  simp only [Memory.view, hl, hl', ha, hb]

/-- The copy loop of `Clone` in memory writes into the new array only, and writes
there what the loop on the table by value computes. -/
theorem store_loop (X : Deps Object Host E) (as : List (List (Option Object)))
    (l : List (Nat × Option Object)) :
    ∀ arr : List (Option Object),
      l.foldl
          (fun arrays e =>
            match e.2 with
            | some g => Memory.store arrays as.length e.1 (some (X.Copy g))
            | none => arrays) (as ++ [arr]) =
        as ++ [l.foldl
          (fun gs e =>
            match e.2 with
            | some g => gs.set e.1 (some (X.Copy g))
            | none => gs) arr] := by
  induction l with
  | nil => intro arr; rfl
  | cons e l ih =>
    intro arr
    rw [List.foldl_cons, List.foldl_cons]
    cases h : e.2 with
    | none => simpa using ih arr
    | some g =>
      have hs : Memory.store (as ++ [arr]) as.length e.1 (some (X.Copy g)) =
          as ++ [arr.set e.1 (some (X.Copy g))] := by
        simp [Memory.store, List.set_append_right]
      simp only [hs]
      exact ih _

/-- The memory after `Clone`: one more array, holding the slot table of the
clone by value, and one more struct, pointing to it. -/
theorem memory_clone_eq (X : Deps Object Host E) (S : Memory Object) (p : Nat)
    (c : Compiled Object) (hp : S.view p = some c) :
    ∃ S₁, S.Clone X p = .ok (S₁, S.programs.length) ∧ S₁.bytecode = S.bytecode ∧
      S₁.arrays = S.arrays ++ [(c.Clone X).globals] ∧
      S₁.programs = S.programs ++
        [{ indexes := c.indexes, globals := S.arrays.length, maxAllocs := c.maxAllocs,
           outIdx := c.outIdx }] := by
  obtain ⟨l, hl, hg, -, hi, hm, ho⟩ := memory_view_eq_some hp
  refine ⟨{ bytecode := S.bytecode, arrays := S.arrays ++ [(c.Clone X).globals],
             programs := S.programs ++
               [{ indexes := c.indexes, globals := S.arrays.length, maxAllocs := c.maxAllocs,
                  outIdx := c.outIdx }] }, ?_, rfl, rfl, rfl⟩
  simp only [Memory.Clone, hl, hg]
  rw [store_loop X S.arrays c.globals.enum (List.replicate c.globals.length none)]
  simp only [hi, hm, ho]
  rfl

/-- The method `Set` in memory does to the program what `Set` does to the program
seen by value, and writes into the array of that program only. -/
theorem memory_set_frame (X : Deps Object Host E) (S : Memory Object) (p : Nat)
    (c : Compiled Object) (hp : S.view p = some c) (hc : c.InBounds) (name : String)
    (v : Host) :
    ∃ T err d l, S.Set X p name v = .ok (T, err) ∧ c.Set X name v = .ok (d, err) ∧
      T.view p = some d ∧ S.programs[p]? = some l ∧ T.bytecode = S.bytecode ∧
      T.programs = S.programs ∧ ∀ a, a ≠ l.globals → T.arrays[a]? = S.arrays[a]? := by
  obtain ⟨l, hl, hg, hb, hi, hm, ho⟩ := memory_view_eq_some hp
  unfold Memory.Set Compiled.Set
  simp only [hl]
  cases X.FromInterface v with
  | error e => exact ⟨S, _, c, l, rfl, rfl, hp, rfl, rfl, rfl, fun _ _ => rfl⟩
  | ok obj =>
    simp only [← hi]
    cases hlk : c.indexes.lookup name with
    | none => exact ⟨S, _, c, l, rfl, rfl, hp, rfl, rfl, rfl, fun _ _ => rfl⟩
    | some idx =>
      have hidx := hc.1 name idx hlk
      have hlt : l.globals < S.arrays.length := (List.getElem?_eq_some.mp hg).1
      simp only [hg, hidx, if_true]
      refine ⟨_, _, _, l, rfl, rfl, ?_, rfl, rfl, rfl, fun a ha => ?_⟩
      · simp [Memory.view, Memory.store, hl, hg, hlt, hb, hi, hm, ho]
      · simp [Memory.store, hg, List.getElem?_set_ne (Ne.symm ha)]

/-- A `Set` on one of two programs that hold the slice of the same array is seen
by the other: sharing a slot table is not independence. -/
theorem aliased_set_is_seen :
    Demo.aliased.view 0 = some Demo.prog ∧ Demo.aliased.view 1 = some Demo.prog ∧
      Demo.aliased.Get Demo.deps 1 "a" = .ok { name := "a", value := .Int 5 } ∧
      (Demo.aliased.Set Demo.deps 0 "a" (.int 6)).toOption.map
          (fun r => r.1.Get Demo.deps 1 "a") =
        some (.ok { name := "a", value := .Int 6 }) := by
  decide

/-- On times that all hold a monotonic reading, or none of which does, "before"
is transitive. -/
theorem time_before_trans (t u w : time.Time) (h₁ : t.mono.isSome = u.mono.isSome)
    (h₂ : u.mono.isSome = w.mono.isSome) (htu : t.Before u = true) (huw : u.Before w = true) :
    t.Before w = true := by
  unfold time.Time.Before at *
  cases ht : t.mono <;> cases hu : u.mono <;> cases hw : w.mono <;>
    simp only [ht, hu, hw, Option.isSome_none, Option.isSome_some, decide_eq_true_eq] at * <;>
    first | omega | exact Bool.noConfusion h₁ | exact Bool.noConfusion h₂

/-- On times that all hold a monotonic reading, or none of which does, "the same
instant" is transitive. -/
theorem time_equal_trans (t u w : time.Time) (h₁ : t.mono.isSome = u.mono.isSome)
    (h₂ : u.mono.isSome = w.mono.isSome) (htu : t.Equal u = true) (huw : u.Equal w = true) :
    t.Equal w = true := by
  unfold time.Time.Equal at *
  cases ht : t.mono <;> cases hu : u.mono <;> cases hw : w.mono <;>
    simp only [ht, hu, hw, Option.isSome_none, Option.isSome_some, decide_eq_true_eq] at * <;>
    first | omega | exact Bool.noConfusion h₁ | exact Bool.noConfusion h₂

/-- On times that all hold a monotonic reading, or none of which does, "before"
is carried along "the same instant", on either side. -/
theorem time_before_equal (t u w : time.Time) (h₁ : t.mono.isSome = u.mono.isSome)
    (h₂ : u.mono.isSome = w.mono.isSome) :
    (t.Before u = true → u.Equal w = true → t.Before w = true) ∧
      (t.Equal u = true → u.Before w = true → t.Before w = true) := by
  unfold time.Time.Before time.Time.Equal
  cases ht : t.mono <;> cases hu : u.mono <;> cases hw : w.mono <;>
    simp only [ht, hu, hw, Option.isSome_none, Option.isSome_some, decide_eq_true_eq] at * <;>
    first | (constructor <;> intros <;> omega) | exact Bool.noConfusion h₁ |
      exact Bool.noConfusion h₂

theorem time_after_eq_before (t u : time.Time) : t.After u = u.Before t := by
  unfold time.Time.After time.Time.Before
  cases t.mono <;> cases u.mono <;> rfl

end Lemmas

end Tengo

namespace Tengo

section Claims

variable {Object Host E M W File : Type}

/-- C1: the constant pool after a call is the pool before it, entry by entry,
when the engine run itself does not alter the pool: for `callCompiled`, for each
of `Call`, `CallContext`, `CallByName` and `CallByNameContext` (whatever the
callable, the arguments and the result of the run), and therefore after any
sequence of calls on the same program.  Each call returns (no panic) on a
program whose indices are in bounds and an engine that keeps the table length. -/
theorem pool_restored_after_calls (X : Deps Object Host E) (hpool : X.KeepsPool)
    (hlen : X.KeepsLength) (c : Compiled Object) (hc : c.InBounds) :
    (∀ ctx fn args, ∃ o, c.callCompiled X ctx fn args = .ok o ∧
        o.state.bytecode.Constants = c.bytecode.Constants) ∧
    (∀ req, ∃ o, c.serve X req = .ok o ∧
        o.state.bytecode.Constants = c.bytecode.Constants) ∧
    (∀ reqs, ∃ d, Compiled.serveAll X reqs c = .ok d ∧
        d.bytecode.Constants = c.bytecode.Constants ∧
        d.bytecode.Constants.length = c.bytecode.Constants.length) := by
  refine ⟨fun ctx fn args => ?_, fun req => ?_, fun reqs => ?_⟩
  · obtain ⟨o, _, ho, -, -, -, -, -, hp⟩ := callCompiled_ok X hlen c hc.2 ctx fn args
    exact ⟨o, ho, hp hpool⟩
  · obtain ⟨o, ho, -, hp⟩ := serve_ok X hlen c hc req
    exact ⟨o, ho, hp hpool⟩
  · obtain ⟨d, hd, -, hp⟩ := serveAll_ok X hlen reqs c hc
    exact ⟨d, hd, hp hpool, by rw [hp hpool]⟩

/-- Instance of C1 on the example host: a successful call, a failing call and a
cancelled call in sequence leave the pool as compiled. -/
theorem pool_restored_after_calls_witness :
    Demo.deps.KeepsPool ∧ Demo.deps.KeepsLength ∧ Demo.prog.InBounds ∧
      ∃ d, Compiled.serveAll Demo.deps
          [.CallByName "add" [.int 3, .int 4], .Call (some .Fail) [],
            .CallByNameContext (some (.done "context canceled" 0)) "add" [.int 1]]
          Demo.prog = .ok d ∧
        d.bytecode.Constants = [some (.Int 5)] :=
  ⟨Demo.deps_keepsPool, Demo.deps_keepsLength, Demo.prog_inBounds,
    ((pool_restored_after_calls Demo.deps Demo.deps_keepsPool Demo.deps_keepsLength Demo.prog
      Demo.prog_inBounds).2.2 _).imp fun _ h => ⟨h.1, h.2.1⟩⟩

/-- C2: for a pool of length `k`, a callable `fn` and arguments `a_1 .. a_n`,
`callCompiled` runs the engine exactly once, on a program whose pool is the old
pool followed by `fn, a_1, .., a_n` and whose entry sequence encodes
`OpConstant k`, then `OpConstant (k+i)` for `i = 1..n` in increasing order, then
`OpCall n`, `OpSetGlobal outIdx` and `OpSuspend`; constant `k` is the callable
and constant `k+i` the `i`-th argument. -/
theorem callCompiled_synthesizes (X : Deps Object Host E) (hlen : X.KeepsLength)
    (c : Compiled Object) (hout : c.outIdx < c.globals.length) (ctx : Option (Context E))
    (fn : Option Object) (args : List (Option Object)) :
    ∃ o vm, c.callCompiled X ctx fn args = .ok o ∧ o.runs = [vm] ∧
      vm.bytecode.Constants = c.bytecode.Constants ++ fn :: args ∧
      (∃ seq : List (Opcode × List Nat),
        vm.bytecode.MainFunction.Instructions =
          seq.flatMap (fun p => X.MakeInstruction p.1 p.2) ∧
        seq.length = args.length + 4 ∧
        seq[0]? = some (Opcode.OpConstant, [c.bytecode.Constants.length]) ∧
        (∀ i, 1 ≤ i → i ≤ args.length →
          seq[i]? = some (Opcode.OpConstant, [c.bytecode.Constants.length + i])) ∧
        seq[args.length + 1]? = some (Opcode.OpCall, [args.length]) ∧
        seq[args.length + 2]? = some (Opcode.OpSetGlobal, [c.outIdx]) ∧
        seq[args.length + 3]? = some (Opcode.OpSuspend, [])) ∧
      vm.bytecode.Constants[c.bytecode.Constants.length]? = some fn ∧
      (∀ i, 1 ≤ i → i ≤ args.length →
        vm.bytecode.Constants[c.bytecode.Constants.length + i]? = args[i - 1]?) := by
  obtain ⟨o, _, ho, -, -, hruns, -, -, -⟩ := callCompiled_ok X hlen c hout ctx fn args
  obtain ⟨h0, h1, h2, h3, h4, h5⟩ :=
    specEntrySequence_getElem? c.bytecode.Constants.length args.length c.outIdx
  refine ⟨o, specCallVM X c fn args, ho, hruns, rfl,
    ⟨specEntrySequence c.bytecode.Constants.length args.length c.outIdx, rfl, h0, h1, h2, h3, h4,
      h5⟩, ?_, ?_⟩
  · have h := getElem?_length_add c.bytecode.Constants (fn :: args) 0
    simpa [specCallVM] using h
  · intro i hi1 hi
    obtain ⟨j, rfl⟩ : ∃ j, i = j + 1 := ⟨i - 1, by omega⟩
    have h := getElem?_length_add c.bytecode.Constants (fn :: args) (j + 1)
    simpa [specCallVM] using h

/-- Instance of C2 on the example host: calling `Sum` with `3` and `4` on a pool
of length one. -/
theorem callCompiled_synthesizes_witness :
    Demo.deps.KeepsLength ∧ Demo.prog.outIdx < Demo.prog.globals.length ∧
      ∃ o vm, Demo.prog.callCompiled Demo.deps none (some .Sum) [some (.Int 3), some (.Int 4)] =
          .ok o ∧ o.runs = [vm] ∧
        vm.bytecode.Constants = [some (.Int 5), some .Sum, some (.Int 3), some (.Int 4)] :=
  ⟨Demo.deps_keepsLength, by decide,
    (callCompiled_synthesizes Demo.deps Demo.deps_keepsLength Demo.prog (by decide) none
      (some .Sum) [some (.Int 3), some (.Int 4)]).imp fun _ h =>
        h.imp fun _ h' => ⟨h'.1, h'.2.1, h'.2.2.1⟩⟩

/-- Against C3 as stated: under a context whose cancellation is observed first,
the engine's own run returns no error (here it is aborted at once and leaves
the output slot undefined), yet `CallContext` does not return the content of
the output slot with a nil error: it returns the error of the context. -/
theorem call_returns_output_slot_counterexample :
    (Demo.prog.CallContext Demo.deps (some (.done "context canceled" 0)) (some .Sum)
        [.int 3, .int 4]).toOption.map
      (fun o => (o.ret, o.runs.map fun vm =>
        ((Demo.deps.Run (some 0) vm).err, (Demo.deps.Run (some 0) vm).globals[4]?))) =
      some (.error (.foreign "context canceled"), [(none, some (some .Undefined))]) ∧
    (Except.error (.foreign "context canceled") : Except (Error String) Demo.HostVal) ≠
      .ok (Demo.deps.ToInterface (some .Undefined)) := by
  decide

/-- C3 (amended): for a callable `f` and host arguments that all marshal, the
engine is run once on the pool extended by `f` and the marshalled arguments, in
the same order and number.  Under a nil context or one whose cancellation is
not observed before the run completes (always so for `Call`), `CallContext` and
`Call` return `ToInterface` of the object the engine run left in the output
slot when the run returns no error, and the engine's own error, unchanged, when
it fails.  When the cancellation of the context is observed first,
`CallContext` returns the error of the context, whatever the run returned. -/
theorem call_returns_output_slot (X : Deps Object Host E) (hlen : X.KeepsLength)
    (c : Compiled Object) (hout : c.outIdx < c.globals.length) (f : Object)
    (hf : X.CanCall f = true) (args : List Host)
    (hargs : ∀ a ∈ args, ∃ t, X.FromInterface a = .ok t) :
    ∃ (targs : List Object) (vm : VM Object),
      targs.length = args.length ∧
      (∀ (i : Nat) (a : Host), args[i]? = some a →
        ∃ t, targs[i]? = some t ∧ X.FromInterface a = .ok t) ∧
      vm.bytecode.Constants = c.bytecode.Constants ++ some f :: targs.map some ∧
      vm.globals = c.globals ∧
      (∀ ctx, ctx = none ∨ ctx = some Context.live →
        ∃ o v, c.CallContext X ctx (some f) args = .ok o ∧ o.runs = [vm] ∧
          (X.Run none vm).globals[c.outIdx]? = some v ∧
          ((X.Run none vm).err = none → o.ret = .ok (X.ToInterface v)) ∧
          (∀ e, (X.Run none vm).err = some e → o.ret = .error (.foreign e))) ∧
      (∃ o v, c.Call X (some f) args = .ok o ∧ o.runs = [vm] ∧
          (X.Run none vm).globals[c.outIdx]? = some v ∧
          ((X.Run none vm).err = none → o.ret = .ok (X.ToInterface v)) ∧
          (∀ e, (X.Run none vm).err = some e → o.ret = .error (.foreign e))) ∧
      (∀ err abortAt, ∃ o, c.CallContext X (some (.done err abortAt)) (some f) args = .ok o ∧
          o.runs = [vm] ∧ o.ret = .error (.foreign err)) := by
  obtain ⟨targs, ht⟩ := exists_marshalled X args hargs
  have hcc : ∀ ctx, c.CallContext X ctx (some f) args = c.call X ctx (some f) args := by
    intro ctx
    unfold Compiled.CallContext
    simp only [hf, Bool.not_true, Bool.false_eq_true, if_false]
  have hlive : ∀ ctx, ctx = none ∨ ctx = some Context.live →
      ∃ o v, c.CallContext X ctx (some f) args = .ok o ∧
        o.runs = [specCallVM X c (some f) (targs.map some)] ∧
        (X.Run none (specCallVM X c (some f) (targs.map some))).globals[c.outIdx]? = some v ∧
        ((X.Run none (specCallVM X c (some f) (targs.map some))).err = none →
          o.ret = .ok (X.ToInterface v)) ∧
        (∀ e, (X.Run none (specCallVM X c (some f) (targs.map some))).err = some e →
          o.ret = .error (.foreign e)) := by
    intro ctx hctx
    obtain ⟨o, v, ho, hruns, hv, -, hok, herr⟩ :=
      call_marshalled X hlen c hout ctx (some f) args targs ht
    have hrun : runEngine X ctx (specCallVM X c (some f) (targs.map some)) =
        X.Run none (specCallVM X c (some f) (targs.map some)) := by
      rcases hctx with rfl | rfl <;> rfl
    rw [hrun] at hv hok herr
    exact ⟨o, v, (hcc ctx).trans ho, hruns, hv, hok, herr⟩
  refine ⟨targs, specCallVM X c (some f) (targs.map some), ht.length_eq.symm, ?_, rfl, rfl,
    hlive, hlive (some Context.Background) (Or.inr rfl), ?_⟩
  · intro i a hi
    have hlt : i < args.length := (List.getElem?_eq_some.mp hi).1
    have hlt' : i < targs.length := by rw [← ht.length_eq]; exact hlt
    refine ⟨targs[i], List.getElem?_eq_getElem hlt', ?_⟩
    have := List.Forall₂.get ht hlt hlt'
    rw [List.getElem?_eq_getElem hlt] at hi
    cases hi
    simpa using this
  · intro err abortAt
    obtain ⟨o, v, ho, hruns, -, -, -, herr⟩ :=
      call_marshalled X hlen c hout (some (.done err abortAt)) (some f) args targs ht
    exact ⟨o, (hcc _).trans ho, hruns, herr err rfl⟩

/-- Instance of C3 on the example host: `Sum` called with `3` and `4` returns
`7`. -/
theorem call_returns_output_slot_witness :
    Demo.deps.KeepsLength ∧ Demo.prog.outIdx < Demo.prog.globals.length ∧
      Demo.deps.CanCall .Sum = true ∧
      (∀ a ∈ [Demo.HostVal.int 3, .int 4], ∃ t, Demo.deps.FromInterface a = .ok t) ∧
      (∃ (targs : List Demo.Obj) (vm : VM Demo.Obj), targs.length = 2 ∧
        vm.globals = Demo.prog.globals) ∧
      (Demo.prog.Call Demo.deps (some .Sum) [.int 3, .int 4]).toOption.map (fun o => o.ret) =
        some (.ok (.int 7)) :=
  ⟨Demo.deps_keepsLength, by decide, by decide,
    fun _ ha => by
      simp only [List.mem_cons, List.mem_singleton, List.not_mem_nil, or_false] at ha
      rcases ha with rfl | rfl <;> exact ⟨_, rfl⟩,
    (call_returns_output_slot Demo.deps Demo.deps_keepsLength Demo.prog (by decide) .Sum
      (by decide) [.int 3, .int 4] (fun _ ha => by
        simp only [List.mem_cons, List.mem_singleton, List.not_mem_nil, or_false] at ha
        rcases ha with rfl | rfl <;> exact ⟨_, rfl⟩)).imp fun _ h =>
          h.imp fun _ h' => ⟨h'.1, h'.2.2.2.1⟩,
    by decide⟩

/-- C4: calling a value that is not callable fails before any synthesis.  For a
nil `fn` and for an object with `CanCall()` false, `CallContext` returns the
error "callable expected, got nil", resp. "not a callable"; so does
`CallByNameContext` when the name resolves to an empty slot, resp. to such an
object.  In each case no engine is run and the whole program state (pool, entry
sequence, slot table) is the state before the call. -/
theorem not_callable_fails_before_synthesis (X : Deps Object Host E) (c : Compiled Object)
    (ctx : Option (Context E)) (args : List Host) :
    c.CallContext X ctx none args =
      .ok { state := c, ret := .error (.New "callable expected, got nil"), runs := [] } ∧
    (∀ f, X.CanCall f = false →
      c.CallContext X ctx (some f) args =
        .ok { state := c, ret := .error (.New "not a callable"), runs := [] }) ∧
    (∀ name idx, c.indexes.lookup name = some idx → c.globals[idx]? = some none →
      c.CallByNameContext X ctx name args =
        .ok { state := c, ret := .error (.New "callable expected, got nil"), runs := [] }) ∧
    (∀ name idx f, c.indexes.lookup name = some idx → c.globals[idx]? = some (some f) →
      X.CanCall f = false →
      c.CallByNameContext X ctx name args =
        .ok { state := c, ret := .error (.New "not a callable"), runs := [] }) := by
  refine ⟨rfl, fun f hf => ?_, fun name idx hlk hslot => ?_, fun name idx f hlk hslot hf => ?_⟩
  · simp [Compiled.CallContext, hf]
  · simp [Compiled.CallByNameContext, hlk, hslot]
  · simp [Compiled.CallByNameContext, hlk, hslot, hf]

/-- Instance of C4 on the example host: the integer `5` is not callable, by
value or under its name `a`, and the unassigned `u` holds no callable. -/
theorem not_callable_fails_before_synthesis_witness :
    Demo.deps.CanCall (.Int 5) = false ∧
      Demo.prog.indexes.lookup "a" = some 0 ∧ Demo.prog.globals[0]? = some (some (.Int 5)) ∧
      Demo.prog.indexes.lookup "u" = some 3 ∧ Demo.prog.globals[3]? = some none ∧
      Demo.prog.CallContext Demo.deps none (some (.Int 5)) [.int 1] =
        .ok { state := Demo.prog, ret := .error (.New "not a callable"), runs := [] } ∧
      Demo.prog.CallByNameContext Demo.deps none "u" [.int 1] =
        .ok { state := Demo.prog, ret := .error (.New "callable expected, got nil"),
              runs := [] } ∧
      Demo.prog.CallByNameContext Demo.deps none "a" [.int 1] =
        .ok { state := Demo.prog, ret := .error (.New "not a callable"), runs := [] } :=
  ⟨by decide, by decide, by decide, by decide, by decide,
    (not_callable_fails_before_synthesis Demo.deps Demo.prog none [.int 1]).2.1 (.Int 5)
      (by decide),
    (not_callable_fails_before_synthesis Demo.deps Demo.prog none [.int 1]).2.2.1 "u" 3
      (by decide) (by decide),
    (not_callable_fails_before_synthesis Demo.deps Demo.prog none [.int 1]).2.2.2 "a" 0 (.Int 5)
      (by decide) (by decide) (by decide)⟩

/-- C5: `CallByNameContext` resolves the name through the name index first.  It
returns the error "'name' not found" exactly when the name is absent from the
index, whatever the arguments; when the name is present and its slot is empty
it returns "callable expected, got nil"; in both cases no engine is run and the
program state is unchanged. -/
theorem callByName_resolves_name_first (X : Deps Object Host E) (hlen : X.KeepsLength)
    (c : Compiled Object) (hc : c.InBounds) (ctx : Option (Context E)) (name : String)
    (args : List Host) :
    ∃ o, c.CallByNameContext X ctx name args = .ok o ∧
      (o.ret = .error (.New ("'" ++ name ++ "' not found")) ↔ c.indexes.lookup name = none) ∧
      (c.indexes.lookup name = none → o.state = c ∧ o.runs = []) ∧
      (∀ idx, c.indexes.lookup name = some idx → c.globals[idx]? = some none →
        o.ret = .error (.New "callable expected, got nil") ∧ o.state = c ∧ o.runs = []) := by
  cases hlk : c.indexes.lookup name with
  | none =>
    refine ⟨{ state := c, ret := .error (.New ("'" ++ name ++ "' not found")), runs := [] },
      by simp [Compiled.CallByNameContext, hlk], ?_, fun _ => ⟨rfl, rfl⟩, ?_⟩
    · simp
    · intro idx h
      cases h
  | some idx =>
    have hidx := hc.1 name idx hlk
    cases hslot : c.globals[idx] with
    | none =>
      refine ⟨{ state := c, ret := .error (.New "callable expected, got nil"), runs := [] },
        by simp [Compiled.CallByNameContext, hlk, List.getElem?_eq_getElem hidx, hslot],
        ?_, ?_, fun _ _ _ => ⟨rfl, rfl, rfl⟩⟩
      · simp only [Except.error.injEq, Error.New.injEq, reduceCtorEq, iff_false]
        exact nil_callable_ne_not_found name
      · intro h
        cases h
    | some f =>
      by_cases hcall : X.CanCall f = true
      · obtain ⟨o, ho, -, -⟩ := call_ok X hlen c hc.2 ctx (some f) args
        refine ⟨o, by simp [Compiled.CallByNameContext, hlk, List.getElem?_eq_getElem hidx,
          hslot, hcall, ho], ?_, ?_, ?_⟩
        · simp only [reduceCtorEq, iff_false]
          exact call_ret_ne_New X c ctx (some f) args o ho _
        · intro h
          cases h
        · intro idx' h hs
          cases h
          rw [List.getElem?_eq_getElem hidx, hslot] at hs
          cases hs
      · refine ⟨{ state := c, ret := .error (.New "not a callable"), runs := [] },
          by simp [Compiled.CallByNameContext, hlk, List.getElem?_eq_getElem hidx, hslot,
            hcall], ?_, ?_, ?_⟩
        · simp only [Except.error.injEq, Error.New.injEq, reduceCtorEq, iff_false]
          exact not_callable_ne_not_found name
        · intro h
          cases h
        · intro idx' h hs
          cases h
          rw [List.getElem?_eq_getElem hidx, hslot] at hs
          cases hs

/-- Instance of C5 on the example host: `containsX` is not a name of the
program, even with an argument that cannot be marshalled. -/
theorem callByName_resolves_name_first_witness :
    Demo.deps.KeepsLength ∧ Demo.prog.InBounds ∧
      ∃ o, Demo.prog.CallByNameContext Demo.deps none "containsX" [.chan] = .ok o ∧
        (o.ret = .error (.New ("'" ++ "containsX" ++ "' not found")) ↔
          Demo.prog.indexes.lookup "containsX" = none) :=
  ⟨Demo.deps_keepsLength, Demo.prog_inBounds,
    (callByName_resolves_name_first Demo.deps Demo.deps_keepsLength Demo.prog Demo.prog_inBounds
      none "containsX" [.chan]).imp fun _ h => ⟨h.1, h.2.1⟩⟩

/-- C6: every call runs the engine on the program's own slot table and with its
allocation budget.  After `Set(name, v)`, a request either fails before any
engine run (state untouched) or runs one engine whose slot table is the
program's, holding the marshalled `v` in the slot of `name`, and whose budget is
the program's; the slot table after the call is the one the run left, so a later
`Get` of any indexed name returns what the run left in its slot (the undefined
value for an empty slot). -/
theorem calls_share_slot_table (X : Deps Object Host E) (hlen : X.KeepsLength)
    (hobj : X.MarshalsObjects) (c : Compiled Object) (hc : c.InBounds) (name : String)
    (idx : Nat) (hlk : c.indexes.lookup name = some idx) (v : Host) (obj : Object)
    (hv : X.FromInterface v = .ok obj) (req : Request Object Host E) :
    ∃ c₁ o, c.Set X name v = .ok (c₁, none) ∧ c₁.serve X req = .ok o ∧
      ((o.runs = [] ∧ o.state = c₁) ∨
        ∃ vm, o.runs = [vm] ∧ vm.globals = c₁.globals ∧ vm.maxAllocs = c.maxAllocs ∧
          vm.globals[idx]? = some (some obj) ∧
          o.state.globals = (runEngine X req.ctx vm).globals ∧
          ∀ n i, c.indexes.lookup n = some i →
            ∃ slot, (runEngine X req.ctx vm).globals[i]? = some slot ∧
              o.state.Get X n = .ok { name := n, value := slot.getD X.UndefinedValue }) := by
  have hidx := hc.1 name idx hlk
  have hshape : c.SameShape { c with globals := c.globals.set idx (some obj) } :=
    ⟨rfl, rfl, rfl, by simp⟩
  obtain ⟨o, ho, hs, -⟩ := serve_ok X hlen _ (hshape.inBounds hc) req
  refine ⟨_, o, set_known X c name idx hlk hidx v obj hv, ho, ?_⟩
  rcases serve_runs X _ req o ho with h | ⟨vm, hr, hg, hm, hst⟩
  · exact Or.inl h
  · right
    refine ⟨vm, hr, hg, hm, ?_, hst, fun n i hn => ?_⟩
    · rw [hg]
      simp [hidx]
    · have hi : i < (runEngine X req.ctx vm).globals.length := by
        rw [← hst, hs.2.2.2]
        simpa using hc.1 n i hn
      refine ⟨_, List.getElem?_eq_getElem hi, ?_⟩
      apply get_known X hobj o.state n i
      · rw [hs.1]
        exact hn
      · rw [hst]
        exact List.getElem?_eq_getElem hi

/-- Instance of C6 on the example host: after `Set("a", 6)` the call of `add`
runs on a slot table holding `6` in the slot of `a`. -/
theorem calls_share_slot_table_witness :
    Demo.deps.KeepsLength ∧ Demo.deps.MarshalsObjects ∧ Demo.prog.InBounds ∧
      Demo.prog.indexes.lookup "a" = some 0 ∧ Demo.deps.FromInterface (.int 6) = .ok (.Int 6) ∧
      (∃ c₁ o, Demo.prog.Set Demo.deps "a" (.int 6) = .ok (c₁, none) ∧
        c₁.serve Demo.deps (.CallByName "add" [.int 3, .int 4]) = .ok o) ∧
      ((Demo.prog.Set Demo.deps "a" (.int 6)).toOption.bind fun p =>
        ((p.1.CallByName Demo.deps "add" [.int 3, .int 4]).toOption.map fun o =>
          (o.runs.map fun vm => vm.globals[0]?, o.state.Get Demo.deps "$out"))) =
        some ([some (some (.Int 6))], .ok { name := "$out", value := .Int 7 }) :=
  ⟨Demo.deps_keepsLength, Demo.deps_marshalsObjects, Demo.prog_inBounds, by decide, rfl,
    (calls_share_slot_table Demo.deps Demo.deps_keepsLength Demo.deps_marshalsObjects Demo.prog
      Demo.prog_inBounds "a" 0 (by decide) (.int 6) (.Int 6) rfl
      (.CallByName "add" [.int 3, .int 4])).imp fun _ h => h.imp fun _ h' => ⟨h'.1, h'.2.1⟩,
    by decide⟩

/-- C7: `Get(name)` returns a variable named `name` holding the object in the
slot of the name when the name is indexed and the slot is not empty, and the
undefined value when the slot is empty or the name is unknown.  It always
returns (no panic) on a program in bounds; being a function of the program to a
variable, it changes nothing in the program. -/
theorem get_returns_slot_or_undefined (X : Deps Object Host E) (hobj : X.MarshalsObjects)
    (c : Compiled Object) (hc : c.InBounds) (name : String) :
    ∃ v, c.Get X name = .ok v ∧ v.name = name ∧
      (∀ idx o, c.indexes.lookup name = some idx → c.globals[idx]? = some (some o) →
        v.value = o) ∧
      (∀ idx, c.indexes.lookup name = some idx → c.globals[idx]? = some none →
        v.value = X.UndefinedValue) ∧
      (c.indexes.lookup name = none → v.value = X.UndefinedValue) := by
  cases hlk : c.indexes.lookup name with
  | none =>
    refine ⟨_, get_unknown X hobj c name hlk, rfl, ?_, ?_, fun _ => rfl⟩
    · intro idx o h
      cases h
    · intro idx h
      cases h
  | some idx =>
    have hidx := hc.1 name idx hlk
    refine ⟨_, get_known X hobj c name idx hlk _ (List.getElem?_eq_getElem hidx), rfl, ?_, ?_, ?_⟩
    · intro idx' o h hs
      cases h
      rw [List.getElem?_eq_getElem hidx, Option.some.injEq] at hs
      simp [hs]
    · intro idx' h hs
      cases h
      rw [List.getElem?_eq_getElem hidx, Option.some.injEq] at hs
      simp [hs]
    · intro h
      cases h

/-- Instance of C7 on the example host: `a` holds `5`, the unassigned `u` and
the unknown `zz` read as undefined. -/
theorem get_returns_slot_or_undefined_witness :
    Demo.deps.MarshalsObjects ∧ Demo.prog.InBounds ∧
      (∃ v, Demo.prog.Get Demo.deps "a" = .ok v ∧ v.name = "a") ∧
      Demo.prog.Get Demo.deps "a" = .ok { name := "a", value := .Int 5 } ∧
      Demo.prog.Get Demo.deps "u" = .ok { name := "u", value := .Undefined } ∧
      Demo.prog.Get Demo.deps "zz" = .ok { name := "zz", value := .Undefined } :=
  ⟨Demo.deps_marshalsObjects, Demo.prog_inBounds,
    (get_returns_slot_or_undefined Demo.deps Demo.deps_marshalsObjects Demo.prog
      Demo.prog_inBounds "a").imp fun _ h => ⟨h.1, h.2.1⟩,
    by decide, by decide, by decide⟩

/-- C8: `IsDefined(name)` is true exactly when the name is indexed and its slot
holds a non-nil object other than the undefined value; equivalently it is false
exactly when `Get(name)` returns the undefined value (name not indexed, slot
empty, or slot holding the undefined value). -/
theorem isDefined_iff_slot_defined [DecidableEq Object] (X : Deps Object Host E)
    (hobj : X.MarshalsObjects) (c : Compiled Object) (hc : c.InBounds) (name : String) :
    ∃ b v, c.IsDefined X name = .ok b ∧ c.Get X name = .ok v ∧
      (b = true ↔ ∃ idx o, c.indexes.lookup name = some idx ∧
        c.globals[idx]? = some (some o) ∧ o ≠ X.UndefinedValue) ∧
      (b = false ↔ v.value = X.UndefinedValue) := by
  cases hlk : c.indexes.lookup name with
  | none =>
    refine ⟨false, _, by simp [Compiled.IsDefined, hlk], get_unknown X hobj c name hlk, ?_, ?_⟩
    · simp
    · simp
  | some idx =>
    have hidx := hc.1 name idx hlk
    have hget := get_known X hobj c name idx hlk _ (List.getElem?_eq_getElem hidx)
    cases hslot : c.globals[idx] with
    | none =>
      rw [hslot] at hget
      refine ⟨false, _, by simp [Compiled.IsDefined, hlk, List.getElem?_eq_getElem hidx, hslot],
        hget, ?_, ?_⟩
      · simp [List.getElem?_eq_getElem hidx, hslot]
      · simp
    | some o =>
      rw [hslot] at hget
      refine ⟨decide (o ≠ X.UndefinedValue), _,
        by simp [Compiled.IsDefined, hlk, List.getElem?_eq_getElem hidx, hslot], hget, ?_, ?_⟩
      · simp [List.getElem?_eq_getElem hidx, hslot]
      · simp

/-- Instance of C8 on the example host: `add` is defined; the unassigned `u`,
the output slot holding the undefined value, and the unknown `zz` are not. -/
theorem isDefined_iff_slot_defined_witness :
    Demo.deps.MarshalsObjects ∧ Demo.prog.InBounds ∧
      (∃ b v, Demo.prog.IsDefined Demo.deps "add" = .ok b ∧
        Demo.prog.Get Demo.deps "add" = .ok v ∧ (b = false ↔ v.value = .Undefined)) ∧
      Demo.prog.IsDefined Demo.deps "add" = .ok true ∧
      Demo.prog.IsDefined Demo.deps "u" = .ok false ∧
      Demo.prog.IsDefined Demo.deps "$out" = .ok false ∧
      Demo.prog.IsDefined Demo.deps "zz" = .ok false :=
  ⟨Demo.deps_marshalsObjects, Demo.prog_inBounds,
    (isDefined_iff_slot_defined Demo.deps Demo.deps_marshalsObjects Demo.prog
      Demo.prog_inBounds "add").imp fun _ h => h.imp fun _ h' => ⟨h'.1, h'.2.1, h'.2.2.2⟩,
    by decide, by decide, by decide, by decide⟩

/-- C9: for a host value that marshals, `Set(name, v)` returns the error
"'name' is not defined" exactly when the name has no slot in the name index; and
whenever `Set` returns an error (unknown name, or a value that cannot be
marshalled, whose marshalling error is handed on) the program, slot table
included, is exactly as it was. -/
theorem set_fails_iff_not_defined (X : Deps Object Host E) (c : Compiled Object)
    (hc : c.InBounds) (name : String) :
    (∀ v obj, X.FromInterface v = .ok obj →
      ∃ d err, c.Set X name v = .ok (d, err) ∧
        (err = some (.New ("'" ++ name ++ "' is not defined")) ↔
          c.indexes.lookup name = none)) ∧
    (∀ v e, X.FromInterface v = .error e → c.Set X name v = .ok (c, some (.foreign e))) ∧
    (∀ v d e, c.Set X name v = .ok (d, some e) → d = c) := by
  refine ⟨fun v obj hv => ?_, fun v e hv => ?_, fun v d e h => ?_⟩
  · cases hlk : c.indexes.lookup name with
    | none =>
      exact ⟨c, some (.New ("'" ++ name ++ "' is not defined")),
        by simp [Compiled.Set, hv, hlk], by simp⟩
    | some idx =>
      exact ⟨_, none, set_known X c name idx hlk (hc.1 name idx hlk) v obj hv, by simp⟩
  · simp [Compiled.Set, hv]
  · unfold Compiled.Set at h
    split at h
    · cases h
      rfl
    · split at h
      · cases h
        rfl
      · split at h <;> cases h

/-- Instance of C9 on the example host: `zz` has no slot, and a value that
cannot be marshalled leaves the program as it was. -/
theorem set_fails_iff_not_defined_witness :
    Demo.prog.InBounds ∧ Demo.deps.FromInterface (.int 6) = .ok (.Int 6) ∧
      Demo.deps.FromInterface .chan = .error "unsupported type" ∧
      (∃ d err, Demo.prog.Set Demo.deps "zz" (.int 6) = .ok (d, err) ∧
        (err = some (.New ("'" ++ "zz" ++ "' is not defined")) ↔
          Demo.prog.indexes.lookup "zz" = none)) ∧
      Demo.prog.Set Demo.deps "a" .chan = .ok (Demo.prog, some (.foreign "unsupported type")) ∧
      Demo.prog.Set Demo.deps "zz" (.int 6) =
        .ok (Demo.prog, some (.New "'zz' is not defined")) :=
  ⟨Demo.prog_inBounds, rfl, rfl,
    (set_fails_iff_not_defined Demo.deps Demo.prog Demo.prog_inBounds "zz").1 (.int 6) (.Int 6)
      rfl,
    (set_fails_iff_not_defined Demo.deps Demo.prog Demo.prog_inBounds "a").2.1 .chan
      "unsupported type" rfl,
    by decide⟩

/-- C10: `Set` followed by `Get` is a round trip: for an indexed name and a
host value that marshals to `obj`, `Set(name, v)` returns no error and
`Get(name)` then holds `obj`, so its `Value()` is `ToInterface` of the
marshalled value. -/
theorem set_get_round_trip (X : Deps Object Host E) (hobj : X.MarshalsObjects)
    (c : Compiled Object) (hc : c.InBounds) (name : String) (idx : Nat)
    (hlk : c.indexes.lookup name = some idx) (v : Host) (obj : Object)
    (hv : X.FromInterface v = .ok obj) :
    ∃ d var, c.Set X name v = .ok (d, none) ∧ d.Get X name = .ok var ∧
      var.name = name ∧ var.value = obj ∧ var.Value X = X.ToInterface (some obj) := by
  have hidx := hc.1 name idx hlk
  refine ⟨{ c with globals := c.globals.set idx (some obj) }, { name := name, value := obj },
    set_known X c name idx hlk hidx v obj hv,
    get_known X hobj { c with globals := c.globals.set idx (some obj) } name idx hlk (some obj)
      ?_, rfl, rfl, rfl⟩
  simp [hidx]

/-- Instance of C10 on the example host: `Set("a", 6)` then `Get("a").Value()`
is the integer `6`. -/
theorem set_get_round_trip_witness :
    Demo.deps.MarshalsObjects ∧ Demo.prog.InBounds ∧
      Demo.prog.indexes.lookup "a" = some 0 ∧ Demo.deps.FromInterface (.int 6) = .ok (.Int 6) ∧
      (∃ d var, Demo.prog.Set Demo.deps "a" (.int 6) = .ok (d, none) ∧
        d.Get Demo.deps "a" = .ok var ∧ var.Value Demo.deps = .int 6) :=
  ⟨Demo.deps_marshalsObjects, Demo.prog_inBounds, by decide, rfl,
    (set_get_round_trip Demo.deps Demo.deps_marshalsObjects Demo.prog Demo.prog_inBounds "a" 0
      (by decide) (.int 6) (.Int 6) rfl).imp fun _ h => h.imp fun _ h' =>
        ⟨h'.1, h'.2.1, h'.2.2.2.2⟩⟩

/-- C17: defining or removing the reserved output-slot name is rejected.
`Add("$out", v)` returns an error and `Remove("$out")` returns false, for every
script and value, and both leave the script exactly as it was; hence no
sequence of `Add` and `Remove` calls puts `$out` into the pending variables of a
script that did not hold it, in particular of one made by `NewScript`. -/
theorem reserved_name_rejected (X : Deps Object Host E) (s : Script Object M W) :
    (∀ v, s.Add X "$out" v = (s, some (.New "variable name must be different"))) ∧
    s.Remove "$out" = (s, false) ∧
    (∀ ops, s.vars.lookup "$out" = none →
      (Script.edits X ops s).vars.lookup "$out" = none) ∧
    (∀ ops src,
      (Script.edits X ops (NewScript src : Script Object M W)).vars.lookup "$out" = none) := by
  refine ⟨fun v => ?_, ?_, fun ops h => edits_keep_reserved_out X ops s h,
    fun ops src => edits_keep_reserved_out X ops _ rfl⟩
  · simp [Script.Add, reservedVar]
  · simp [Script.Remove, reservedVar]

/-- Instance of C17 on the example host: after attempts to add and remove
`$out` among other edits, `$out` is not a pending variable. -/
theorem reserved_name_rejected_witness :
    Demo.script.vars.lookup "$out" = none ∧
      (Script.edits Demo.deps
        [.Add "$out" (.int 1), .Add "a" (.int 2), .Remove "$out", .Remove "b"]
        Demo.script).vars.lookup "$out" = none ∧
      (Script.edits Demo.deps
        [.Add "$out" (.int 1), .Add "a" (.int 2), .Remove "$out", .Remove "b"]
        Demo.script).vars = [("a", { name := "a", value := .Int 2 })] :=
  ⟨by decide,
    (reserved_name_rejected Demo.deps Demo.script).2.2.1 _ (by decide),
    by decide⟩

/-- C18: on a script whose pending variables do not hold the reserved name,
`Remove(name)` returns true exactly when `name` is a pending variable.  When it
returns true the name is no longer pending, every other pending variable and
every other field of the script is unchanged; when it returns false the script
is unchanged.  `Add(name, v)` followed by `Remove(name)`, for a name that was
not pending, restores the original script. -/
theorem remove_iff_pending (X : Deps Object Host E) (s : Script Object M W)
    (hres : s.vars.lookup "$out" = none) (name : String) :
    ((s.Remove name).2 = true ↔ (s.vars.lookup name).isSome = true) ∧
    ((s.Remove name).2 = true →
      (s.Remove name).1.vars.lookup name = none ∧
      (∀ n, n ≠ name → (s.Remove name).1.vars.lookup n = s.vars.lookup n) ∧
      { (s.Remove name).1 with vars := s.vars } = s) ∧
    ((s.Remove name).2 = false → (s.Remove name).1 = s) ∧
    (∀ v, s.vars.lookup name = none → ((s.Add X name v).1.Remove name).1 = s) := by
  refine ⟨?_, ?_, ?_, ?_⟩
  · unfold Script.Remove
    split
    · rename_i hn
      rw [hn]
      show (false = true) ↔ ((List.lookup "$out" s.vars).isSome = true)
      rw [hres]
      simp
    · split
      · rename_i h
        simp [h]
      · rename_i h
        simp [h]
  · unfold Script.Remove
    split
    · intro h
      cases h
    · split
      · intro h
        cases h
      · intro _
        exact ⟨lookup_mapDelete_self _ _, fun n hn => lookup_mapDelete_ne _ _ _ hn, rfl⟩
  · unfold Script.Remove
    split
    · intro _
      rfl
    · split
      · intro _
        rfl
      · intro h
        cases h
  · intro v hlk
    unfold Script.Add
    split
    · rename_i hn
      simp [Script.Remove, hn]
    · rename_i hn
      split
      · simp [Script.Remove, hn, hlk]
      · simp only [Script.Remove, hn, if_false, lookup_mapStore_self, mapDelete_mapStore,
          mapDelete_of_lookup_none hlk]

/-- Instance of C18 on the example host: `b` is pending and is removed, `a` is
not; adding `a` and removing it restores the script. -/
theorem remove_iff_pending_witness :
    Demo.script.vars.lookup "$out" = none ∧
      ((Demo.script.Remove "b").2 = true ↔ (Demo.script.vars.lookup "b").isSome = true) ∧
      Demo.script.Remove "b" = ({ Demo.script with vars := [] }, true) ∧
      Demo.script.Remove "a" = (Demo.script, false) ∧
      ((Demo.script.Add Demo.deps "a" (.int 2)).1.Remove "a").1 = Demo.script :=
  ⟨by decide, (remove_iff_pending Demo.deps Demo.script (by decide) "b").1, by decide, by decide,
    (remove_iff_pending Demo.deps Demo.script (by decide) "a").2.2.2 (.int 2) (by decide)⟩

/-- C19: re-adding a name before compiling overwrites the pending value.  For a
name other than `$out` and host values `v1`, `v2` that marshal, `Add(name, v1)`
then `Add(name, v2)` returns no error and leaves exactly the script that
`Add(name, v2)` alone leaves: the name has a single entry, holding the
marshalled `v2`, and every other pending variable is unchanged. -/
theorem add_overwrites_pending (X : Deps Object Host E) (s : Script Object M W)
    (name : String) (hname : name ≠ "$out") (v₁ v₂ : Host) (o₁ o₂ : Object)
    (h₁ : X.FromInterface v₁ = .ok o₁) (h₂ : X.FromInterface v₂ = .ok o₂) :
    (s.Add X name v₁).2 = none ∧
    (s.Add X name v₁).1.Add X name v₂ = s.Add X name v₂ ∧
    ((s.Add X name v₁).1.Add X name v₂).2 = none ∧
    ((s.Add X name v₁).1.Add X name v₂).1.vars.lookup name =
      some { name := name, value := o₂ } ∧
    ((((s.Add X name v₁).1.Add X name v₂).1.vars.map Prod.fst).count name = 1) ∧
    (∀ n, n ≠ name →
      ((s.Add X name v₁).1.Add X name v₂).1.vars.lookup n = s.vars.lookup n) := by
  rw [add_ok X s name hname v₁ o₁ h₁, add_ok X _ name hname v₂ o₂ h₂,
    add_ok X s name hname v₂ o₂ h₂]
  refine ⟨rfl, ?_, rfl, ?_, ?_, ?_⟩
  · simp only [mapStore_mapStore]
  · exact lookup_mapStore_self _ _ _
  · exact count_key_mapStore _ _ _
  · intro n hn
    show List.lookup n (mapStore (mapStore s.vars name _) name _) = _
    rw [lookup_mapStore_ne _ _ _ _ hn, lookup_mapStore_ne _ _ _ _ hn]

/-- Instance of C19 on the example host: `b` is added as `5`, then as `foo`, as
in `TestScript_Add`. -/
theorem add_overwrites_pending_witness :
    ("b" : String) ≠ "$out" ∧ Demo.deps.FromInterface (.int 5) = .ok (.Int 5) ∧
      Demo.deps.FromInterface (.str "foo") = .ok (.String "foo") ∧
      (((NewScript [] : Script Demo.Obj Unit Unit).Add Demo.deps "b" (.int 5)).1.Add Demo.deps
          "b" (.str "foo")).1.vars.lookup "b" = some { name := "b", value := .String "foo" } ∧
      (((NewScript [] : Script Demo.Obj Unit Unit).Add Demo.deps "b" (.int 5)).1.Add Demo.deps
          "b" (.str "foo")).1.vars = [("b", { name := "b", value := .String "foo" })] :=
  ⟨by decide, rfl, rfl,
    (add_overwrites_pending Demo.deps (NewScript [] : Script Demo.Obj Unit Unit) "b" (by decide)
      (.int 5) (.str "foo") (.Int 5) (.String "foo") rfl rfl).2.2.2.1,
    by decide⟩

/-- C12, at the failing input: the program of the example host is cloned and
`add(3, 4)` is called on the clone.  The slot table and the constant pool of the
origin are as before, but its entry instruction sequence is no longer the
compiled one: it is the sequence synthesized for the call on the clone, because
both programs point to the same `Bytecode`. -/
theorem clone_call_changes_origin_entry :
    ((Family.ofCompiled Demo.prog).Clone Demo.deps 0).toOption.bind (fun r =>
      (r.1.serve Demo.deps r.2 (.CallByName "add" [.int 3, .int 4])).toOption.map fun o =>
        ((r.1.view 0).map fun c => c.bytecode.MainFunction.Instructions,
         (o.state.view 0).map fun c => c.bytecode.MainFunction.Instructions,
         (o.state.view 0).map fun c => c.globals,
         (o.state.view 0).map fun c => c.bytecode.Constants)) =
      some (some [3], some [0, 1, 0, 2, 0, 3, 1, 2, 2, 4, 3],
        some Demo.prog.globals, some Demo.prog.bytecode.Constants) := by
  rfl

/-- C13: `Clone` returns a program whose slot table has the length of the
origin's, is empty where the origin's is empty and holds `g.Copy()` where the
origin's holds a non-nil `g`; the struct of the origin, its slot table
included, is unchanged by `Clone`. -/
theorem clone_copies_slot_table (X : Deps Object Host E) (c : Compiled Object) :
    (c.Clone X).globals.length = c.globals.length ∧
    (∀ (i : Nat), c.globals[i]? = some none → (c.Clone X).globals[i]? = some none) ∧
    (∀ (i : Nat) (g : Object), c.globals[i]? = some (some g) →
      (c.Clone X).globals[i]? = some (some (X.Copy g))) ∧
    (∀ (F : Family Object) (p : Nat), F.view p = some c →
      ∃ F₁ q, F.Clone X p = .ok (F₁, q) ∧ F₁.view q = some (c.Clone X) ∧
        F₁.view p = some c) := by
  refine ⟨(clone_sameShape X c).2.2.2, fun i h => ?_, fun i g h => ?_, fun F p hp => ?_⟩
  · simp [clone_globals, h]
  · simp [clone_globals, h]
  · obtain ⟨hlt, -, -⟩ := view_eq_some hp
    obtain ⟨hcl, hold, hnew⟩ := clone_views X F p c hp
    exact ⟨_, _, hcl, hnew, (hold p hlt).trans hp⟩

/-- Instance of C13 on the example host, whose `Copy` is the identity: the
clone's slot table is the origin's, slot by slot. -/
theorem clone_copies_slot_table_witness :
    Demo.prog.globals[3]? = some none ∧ Demo.prog.globals[0]? = some (some (.Int 5)) ∧
      (Family.ofCompiled Demo.prog).view 0 = some Demo.prog ∧
      (Demo.prog.Clone Demo.deps).globals[3]? = some none ∧
      (Demo.prog.Clone Demo.deps).globals[0]? = some (some (Demo.deps.Copy (.Int 5))) ∧
      (∃ F₁ q, (Family.ofCompiled Demo.prog).Clone Demo.deps 0 = .ok (F₁, q) ∧
        F₁.view q = some (Demo.prog.Clone Demo.deps) ∧ F₁.view 0 = some Demo.prog) ∧
      (Demo.prog.Clone Demo.deps).globals =
        [some (.Int 5), some .Sum, some .Fail, none, some .Undefined] :=
  ⟨by decide, by decide, rfl,
    (clone_copies_slot_table Demo.deps Demo.prog).2.1 3 (by decide),
    (clone_copies_slot_table Demo.deps Demo.prog).2.2.1 0 (.Int 5) (by decide),
    (clone_copies_slot_table Demo.deps Demo.prog).2.2.2 (Family.ofCompiled Demo.prog) 0 rfl,
    by decide⟩

/-- C14: slot stability.  `Set`, every call and every sequence of calls return
a program with the name index and the output slot index it had (`Get`,
`GetAll` and `IsDefined` only read the program); `Clone` returns a program
with the same name index, output slot index and allocation budget, so every
name resolves to the same slot in the clone as in its origin. -/
theorem slot_stability (X : Deps Object Host E) (hlen : X.KeepsLength) (c : Compiled Object)
    (hc : c.InBounds) :
    (∀ name v, ∃ d err, c.Set X name v = .ok (d, err) ∧ d.indexes = c.indexes ∧
      d.outIdx = c.outIdx) ∧
    (∀ req, ∃ o, c.serve X req = .ok o ∧ o.state.indexes = c.indexes ∧
      o.state.outIdx = c.outIdx) ∧
    (∀ reqs, ∃ d, Compiled.serveAll X reqs c = .ok d ∧ d.indexes = c.indexes ∧
      d.outIdx = c.outIdx) ∧
    ((c.Clone X).indexes = c.indexes ∧ (c.Clone X).outIdx = c.outIdx ∧
      (c.Clone X).maxAllocs = c.maxAllocs) ∧
    (∀ name, (c.Clone X).indexes.lookup name = c.indexes.lookup name) := by
  refine ⟨fun name v => ?_, fun req => ?_, fun reqs => ?_, ⟨rfl, rfl, rfl⟩, fun _ => rfl⟩
  · obtain ⟨d, err, hd, -, hs⟩ := set_total X c hc name v
    exact ⟨d, err, hd, hs.1, hs.2.1⟩
  · obtain ⟨o, ho, hs, -⟩ := serve_ok X hlen c hc req
    exact ⟨o, ho, hs.1, hs.2.1⟩
  · obtain ⟨d, hd, hs, -⟩ := serveAll_ok X hlen reqs c hc
    exact ⟨d, hd, hs.1, hs.2.1⟩

/-- Instance of C14 on the example host: after a `Set` and two calls the name
`add` still resolves to slot 1, as it does in a clone. -/
theorem slot_stability_witness :
    Demo.deps.KeepsLength ∧ Demo.prog.InBounds ∧
      (∃ d, Compiled.serveAll Demo.deps
          [.CallByName "add" [.int 3, .int 4], .Call (some .Fail) []] Demo.prog = .ok d ∧
        d.indexes = Demo.prog.indexes ∧ d.outIdx = 4) ∧
      (Demo.prog.Clone Demo.deps).indexes.lookup "add" = some 1 :=
  ⟨Demo.deps_keepsLength, Demo.prog_inBounds,
    (slot_stability Demo.deps Demo.deps_keepsLength Demo.prog Demo.prog_inBounds).2.2.1 _,
    by decide⟩

/-- C20: a callback on which no compiled program is set (as made by
`NewCallback`, or after `Set(nil)`) returns, from `Call` and `CallContext` and
for every argument list, a nil result and the error "compiled code not set";
no engine is run and the memory is untouched, so the captured callable is not
invoked.  After `Set(c)` with a program `c`, `Call` and `CallContext` return
and never with that error. -/
theorem callback_requires_compiled (X : Deps Object Host E) (hlen : X.KeepsLength)
    (F : Family Object) (args : List Host) (ctx : Option (Context E)) :
    (∀ cb : Callback Object Host, cb.compiled = none →
      cb.Call X F args =
          .ok { state := F, ret := .error (.New "compiled code not set"), runs := [] } ∧
        cb.CallContext X F ctx args =
          .ok { state := F, ret := .error (.New "compiled code not set"), runs := [] }) ∧
    (∀ (fn : Option Object) (pre : List Host), (NewCallback fn pre).compiled = none) ∧
    (∀ cb : Callback Object Host, (cb.Set none).compiled = none) ∧
    (∀ (cb : Callback Object Host) (p : Nat) (c : Compiled Object), F.view p = some c →
      c.InBounds →
      (∃ o, (cb.Set (some p)).Call X F args = .ok o ∧
        o.ret ≠ .error (.New "compiled code not set")) ∧
      (∃ o, (cb.Set (some p)).CallContext X F ctx args = .ok o ∧
        o.ret ≠ .error (.New "compiled code not set"))) := by
  refine ⟨fun cb h => ?_, fun _ _ => rfl, fun _ => rfl, fun cb p c hp hc => ?_⟩
  · simp [Callback.Call, Callback.CallContext, h]
  · have key : ∀ ctx', ∃ o, F.serve X p (.CallContext ctx' cb.fn args) = .ok o ∧
        o.ret ≠ .error (.New "compiled code not set") := by
      intro ctx'
      obtain ⟨o, ho, -, -⟩ := serve_ok X hlen c hc (.CallContext ctx' cb.fn args)
      refine ⟨{ state := F.put p o.state, ret := o.ret, runs := o.runs }, ?_, ?_⟩
      · simp [Family.serve, hp, ho]
      · exact callContext_ret_ne_not_set X c ctx' cb.fn args o ho
    exact ⟨key (some Context.Background), key ctx⟩

/-- Instance of C20 on the example host, following `TestCallback`: the callback
fails while unbound and returns `7` once bound to the program. -/
theorem callback_requires_compiled_witness :
    Demo.deps.KeepsLength ∧ (NewCallback (some Demo.Obj.Sum) [] :
        Callback Demo.Obj Demo.HostVal).compiled = none ∧
      (Family.ofCompiled Demo.prog).view 0 = some Demo.prog ∧ Demo.prog.InBounds ∧
      (NewCallback (some Demo.Obj.Sum) []).Call Demo.deps (Family.ofCompiled Demo.prog)
          [.int 3, .int 4] =
        .ok { state := Family.ofCompiled Demo.prog,
              ret := .error (.New "compiled code not set"), runs := [] } ∧
      (∃ o, ((NewCallback (some Demo.Obj.Sum) []).Set (some 0)).Call Demo.deps
          (Family.ofCompiled Demo.prog) [.int 3, .int 4] = .ok o ∧
        o.ret ≠ .error (.New "compiled code not set")) ∧
      (((NewCallback (some Demo.Obj.Sum) []).Set (some 0)).Call Demo.deps
          (Family.ofCompiled Demo.prog) [.int 3, .int 4]).toOption.map (fun o => o.ret) =
        some (.ok (.int 7)) :=
  ⟨Demo.deps_keepsLength, rfl, rfl, Demo.prog_inBounds,
    ((callback_requires_compiled Demo.deps Demo.deps_keepsLength (Family.ofCompiled Demo.prog)
      [.int 3, .int 4] none).1 (NewCallback (some Demo.Obj.Sum) []) rfl).1,
    ((callback_requires_compiled Demo.deps Demo.deps_keepsLength (Family.ofCompiled Demo.prog)
      [.int 3, .int 4] none).2.2.2 (NewCallback (some Demo.Obj.Sum) []) 0 Demo.prog rfl
      Demo.prog_inBounds).1,
    rfl⟩

/-- C15: for a program returned by `Script.compile`, `GetAll` returns one
variable per name of the name index: as many variables as names, with pairwise
distinct names, each holding the object in the slot of its name or the
undefined value when the slot is empty.  The reserved name `$out` is one of
them, so the count is the number of other names plus one. -/
theorem getAll_one_per_name (X : Deps Object Host E) (hobj : X.MarshalsObjects)
    (T : Toolchain Object E M W File) (hT : T.KeepsReserved) (s : Script Object M W)
    (ctx : Option (Context E)) (c : Compiled Object)
    (hcomp : s.compile X T ctx = .ok (.ok c)) (hc : c.InBounds) :
    ∃ vars, c.GetAll X = .ok vars ∧
      vars.length = c.indexes.length ∧
      vars.map (fun v => v.name) = c.indexes.map Prod.fst ∧
      (vars.map (fun v => v.name)).Nodup ∧
      (∀ name idx, c.indexes.lookup name = some idx →
        { name := name, value := c.read X idx } ∈ vars) ∧
      (∀ v ∈ vars, ∃ idx, c.indexes.lookup v.name = some idx ∧ v.value = c.read X idx) ∧
      (∃ v ∈ vars, v.name = "$out") ∧
      vars.length = (c.indexes.filter (fun p => p.1 != "$out")).length + 1 := by
  obtain ⟨hres, hmap⟩ := compile_reserved X T hT s ctx c hcomp
  have hin : ∀ p ∈ c.indexes, p.2 < c.globals.length :=
    fun p hp => hc.1 p.1 p.2 (lookup_of_mem_nodup hmap hp)
  have hall := getAll_loop X hobj c c.indexes [] hin
  rw [List.nil_append] at hall
  have hnames : (c.indexes.map fun p => ({ name := p.1, value := c.read X p.2 } :
      Variable Object)).map (fun v => v.name) = c.indexes.map Prod.fst := by
    rw [List.map_map]
    rfl
  have hmem : ∀ name idx, c.indexes.lookup name = some idx →
      ({ name := name, value := c.read X idx } : Variable Object) ∈
        c.indexes.map fun p => { name := p.1, value := c.read X p.2 } := by
    intro name idx hlk
    have hkey := mem_keys_of_lookup hlk
    obtain ⟨p, hp, hpk⟩ := List.mem_map.mp hkey
    have hp' := lookup_of_mem_nodup hmap hp
    rw [hpk, hlk] at hp'
    cases hp'
    exact List.mem_map.mpr ⟨p, hp, by rw [← hpk]⟩
  refine ⟨_, hall, by simp, hnames, by rw [hnames]; exact hmap, hmem, ?_, ?_, ?_⟩
  · intro v hv
    obtain ⟨p, hp, rfl⟩ := List.mem_map.mp hv
    exact ⟨p.2, lookup_of_mem_nodup hmap hp, rfl⟩
  · exact ⟨_, hmem "$out" c.outIdx hres, rfl⟩
  · rw [List.length_map]
    exact length_eq_others_add_one hmap hres

/-- Instance of C15 on the example host: the compiled script has the names `b`,
`$out` and `a`, and `GetAll` returns one variable for each. -/
theorem getAll_one_per_name_witness :
    Demo.deps.MarshalsObjects ∧ Demo.toolchain.KeepsReserved ∧
      Demo.source.compile Demo.deps Demo.toolchain (some Context.Background) =
        .ok (.ok Demo.compiled) ∧
      Demo.compiled.InBounds ∧
      (∃ vars, Demo.compiled.GetAll Demo.deps = .ok vars ∧
        vars.length = Demo.compiled.indexes.length) ∧
      Demo.compiled.GetAll Demo.deps =
        .ok [{ name := "b", value := .Int 5 }, { name := "$out", value := .Undefined },
             { name := "a", value := .Undefined }] :=
  ⟨Demo.deps_marshalsObjects, Demo.toolchain_keepsReserved, Demo.compile_source,
    Demo.compiled_inBounds,
    (getAll_one_per_name Demo.deps Demo.deps_marshalsObjects Demo.toolchain
      Demo.toolchain_keepsReserved Demo.source (some Context.Background) Demo.compiled
      Demo.compile_source Demo.compiled_inBounds).imp fun _ h => ⟨h.1, h.2.1⟩,
    by decide⟩

/-- Against C16 as stated: on the program compiled from the example script,
`Set("$out", 6)` returns no error and overwrites the output slot, after which
`Get("$out")` returns `6` and `IsDefined("$out")` is true; and
`CallByName("$out")` fails with "not a callable", not with "not found". -/
theorem reserved_slot_by_name_counterexample :
    Demo.source.CompileRun Demo.deps Demo.toolchain = .ok (.ok Demo.compiled) ∧
    Demo.compiled.Set Demo.deps "$out" (.int 6) =
      .ok ({ Demo.compiled with globals := [some (.Int 5), some (.Int 6), none, none] }, none) ∧
    Compiled.Get Demo.deps
        { Demo.compiled with globals := [some (.Int 5), some (.Int 6), none, none] } "$out" =
      .ok { name := "$out", value := .Int 6 } ∧
    Compiled.IsDefined Demo.deps
        { Demo.compiled with globals := [some (.Int 5), some (.Int 6), none, none] } "$out" =
      .ok true ∧
    Demo.compiled.CallByName Demo.deps "$out" [] =
      .ok { state := Demo.compiled, ret := .error (.New "not a callable"), runs := [] } := by
  refine ⟨rfl, ?_, ?_, ?_, ?_⟩ <;> decide

/-- C16 (amended): the reserved output slot is visible by name like any other
indexed name.  For a program returned by `Script.compile`, `$out` is in the
name index at the output slot index; `Get("$out")` returns the object in the
output slot, or the undefined value when the slot is empty (as right after
compilation it holds the undefined value); `IsDefined("$out")` is true exactly
when the slot holds a non-nil object other than the undefined value;
`Set("$out", v)` with a value that marshals returns no error and overwrites the
output slot; and `CallByNameContext("$out", ...)` returns, never with the error
"'$out' not found". -/
theorem reserved_slot_by_name [DecidableEq Object] (X : Deps Object Host E)
    (hlen : X.KeepsLength) (hobj : X.MarshalsObjects) (T : Toolchain Object E M W File)
    (hT : T.KeepsReserved) (s : Script Object M W) (ctx : Option (Context E))
    (c : Compiled Object) (hcomp : s.compile X T ctx = .ok (.ok c)) (hc : c.InBounds) :
    c.indexes.lookup "$out" = some c.outIdx ∧
    (∃ slot, c.globals[c.outIdx]? = some slot ∧
      c.Get X "$out" = .ok { name := "$out", value := slot.getD X.UndefinedValue } ∧
      ∃ b, c.IsDefined X "$out" = .ok b ∧
        (b = true ↔ ∃ o, slot = some o ∧ o ≠ X.UndefinedValue)) ∧
    (∀ v obj, X.FromInterface v = .ok obj →
      c.Set X "$out" v =
        .ok ({ c with globals := c.globals.set c.outIdx (some obj) }, none)) ∧
    (∀ ctx' args, ∃ o, c.CallByNameContext X ctx' "$out" args = .ok o ∧
      o.ret ≠ .error (.New "'$out' not found")) := by
  obtain ⟨hres, -⟩ := compile_reserved X T hT s ctx c hcomp
  obtain ⟨slot, hslot⟩ : ∃ slot, c.globals[c.outIdx]? = some slot :=
    ⟨_, List.getElem?_eq_getElem hc.2⟩
  refine ⟨hres, ⟨slot, hslot, get_known X hobj c "$out" c.outIdx hres slot hslot, ?_⟩,
    fun v obj hv => set_known X c "$out" c.outIdx hres hc.2 v obj hv, fun ctx' args => ?_⟩
  · unfold Compiled.IsDefined
    rw [hres]
    simp only [hslot]
    cases slot with
    | none => exact ⟨false, rfl, by simp⟩
    | some o => exact ⟨decide (o ≠ X.UndefinedValue), rfl, by simp⟩
  · have hcases : ∃ o, c.CallByNameContext X ctx' "$out" args = .ok o ∧
        ¬ (o.ret = .error (.New ("'" ++ "$out" ++ "' not found"))) := by
      unfold Compiled.CallByNameContext
      rw [hres]
      simp only [hslot]
      cases slot with
      | none =>
        refine ⟨{ state := c, ret := .error (.New "callable expected, got nil"), runs := [] },
          rfl, ?_⟩
        simp only [Except.error.injEq, Error.New.injEq]
        decide
      | some f =>
        by_cases hcall : X.CanCall f = true
        · obtain ⟨o, ho, -, -⟩ := call_ok X hlen c hc.2 ctx' (some f) args
          refine ⟨o, by simp [hcall, ho], call_ret_ne_New X c ctx' (some f) args o ho _⟩
        · refine ⟨{ state := c, ret := .error (.New "not a callable"), runs := [] },
            by simp [hcall], ?_⟩
          simp only [Except.error.injEq, Error.New.injEq]
          decide
    exact hcases

/-- Instance of C16 on the example host: on the compiled script `$out` resolves
to slot 1, which `Set` overwrites. -/
theorem reserved_slot_by_name_witness :
    Demo.deps.KeepsLength ∧ Demo.deps.MarshalsObjects ∧ Demo.toolchain.KeepsReserved ∧
      Demo.source.compile Demo.deps Demo.toolchain (some Context.Background) =
        .ok (.ok Demo.compiled) ∧
      Demo.compiled.InBounds ∧
      Demo.compiled.indexes.lookup "$out" = some Demo.compiled.outIdx ∧
      Demo.compiled.Get Demo.deps "$out" = .ok { name := "$out", value := .Undefined } :=
  ⟨Demo.deps_keepsLength, Demo.deps_marshalsObjects, Demo.toolchain_keepsReserved,
    Demo.compile_source, Demo.compiled_inBounds,
    (reserved_slot_by_name Demo.deps Demo.deps_keepsLength Demo.deps_marshalsObjects
      Demo.toolchain Demo.toolchain_keepsReserved Demo.source (some Context.Background)
      Demo.compiled Demo.compile_source Demo.compiled_inBounds).1,
    by decide⟩

/-- Against C21 as stated: a callback that captured the prefix argument `1` and
is called with `3, 4` returns `7`, the sum of the call-time arguments, from
`Call` and from `CallContext`, whereas the program called with the
concatenation `1, 3, 4` returns `8`. -/
theorem callback_passes_call_args_counterexample :
    (((NewCallback (some Demo.Obj.Sum) [.int 1]).Set (some 0)).Call Demo.deps
        (Family.ofCompiled Demo.prog) [.int 3, .int 4]).toOption.map (fun o => o.ret) =
      some (.ok (.int 7)) ∧
    (((NewCallback (some Demo.Obj.Sum) [.int 1]).Set (some 0)).CallContext Demo.deps
        (Family.ofCompiled Demo.prog) none [.int 3, .int 4]).toOption.map (fun o => o.ret) =
      some (.ok (.int 7)) ∧
    (Demo.prog.Call Demo.deps (some Demo.Obj.Sum)
        ([.int 1] ++ [.int 3, .int 4])).toOption.map (fun o => o.ret) =
      some (.ok (.int 8)) := by
  refine ⟨?_, ?_, ?_⟩ <;> rfl

/-- C21 (amended): a callback built by `NewCallback(fn, p_1..p_m)` and bound by
`Set` to a program `c` (the most recent `Set` wins) returns from `Call(a_1..a_n)`
and `CallContext(ctx, a_1..a_n)` exactly what `c.Call` and `c.CallContext`
return for the captured callable `fn` applied to the call-time arguments alone,
and leaves `c` in the state that call leaves; the captured arguments stay in
the field `Args` and are not passed. -/
theorem callback_passes_call_args (X : Deps Object Host E) (F : Family Object)
    (fn : Option Object) (pre args : List Host) (ctx : Option (Context E)) (q : Option Nat)
    (p : Nat) (c : Compiled Object) (hp : F.view p = some c) :
    (((NewCallback fn pre).Set q).Set (some p)).Call X F args =
        (c.Call X fn args).map
          (fun o => { state := F.put p o.state, ret := o.ret, runs := o.runs }) ∧
      (((NewCallback fn pre).Set q).Set (some p)).CallContext X F ctx args =
        (c.CallContext X ctx fn args).map
          (fun o => { state := F.put p o.state, ret := o.ret, runs := o.runs }) ∧
      (((NewCallback fn pre).Set q).Set (some p)).Args = pre := by
  refine ⟨?_, ?_, rfl⟩
  · simp only [Callback.Call, Callback.Set, NewCallback, Family.serve, hp, Compiled.serve]
    cases c.Call X fn args <;> rfl
  · simp only [Callback.CallContext, Callback.Set, NewCallback, Family.serve, hp,
      Compiled.serve]
    cases c.CallContext X ctx fn args <;> rfl

/-- Instance of C21 on the example host: the callback capturing `1`, bound to
the example program and called with `3, 4`, returns what the program returns
for `Sum` applied to `3, 4`. -/
theorem callback_passes_call_args_witness :
    (Family.ofCompiled Demo.prog).view 0 = some Demo.prog ∧
      (((NewCallback (some Demo.Obj.Sum) [.int 1]).Set none).Set (some 0)).Call Demo.deps
          (Family.ofCompiled Demo.prog) [.int 3, .int 4] =
        (Demo.prog.Call Demo.deps (some Demo.Obj.Sum) [.int 3, .int 4]).map
          (fun o => { state := (Family.ofCompiled Demo.prog).put 0 o.state, ret := o.ret,
                      runs := o.runs }) ∧
      (Demo.prog.Call Demo.deps (some Demo.Obj.Sum) [.int 3, .int 4]).toOption.map
          (fun o => o.ret) = some (.ok (.int 7)) :=
  ⟨rfl,
    (callback_passes_call_args Demo.deps (Family.ofCompiled Demo.prog) (some Demo.Obj.Sum)
      [.int 1] [.int 3, .int 4] none none 0 Demo.prog rfl).1,
    rfl⟩

/-- C22: the directory configured on the script does not reach the compiler.
`SetImportDir` stores the absolute path in the script, and `compile` never
reads it: it sets the import directory of the compiler to the one the compiler
already has.  So `compile` returns the same after `SetImportDir` as before, for
every parser and compiler; on the example host, whose compiler reports the
directory it imports from, the script configured with `/scripts` compiles with
the directory `""` of a fresh compiler. -/
theorem compile_ignores_import_dir (X : Deps Object Host E)
    (T : Toolchain Object E M W File) (s : Script Object M W) (ctx : Option (Context E))
    (abs : String → Except E String) (dir : String) :
    (s.SetImportDir abs dir).1.compile X T ctx = s.compile X T ctx ∧
      Demo.source.SetImportDir Demo.abs "/scripts" =
        ({ Demo.source with importDir := "/scripts" }, none) ∧
      Script.compile Demo.deps Demo.dirProbe { Demo.source with importDir := "/scripts" }
          (some Context.Background) = .ok (.error (.foreign "")) := by
  refine ⟨?_, by rfl, by rfl⟩
  unfold Script.SetImportDir
  cases abs dir with
  | error e => rfl
  | ok d => exact compile_importDir X T s ctx d

/-- C25: `runVMContext`, over which event its `select` observes first.  When
the completion comes first, the result is the run's own (nil or its error).
When the cancellation comes first, `Abort` is requested, then the completion
signal is received, the result of the run is dropped and `ctx.Err()`, which is
not nil, is returned, the slot table being the one the aborted run leaves.  On
both paths the return is the statement right after a receive of the completion
signal, so the wrapper never returns before the run has completed. -/
theorem runVMContext_awaits_run (X : Deps Object Host E) (vm : VM Object) :
    runVMContext X .live vm = X.Run none vm ∧
      runVMContext.events X .live vm =
        [.spawn, .received (X.Run none vm).err, .ret (X.Run none vm).err] ∧
      (∀ (err : E) (k : Nat),
        (runVMContext X (.done err k) vm).err = some err ∧
          (runVMContext X (.done err k) vm).globals = (X.Run (some k) vm).globals ∧
          (runVMContext X (.done err k) vm).bytecode = (X.Run (some k) vm).bytecode ∧
          runVMContext.events X (.done err k) vm =
            [.spawn, .done, .abort, .received (X.Run (some k) vm).err, .ret (some err)]) ∧
      (∀ ctx : Context E, ∃ pre r,
        runVMContext.events X ctx vm =
          .spawn :: (pre ++ [.received r, .ret (runVMContext X ctx vm).err]) ∧
        ∀ e ∈ pre, e = Event.done ∨ e = Event.abort) := by
  refine ⟨rfl, rfl, fun err k => ⟨rfl, rfl, rfl, rfl⟩, fun ctx => ?_⟩
  cases ctx with
  | live => exact ⟨[], (X.Run none vm).err, rfl, by simp⟩
  | done err k => exact ⟨[.done, .abort], (X.Run (some k) vm).err, rfl, by simp⟩

/-- Instance of C25 on the example host, for the engine of a call of `add`
with `3, 4`: under a cancelled context the wrapper returns "context canceled"
after the aborted run has completed without error. -/
theorem runVMContext_awaits_run_witness :
    (runVMContext Demo.deps (.done "context canceled" 2)
        (specCallVM Demo.deps Demo.prog (some .Sum) [some (.Int 3), some (.Int 4)])).err =
      some "context canceled" ∧
    runVMContext.events Demo.deps (.done "context canceled" 2)
        (specCallVM Demo.deps Demo.prog (some .Sum) [some (.Int 3), some (.Int 4)]) =
      [.spawn, .done, .abort, .received none, .ret (some "context canceled")] :=
  ⟨((runVMContext_awaits_run Demo.deps
      (specCallVM Demo.deps Demo.prog (some .Sum) [some (.Int 3), some (.Int 4)])).2.2.1
      "context canceled" 2).1,
    rfl⟩

/-- Calls under a context whose cancellation the `select` of `runVMContext`
observes before the completion of the run.  `CallContext` on a callable, and
`CallByNameContext` on a name bound to a callable, with arguments that all
marshal, return `ctx.Err()`; the engine is still started, and the slot table
afterwards is the one the aborted run leaves, which is the table as it was when
the engine sees the request before its first instruction and then writes no
slot.  `compile` under such an observation returns no program: its error is
`ctx.Err()`, or that of the parser or of the compiler. -/
theorem cancelled_call_returns_ctx_err (X : Deps Object Host E) (hlen : X.KeepsLength)
    (c : Compiled Object) (hc : c.InBounds) (err : E) (k : Nat) (f : Object)
    (hf : X.CanCall f = true) (args : List Host) (targs : List Object)
    (hargs : List.Forall₂ (fun a t => X.FromInterface a = .ok t) args targs) :
    (∃ o, c.CallContext X (some (.done err k)) (some f) args = .ok o ∧
      o.ret = .error (.foreign err) ∧
      o.runs = [specCallVM X c (some f) (targs.map some)] ∧
      o.state.globals = (X.Run (some k) (specCallVM X c (some f) (targs.map some))).globals ∧
      (X.AbortsAtOnce → k = 0 → o.state.globals = c.globals)) ∧
    (∀ name idx, c.indexes.lookup name = some idx → c.globals[idx]? = some (some f) →
      ∃ o, c.CallByNameContext X (some (.done err k)) name args = .ok o ∧
        o.ret = .error (.foreign err) ∧
        o.runs = [specCallVM X c (some f) (targs.map some)] ∧
        o.state.globals =
          (X.Run (some k) (specCallVM X c (some f) (targs.map some))).globals ∧
        (X.AbortsAtOnce → k = 0 → o.state.globals = c.globals)) ∧
    (∀ (T : Toolchain Object E M W File) (s : Script Object M W)
      (r : Except (Error E) (Compiled Object)),
      s.CompileRunContext X T (some (.done err k)) = .ok r →
        r = .error (.foreign err) ∨
          (∃ e, T.ParseFile { Name := "(main)", Size := s.src.length } s.src = .error e ∧
            r = .error (.foreign e)) ∨
          (∃ cc file e, T.Compile cc file = .error e ∧ r = .error (.foreign e))) := by
  have key : ∃ o, c.call X (some (.done err k)) (some f) args = .ok o ∧
      o.ret = .error (.foreign err) ∧
      o.runs = [specCallVM X c (some f) (targs.map some)] ∧
      o.state.globals = (X.Run (some k) (specCallVM X c (some f) (targs.map some))).globals ∧
      (X.AbortsAtOnce → k = 0 → o.state.globals = c.globals) := by
    obtain ⟨o, v, ho, hruns, -, hg, -, herr⟩ :=
      call_marshalled X hlen c hc.2 (some (.done err k)) (some f) args targs hargs
    refine ⟨o, ho, herr err rfl, hruns, hg, fun habort hk => ?_⟩
    rw [hg, hk]
    exact habort _
  refine ⟨?_, fun name idx hlk hslot => ?_, fun T s r h => compile_done X T s err k r h⟩
  · unfold Compiled.CallContext
    simpa only [hf, Bool.not_true, Bool.false_eq_true, if_false] using key
  · unfold Compiled.CallByNameContext
    simpa only [hlk, hslot, hf, Bool.not_true, Bool.false_eq_true, if_false] using key

/-- On the example host, under a cancelled context whose `ctx.Done()` is observed
and the abort seen by the engine before its first instruction, the call of
`add` with `3, 4` returns "context canceled" and leaves the slot table as it
was. -/
theorem cancelled_call_returns_ctx_err_witness :
    Demo.deps.KeepsLength ∧ Demo.prog.InBounds ∧ Demo.deps.CanCall .Sum = true ∧
      List.Forall₂ (fun a t => Demo.deps.FromInterface a = .ok t)
        [Demo.HostVal.int 3, .int 4] [Demo.Obj.Int 3, .Int 4] ∧
      (∃ o, Demo.prog.CallByNameContext Demo.deps (some (.done "context canceled" 0)) "add"
          [.int 3, .int 4] = .ok o ∧
        o.ret = .error (.foreign "context canceled")) ∧
      (Demo.prog.CallByNameContext Demo.deps (some (.done "context canceled" 0)) "add"
          [.int 3, .int 4]).toOption.map (fun o => o.state.globals) =
        some Demo.prog.globals :=
  ⟨Demo.deps_keepsLength, Demo.prog_inBounds, rfl,
    List.Forall₂.cons rfl (List.Forall₂.cons rfl List.Forall₂.nil),
    (((@cancelled_call_returns_ctx_err Demo.Obj Demo.HostVal String Unit Unit Unit Demo.deps
      Demo.deps_keepsLength Demo.prog
      Demo.prog_inBounds "context canceled" 0 .Sum rfl [.int 3, .int 4] [.Int 3, .Int 4]
      (List.Forall₂.cons rfl (List.Forall₂.cons rfl List.Forall₂.nil))).2.1 "add" 1 rfl
      rfl).imp fun _ h => ⟨h.1, h.2.1⟩),
    rfl⟩

/-- C23: for a script whose pending variables are a map of `n` names, with `n`
below `GlobalsSize`, `prepCompile` returns, and the reserved name, defined next,
gets the global symbol of index `n`.  Every host variable has a slot below `n`,
with `n - 1` among them when there is a variable, no symbol of the table has the
index `n`, and the write of the sentinel into slot `n` is in range.  Every
program `compile` returns has `outIdx = n`, and the engine of its bootstrap run
was handed a slot table whose slot `n` holds the undefined value. -/
theorem out_slot_follows_host_variables (X : Deps Object Host E)
    (T : Toolchain Object E M W File) (hT : T.KeepsSlots) (s : Script Object M W)
    (ctx : Option (Context E)) (hmap : (s.vars.map Prod.fst).Nodup)
    (hn : s.vars.length < T.GlobalsSize) :
    ∃ st g, s.prepCompile T = .ok (st, g) ∧
      (st.Define reservedVar).2 =
        { Name := "$out", Scope := .ScopeGlobal, Index := s.vars.length } ∧
      (∀ p ∈ s.vars, ∃ sym, st.Resolve p.1 = some sym ∧ sym.Index < s.vars.length) ∧
      (0 < s.vars.length →
        ∃ p ∈ s.vars, ∃ sym, st.Resolve p.1 = some sym ∧ sym.Index + 1 = s.vars.length) ∧
      (∀ nm sym, st.Resolve nm = some sym → sym.Index ≠ s.vars.length) ∧
      (g.set s.vars.length (some X.UndefinedValue))[s.vars.length]? =
        some (some X.UndefinedValue) ∧
      (∀ c, s.compile X T ctx = .ok (.ok c) →
        c.outIdx = s.vars.length ∧
        ∃ st' bc, (∃ cc file, T.Compile cc file = .ok (st', bc)) ∧
          (bootVM X s g st' bc).globals[s.vars.length]? = some (some X.UndefinedValue) ∧
          (runEngine X ctx (bootVM X s g st' bc)).err = none ∧
          c.globals = (runEngine X ctx (bootVM X s g st' bc)).globals ∧
          c.bytecode = T.RemoveDuplicates bc) := by
  have hnd : (s.vars.map Prod.fst).Nodup := hmap
  obtain ⟨st, g, hloop, hnum, hmax, hglen, -, -, hstore, hres⟩ :=
    prepCompile_loop_ok s (s.vars.map Prod.fst) 0 NewSymbolTable
      (List.replicate T.GlobalsSize none) rfl rfl
      (by rw [List.length_replicate, List.length_map]; omega)
      (fun nm h => lookup_of_mem_keys h)
  simp only [Nat.zero_add, List.length_map] at hnum hmax hres
  rw [List.length_replicate] at hglen
  have hprep : s.prepCompile T = .ok (st, g) := hloop
  have hdef : (st.Define reservedVar).2 =
      { Name := "$out", Scope := .ScopeGlobal, Index := s.vars.length } := by
    simp [SymbolTable.Define, hnum, reservedVar]
  have hall : ∀ nm sym, st.Resolve nm = some sym → sym.Index < s.vars.length := by
    intro nm sym hsym
    by_cases hmem : nm ∈ s.vars.map Prod.fst
    · obtain ⟨i, hi, hget⟩ := List.getElem_of_mem hmem
      have hi' : (s.vars.map Prod.fst)[i]? = some nm := by
        rw [List.getElem?_eq_getElem hi, hget]
      have := hres hnd i nm hi'
      rw [SymbolTable.Resolve, this] at hsym
      cases hsym
      simpa using hi
    · rw [SymbolTable.Resolve, hstore nm hmem] at hsym
      cases hsym
  refine ⟨st, g, hprep, hdef, ?_, ?_, fun nm sym h => Nat.ne_of_lt (hall nm sym h), ?_, ?_⟩
  · intro p hp
    obtain ⟨v, hv⟩ : ∃ sym, st.Resolve p.1 = some sym := by
      obtain ⟨i, hi, hget⟩ := List.getElem_of_mem (List.mem_map_of_mem Prod.fst hp)
      exact ⟨_, hres hnd i p.1 (by rw [List.getElem?_eq_getElem hi, hget])⟩
    exact ⟨v, hv, hall _ _ hv⟩
  · intro hpos
    have hi : s.vars.length - 1 < s.vars.length := by omega
    refine ⟨s.vars[s.vars.length - 1], List.getElem_mem _, _,
      hres hnd (s.vars.length - 1) _ ?_, ?_⟩
    · rw [List.getElem?_map, List.getElem?_eq_getElem hi]
      rfl
    · show s.vars.length - 1 + 1 = s.vars.length
      omega
  · rw [List.getElem?_set_self (by rw [hglen]; exact hn)]
  · intro c hc
    obtain ⟨st₀, g₀, file, cc, st', bc, idxs, hprep', -, hcc, -, hcomp, -, -, -, herr, rfl⟩ :=
      compile_ok_inv X T s ctx c hc
    rw [hprep] at hprep'
    simp only [Except.ok.injEq, Prod.mk.injEq] at hprep'
    obtain ⟨rfl, rfl⟩ := hprep'
    have hidx : (st.Define reservedVar).2.Index = s.vars.length := by rw [hdef]
    rw [hidx] at herr
    refine ⟨hidx, st', bc, ⟨cc, file, hcomp⟩, ?_, herr, by rw [hidx]; rfl, rfl⟩
    have hslots : s.vars.length + 1 ≤ st'.maxDefinition := by
      refine Nat.le_trans ?_ (hT.2 cc file st' bc hcomp)
      rw [hcc]
      refine Nat.le_trans ?_ (hT.1 _ _ _ _)
      simp [SymbolTable.Define, hnum]
    show ((g.set s.vars.length (some X.UndefinedValue)).take (st'.MaxSymbols + 1))[
      s.vars.length]? = _
    rw [List.getElem?_take_of_lt (by simp only [SymbolTable.MaxSymbols]; omega),
      List.getElem?_set_self (by rw [hglen]; exact hn)]

/-- Instance of C23 on the example host: the script with the one variable `b`
compiles to a program whose output slot is slot 1. -/
theorem out_slot_follows_host_variables_witness :
    Demo.toolchain.KeepsSlots ∧ (Demo.source.vars.map Prod.fst).Nodup ∧
      Demo.source.vars.length < Demo.toolchain.GlobalsSize ∧
      (∃ st g, Demo.source.prepCompile Demo.toolchain = .ok (st, g) ∧
        (st.Define reservedVar).2 = { Name := "$out", Scope := .ScopeGlobal, Index := 1 }) ∧
      Demo.source.compile Demo.deps Demo.toolchain (some Context.Background) =
        .ok (.ok Demo.compiled) ∧
      Demo.compiled.outIdx = 1 :=
  ⟨Demo.toolchain_keepsSlots, by decide, by decide,
    (out_slot_follows_host_variables Demo.deps Demo.toolchain Demo.toolchain_keepsSlots
      Demo.source (some Context.Background) (by decide) (by decide)).imp
      fun _ h => h.imp fun _ h => ⟨h.1, h.2.1⟩,
    Demo.compile_source, rfl⟩

/-- C27: not every access happens under the lock.  `Get`, `IsDefined` and
`Clone` hold the read lock and every call variant the exclusive lock for their
whole body, but `Set` and `GetAll` take no lock.  So two goroutines on one
program reach conflicting accesses exactly when one of them runs `Set`, or one
runs `GetAll` while the other runs a call: a call interleaves with `Set` and
with `GetAll`. -/
theorem set_and_getAll_unguarded (p q : Method) :
    Method.guard .Get = some .RLock ∧ Method.guard .IsDefined = some .RLock ∧
      Method.guard .Clone = some .RLock ∧
      Method.guard .Call = some .Lock ∧ Method.guard .CallContext = some .Lock ∧
      Method.guard .CallByName = some .Lock ∧ Method.guard .CallByNameContext = some .Lock ∧
      Method.guard .Set = none ∧ Method.guard .GetAll = none ∧
      Method.races .CallByName .Set = true ∧ Method.races .CallContext .GetAll = true ∧
      Method.races p q =
        (decide (p = .Set) || decide (q = .Set) || (decide (p = .GetAll) && q.isCall) ||
          (decide (q = .GetAll) && p.isCall)) := by
  refine ⟨rfl, rfl, rfl, rfl, rfl, rfl, rfl, rfl, rfl, rfl, rfl, ?_⟩
  cases p <;> cases q <;> rfl

/-- C28: `Time.BinaryOp(op, rhs)` returns a nil error exactly when `rhs`
converts to an int64 and `op` is `Add` or `Sub`, or `rhs` does not convert, is
a `Time`, and `op` is one of `Less`, `LessEq`, `Greater`, `GreaterEq`.  A
success returns an object; every other case returns the nil object and
`ErrInvalidOperator`, as does every operator on an `rhs` that neither converts
nor is a `Time`. -/
theorem time_binaryOp_succeeds_iff {O : Type} (X : Stdlib.Deps O) (t : Stdlib.Time)
    (op : token.Token) (rhs : Option (Stdlib.Obj O)) :
    ((t.BinaryOp X op rhs).2 = none ↔
      ((X.ToInt64 rhs).isSome = true ∧ (op = .Add ∨ op = .Sub)) ∨
        (X.ToInt64 rhs = none ∧ (∃ u, rhs = some (.time u)) ∧
          (op = .Less ∨ op = .LessEq ∨ op = .Greater ∨ op = .GreaterEq))) ∧
      ((t.BinaryOp X op rhs).2 = none → (t.BinaryOp X op rhs).1.isSome = true) ∧
      ((t.BinaryOp X op rhs).2 ≠ none →
        t.BinaryOp X op rhs = (none, some .ErrInvalidOperator)) ∧
      (X.ToInt64 rhs = none → (∀ u, rhs ≠ some (.time u)) →
        t.BinaryOp X op rhs = (none, some .ErrInvalidOperator)) := by
  unfold Stdlib.Time.BinaryOp
  cases h : X.ToInt64 rhs with
  | some d => cases op <;> simp [Stdlib.Time.arithmeticOp]
  | none =>
    rcases rhs with _ | (u | b | o) <;> cases op <;>
      simp [Stdlib.Time.compareOp, Stdlib.TengoBool]

/-- Instance of C28 on the example host, the cases of the operator test: a time
compared with the string "something", a time divided by a time, and a time
divided by the integer of a second all return the nil object and
`ErrInvalidOperator`; the time plus the integer of an hour returns an
object. -/
theorem time_binaryOp_succeeds_iff_witness :
    Demo.now.BinaryOp Demo.stdlib .Greater (some (.other (.String "something"))) =
        (none, some .ErrInvalidOperator) ∧
      Demo.now.BinaryOp Demo.stdlib .Quo (some (.time Demo.now)) =
        (none, some .ErrInvalidOperator) ∧
      Demo.now.BinaryOp Demo.stdlib .Quo (some (.other (.Int 1000000000))) =
        (none, some .ErrInvalidOperator) ∧
      (Demo.base.BinaryOp Demo.stdlib .Add (some (.other (.Int 3600000000000)))).2 = none :=
  ⟨(time_binaryOp_succeeds_iff Demo.stdlib Demo.now .Greater
      (some (.other (.String "something")))).2.2.2 (by decide) (fun u h => by cases h),
    by decide, by decide,
    (time_binaryOp_succeeds_iff Demo.stdlib Demo.base .Add
      (some (.other (.Int 3600000000000)))).1.mpr (Or.inl ⟨by decide, Or.inl rfl⟩)⟩

/-- Against C30 as stated, on the example host, for the time `base` and the
integer `-2^63`, the minimum int64, which converts to itself.  `base - rhs` is
the time `2^63` nanoseconds before `base`, the same as `base + rhs`, whereas the
time `d` nanoseconds before `base` is `2^63` nanoseconds after it; and
`(base + rhs) - rhs` is `2^64` nanoseconds before `base`, not the same
instant. -/
theorem time_sub_min_int64_counterexample :
    Demo.stdlib.ToInt64 (some (.other (.Int (-9223372036854775808)))) =
        some (-9223372036854775808) ∧
      IsInt64 (-9223372036854775808) ∧
      Demo.base.time.wall = 1072469077000000000 ∧
      Demo.base.BinaryOp Demo.stdlib .Sub (some (.other (.Int (-9223372036854775808)))) =
        (some (.time (Stdlib.CreateTime
          { wall := -8150902959854775808, mono := none, loc := "UTC" })), none) ∧
      Demo.base.BinaryOp Demo.stdlib .Add (some (.other (.Int (-9223372036854775808)))) =
        (some (.time (Stdlib.CreateTime
          { wall := -8150902959854775808, mono := none, loc := "UTC" })), none) ∧
      Demo.base.time.wall - (-9223372036854775808) = 10295841113854775808 ∧
      (Stdlib.CreateTime { wall := -8150902959854775808, mono := none, loc := "UTC" }).BinaryOp
          Demo.stdlib .Sub (some (.other (.Int (-9223372036854775808)))) =
        (some (.time (Stdlib.CreateTime
          { wall := -17374274996709551616, mono := none, loc := "UTC" })), none) ∧
      Demo.base.Equals (some (Stdlib.Obj.time (O := Demo.Val) (Stdlib.CreateTime
          { wall := -17374274996709551616, mono := none, loc := "UTC" }))) = false := by
  refine ⟨?_, ?_, ?_, ?_, ?_, ?_, ?_, ?_⟩ <;> decide

/-- C30 (amended): for every time `t` and every `rhs` that converts to the int64
`d`, `t + rhs` is the time `d` nanoseconds after `t`.  When `d` is not the
minimum int64, `t - rhs` is the time `d` nanoseconds before `t`, and
`(t + rhs) - rhs` is `t` again, the same instant.  When `d` is the minimum,
`t - rhs` is `t + rhs`.  For every int64 `d`, `t - d` is `t + (-d)`, where `-d`
is the negation of int64, which wraps. -/
theorem time_add_sub_duration {O : Type} (X : Stdlib.Deps O) (t : Stdlib.Time)
    (rhs : Option (Stdlib.Obj O)) (d : Int) (hrhs : X.ToInt64 rhs = some d)
    (hd : IsInt64 d) :
    t.BinaryOp X .Add rhs = (some (.time (Stdlib.CreateTime (t.time.Add d))), none) ∧
      (t.time.Add d).wall = t.time.wall + d ∧
      (t.time.Add d).mono = t.time.mono.map (fun m => m + d) ∧
      (t.time.Add d).loc = t.time.loc ∧
      (d ≠ -2 ^ 63 →
        t.BinaryOp X .Sub rhs =
            (some (.time (Stdlib.CreateTime (t.time.Add (-d)))), none) ∧
          (t.time.Add (-d)).wall = t.time.wall - d ∧
          (t.time.Add (-d)).mono = t.time.mono.map (fun m => m - d) ∧
          (Stdlib.CreateTime (t.time.Add d)).BinaryOp X .Sub rhs =
            (some (.time (Stdlib.CreateTime t.time)), none) ∧
          t.Equals (some (Stdlib.Obj.time (O := O) (Stdlib.CreateTime t.time))) = true) ∧
      (d = -2 ^ 63 → t.BinaryOp X .Sub rhs = t.BinaryOp X .Add rhs) ∧
      IsInt64 (time.Duration.neg d) ∧
      (∀ rhs', X.ToInt64 rhs' = some (time.Duration.neg d) →
        t.BinaryOp X .Sub rhs = t.BinaryOp X .Add rhs') := by
  have hsub : t.BinaryOp X .Sub rhs =
      (some (.time (Stdlib.CreateTime (t.time.Add (time.Duration.neg d)))), none) := by
    simp only [Stdlib.Time.BinaryOp, hrhs, Stdlib.Time.arithmeticOp]
  have hadd : ∀ (u : Stdlib.Time) (r : Option (Stdlib.Obj O)) (e : Int),
      X.ToInt64 r = some e →
      u.BinaryOp X .Add r = (some (.time (Stdlib.CreateTime (u.time.Add e))), none) := by
    intro u r e h
    simp only [Stdlib.Time.BinaryOp, h, Stdlib.Time.arithmeticOp]
  refine ⟨hadd t rhs d hrhs, rfl, rfl, rfl, fun hmin => ?_, fun hmin => ?_, ?_, fun rhs' h => ?_⟩
  · have hneg := duration_neg_of_ne_min d hd hmin
    refine ⟨by rw [hsub, hneg], by simp only [time.Time.Add]; omega, ?_, ?_, ?_⟩
    · simp only [time.Time.Add]
      cases t.time.mono with
      | none => rfl
      | some m => simp only [Option.map_some', Option.some.injEq]; omega
    · simp only [Stdlib.Time.BinaryOp, hrhs, Stdlib.Time.arithmeticOp, Stdlib.CreateTime,
        hneg, time_add_add_neg]
    · simp only [Stdlib.Time.Equals, Stdlib.ToTime, Stdlib.CreateTime, time_equal_self]
  · rw [hsub, hadd t rhs d hrhs, hmin, duration_neg_min]
  · unfold IsInt64 at hd ⊢
    show -2 ^ 63 ≤ (-d + 2 ^ 63) % 2 ^ 64 - 2 ^ 63 ∧ (-d + 2 ^ 63) % 2 ^ 64 - 2 ^ 63 < 2 ^ 63
    norm_num at hd ⊢
    omega
  · rw [hsub, hadd t rhs' _ h]

/-- Instance of C30 on the example host, the arithmetic of the operator test:
`base + datetime.hour` is one hour later and `base - datetime.minute` one minute
earlier. -/
theorem time_add_sub_duration_witness :
    Demo.stdlib.ToInt64 (some (.other (.Int 60000000000))) = some 60000000000 ∧
      IsInt64 60000000000 ∧
      Demo.base.BinaryOp Demo.stdlib .Sub (some (.other (.Int 60000000000))) =
        (some (.time (Stdlib.CreateTime (Demo.base.time.Add (-60000000000)))), none) ∧
      Demo.base.time.Add (-60000000000) =
        { wall := 1072469017000000000, mono := none, loc := "UTC" } ∧
      Demo.base.BinaryOp Demo.stdlib .Add (some (.other (.Int 3600000000000))) =
        (some (.time (Stdlib.CreateTime
          { wall := 1072472677000000000, mono := none, loc := "UTC" })), none) :=
  ⟨rfl, by decide,
    ((time_add_sub_duration Demo.stdlib Demo.base (some (.other (.Int 60000000000)))
      60000000000 rfl (by decide)).2.2.2.2.1 (by decide)).1,
    by decide, by decide⟩

/-- C36: `Set` writes one slot only.  For a name of the name index, bound to
the slot `idx`, and a host value that marshals to `obj`: when `idx` is a slot
of the table, `Set` returns no error, the slot `idx` holds `obj`, every other
slot and the length of the table are as before, and the constant pool, the
entry instruction sequence, the name index, the output slot index and the
allocation budget are unchanged; so `Get(n)` returns the same for every name
`n` that is not bound to the slot `idx`.  When `idx` is no slot of the table,
`Set` panics and writes nothing. -/
theorem set_writes_one_slot (X : Deps Object Host E) (c : Compiled Object) (name : String)
    (idx : Nat) (hlk : c.indexes.lookup name = some idx) (v : Host) (obj : Object)
    (hv : X.FromInterface v = .ok obj) :
    (idx < c.globals.length →
      ∃ d, c.Set X name v = .ok (d, none) ∧
        d.globals[idx]? = some (some obj) ∧
        d.globals.length = c.globals.length ∧
        (∀ j, j ≠ idx → d.globals[j]? = c.globals[j]?) ∧
        d.bytecode.Constants = c.bytecode.Constants ∧
        d.bytecode.MainFunction.Instructions = c.bytecode.MainFunction.Instructions ∧
        d.indexes = c.indexes ∧ d.outIdx = c.outIdx ∧ d.maxAllocs = c.maxAllocs ∧
        (∀ n, c.indexes.lookup n ≠ some idx → d.Get X n = c.Get X n)) ∧
      (c.globals.length ≤ idx →
        c.Set X name v = .error (.indexOutOfRange idx c.globals.length)) := by
  refine ⟨fun hidx => ?_, fun hidx => ?_⟩
  · refine ⟨_, set_known X c name idx hlk hidx v obj hv, ?_, ?_, ?_, rfl, rfl, rfl, rfl, rfl,
      fun n hn => ?_⟩
    · simp [hidx]
    · simp
    · intro j hj
      exact List.getElem?_set_ne (Ne.symm hj)
    · refine get_congr X c _ n rfl (fun j hj => ⟨?_, by simp⟩)
      have hne : idx ≠ j := by
        intro h
        subst h
        exact hn hj
      exact List.getElem?_set_ne hne
  · have h : ¬ idx < c.globals.length := Nat.not_lt.mpr hidx
    simp [Compiled.Set, hv, hlk, h]

/-- Instance of C36 on the example host: `Set("a", 6)` on the example program
writes slot 0 and leaves `add`, which is bound to slot 1, as it was. -/
theorem set_writes_one_slot_witness :
    Demo.prog.indexes.lookup "a" = some 0 ∧ Demo.deps.FromInterface (.int 6) = .ok (.Int 6) ∧
      (∃ d, Demo.prog.Set Demo.deps "a" (.int 6) = .ok (d, none) ∧
        d.globals[0]? = some (some (.Int 6)) ∧ d.globals.length = Demo.prog.globals.length) ∧
      Demo.prog.Set Demo.deps "a" (.int 6) =
        .ok ({ Demo.prog with
          globals := [some (.Int 6), some .Sum, some .Fail, none, some .Undefined] }, none) :=
  ⟨rfl, rfl,
    ((set_writes_one_slot Demo.deps Demo.prog "a" 0 rfl (.int 6) (.Int 6) rfl).1
      (by decide)).imp fun _ h => ⟨h.1, h.2.1, h.2.2.1⟩,
    by decide⟩

/-- C37: a call whose arguments cannot all be marshalled is atomic.  When the
arguments before `a` marshal and `FromInterface` fails on `a` with `e`, then
`CallContext` and `Call` on a callable `f`, and `CallByNameContext` and
`CallByName` on a name bound to `f`, return `(nil, e)`, run no engine, and leave
the program (constant pool, entry instruction sequence and slot table) exactly
as it was. -/
theorem unmarshallable_call_is_atomic (X : Deps Object Host E) (c : Compiled Object)
    (ctx : Option (Context E)) (f : Object) (hf : X.CanCall f = true) (pre : List Host)
    (tpre : List Object) (a : Host) (rest : List Host) (e : E)
    (hpre : List.Forall₂ (fun a t => X.FromInterface a = .ok t) pre tpre)
    (ha : X.FromInterface a = .error e) :
    c.CallContext X ctx (some f) (pre ++ a :: rest) =
        .ok { state := c, ret := .error (.foreign e), runs := [] } ∧
      c.Call X (some f) (pre ++ a :: rest) =
        .ok { state := c, ret := .error (.foreign e), runs := [] } ∧
      (∀ name idx, c.indexes.lookup name = some idx → c.globals[idx]? = some (some f) →
        c.CallByNameContext X ctx name (pre ++ a :: rest) =
            .ok { state := c, ret := .error (.foreign e), runs := [] } ∧
          c.CallByName X name (pre ++ a :: rest) =
            .ok { state := c, ret := .error (.foreign e), runs := [] }) := by
  have hcall : ∀ ctx' : Option (Context E), c.call X ctx' (some f) (pre ++ a :: rest) =
      .ok { state := c, ret := .error (.foreign e), runs := [] } := by
    intro ctx'
    simp only [Compiled.call, marshalArgs_error X a rest e ha pre tpre [] hpre]
  refine ⟨?_, ?_, fun name idx hlk hslot => ⟨?_, ?_⟩⟩
  · simp only [Compiled.CallContext, hf, Bool.not_true, Bool.false_eq_true, if_false, hcall]
  · simp only [Compiled.Call, Compiled.CallContext, hf, Bool.not_true, Bool.false_eq_true,
      if_false, hcall]
  · simp only [Compiled.CallByNameContext, hlk, hslot, hf, Bool.not_true, Bool.false_eq_true,
      if_false, hcall]
  · simp only [Compiled.CallByName, Compiled.CallByNameContext, hlk, hslot, hf, Bool.not_true,
      Bool.false_eq_true, if_false, hcall]

/-- Instance of C37 on the example host: the call of `add` with `3`, a value
that has no script counterpart and `4` returns the marshalling error and
leaves the example program as it was. -/
theorem unmarshallable_call_is_atomic_witness :
    Demo.deps.CanCall .Sum = true ∧
      List.Forall₂ (fun a t => Demo.deps.FromInterface a = .ok t) [Demo.HostVal.int 3]
        [Demo.Obj.Int 3] ∧
      Demo.deps.FromInterface .chan = .error "unsupported type" ∧
      Demo.prog.CallByName Demo.deps "add" [.int 3, .chan, .int 4] =
        .ok { state := Demo.prog, ret := .error (.foreign "unsupported type"), runs := [] } :=
  ⟨rfl, List.Forall₂.cons rfl List.Forall₂.nil, rfl,
    ((unmarshallable_call_is_atomic Demo.deps Demo.prog none .Sum rfl [.int 3] [.Int 3] .chan
      [.int 4] "unsupported type" (List.Forall₂.cons rfl List.Forall₂.nil) rfl).2.2 "add" 1 rfl
      rfl).2⟩

/-- C38: the in-bounds invariant.  A program whose name index and output slot
index hold valid indices of the slot table keeps that property under `Set`,
under every call (the engine run keeping the length of the table) and in its
clone.  On such a program `Set` and `IsDefined` return, `Get` and `GetAll` (the
name index being a map) never fail with an index out of range, and, the engine
run keeping the length of the table, `CallByNameContext` and `callCompiled`
return. -/
theorem inBounds_invariant [DecidableEq Object] (X : Deps Object Host E) (c : Compiled Object)
    (hc : c.InBounds) :
    (∀ name v, ∃ d err, c.Set X name v = .ok (d, err) ∧ d.InBounds) ∧
      (X.KeepsLength → ∀ req, ∃ o, c.serve X req = .ok o ∧ o.state.InBounds) ∧
      (c.Clone X).InBounds ∧
      (∀ name, ∃ b, c.IsDefined X name = .ok b) ∧
      (∀ name i n, c.Get X name ≠ .error (.indexOutOfRange i n)) ∧
      ((c.indexes.map Prod.fst).Nodup →
        ∀ i n, c.GetAll X ≠ .error (.indexOutOfRange i n)) ∧
      (X.KeepsLength → ∀ ctx name args, ∃ o,
        c.CallByNameContext X ctx name args = .ok o ∧ o.state.InBounds) ∧
      (X.KeepsLength → ∀ ctx fn args, ∃ o,
        c.callCompiled X ctx fn args = .ok o ∧ o.state.InBounds) := by
  refine ⟨fun name v => ?_, fun hlen req => ?_, (clone_sameShape X c).inBounds hc,
    fun name => ?_, fun name i n h => ?_, fun hmap i n => ?_, fun hlen ctx name args => ?_,
    fun hlen ctx fn args => ?_⟩
  · obtain ⟨d, err, hset, -, hshape⟩ := set_total X c hc name v
    exact ⟨d, err, hset, hshape.inBounds hc⟩
  · obtain ⟨o, ho, hshape, -⟩ := serve_ok X hlen c hc req
    exact ⟨o, ho, hshape.inBounds hc⟩
  · unfold Compiled.IsDefined
    cases hlk : c.indexes.lookup name with
    | none => exact ⟨false, rfl⟩
    | some idx =>
      have hidx := hc.1 name idx hlk
      simp only [List.getElem?_eq_getElem hidx]
      cases c.globals[idx] with
      | none => exact ⟨false, rfl⟩
      | some v => exact ⟨_, rfl⟩
  · unfold Compiled.Get at h
    cases hlk : c.indexes.lookup name with
    | none =>
      rw [hlk] at h
      dsimp only at h
      split at h <;> cases h
    | some idx =>
      have hidx := hc.1 name idx hlk
      simp only [hlk, List.getElem?_eq_getElem hidx] at h
      cases hg : c.globals[idx] with
      | none =>
        rw [hg] at h
        dsimp only at h
        split at h <;> cases h
      | some v =>
        rw [hg] at h
        dsimp only at h
        split at h <;> cases h
  · exact getAll_loop_inRange X c c.indexes [] i n
      (fun p hp => hc.1 p.1 p.2 (lookup_of_mem_nodup hmap hp))
  · obtain ⟨o, ho, hshape, -⟩ := serve_ok X hlen c hc (.CallByNameContext ctx name args)
    exact ⟨o, ho, hshape.inBounds hc⟩
  · obtain ⟨o, v, ho, -, -, -, -, hshape, -⟩ := callCompiled_ok X hlen c hc.2 ctx fn args
    exact ⟨o, ho, hshape.inBounds hc⟩

/-- Instance of C38 on the example host: the example program is in bounds, and
so is the program a call of `add` leaves. -/
theorem inBounds_invariant_witness :
    Demo.prog.InBounds ∧ Demo.deps.KeepsLength ∧
      (∃ o, Demo.prog.serve Demo.deps (.CallByName "add" [.int 3, .int 4]) = .ok o ∧
        o.state.InBounds) ∧
      (Demo.prog.Clone Demo.deps).InBounds :=
  ⟨Demo.prog_inBounds, Demo.deps_keepsLength,
    (inBounds_invariant Demo.deps Demo.prog Demo.prog_inBounds).2.1 Demo.deps_keepsLength
      (.CallByName "add" [.int 3, .int 4]),
    (clone_sameShape Demo.deps Demo.prog).inBounds Demo.prog_inBounds⟩

/-- C31: `t.Equals(o)` is true exactly when `o` is a `Time` that Go's `Equal`
reports to be the same instant as `t`: the same wall-clock instant, whatever
the locations, or, when both times carry a monotonic clock reading, the same
reading.  It is false for every object that is not a `Time`, nil included; it
is reflexive, and symmetric on times. -/
theorem time_equals_iff_same_instant {O : Type} (t : Stdlib.Time)
    (o : Option (Stdlib.Obj O)) :
    (t.Equals o = true ↔ ∃ u, o = some (.time u) ∧ t.time.Equal u.time = true) ∧
      ((∀ u, o ≠ some (.time u)) → t.Equals o = false) ∧
      t.Equals (some (Stdlib.Obj.time (O := O) t)) = true ∧
      (∀ u : Stdlib.Time, t.Equals (some (Stdlib.Obj.time (O := O) u)) =
        u.Equals (some (Stdlib.Obj.time (O := O) t))) ∧
      (∀ u : Stdlib.Time, t.time.mono = none ∨ u.time.mono = none →
        (t.Equals (some (Stdlib.Obj.time (O := O) u)) = true ↔ t.time.wall = u.time.wall)) ∧
      (∀ (u : Stdlib.Time) (a b : Int), t.time.mono = some a → u.time.mono = some b →
        (t.Equals (some (Stdlib.Obj.time (O := O) u)) = true ↔ a = b)) := by
  refine ⟨?_, ?_, ?_, ?_, ?_, ?_⟩
  · rcases o with _ | (u | b | x) <;> simp [Stdlib.Time.Equals, Stdlib.ToTime]
  · intro h
    rcases o with _ | (u | b | x)
    · rfl
    · exact absurd rfl (h u)
    · rfl
    · rfl
  · exact time_equal_self t.time
  · intro u
    exact time_equal_comm t.time u.time
  · intro u h
    simp only [Stdlib.Time.Equals, Stdlib.ToTime, time.Time.Equal]
    rcases h with h | h
    · rw [h]
      simp
    · rw [h]
      cases t.time.mono <;> simp
  · intro u a b ha hb
    simp only [Stdlib.Time.Equals, Stdlib.ToTime, time.Time.Equal, ha, hb, decide_eq_true_eq]

/-- Instance of C31 on the example host, the equalities of the operator test:
`base == "not a date"` is false, `base == base` is true and `base == now` is
false. -/
theorem time_equals_iff_same_instant_witness :
    Demo.base.Equals (some (.other (Demo.Val.String "not a date"))) = false ∧
      Demo.base.Equals (some (Stdlib.Obj.time (O := Demo.Val) Demo.base)) = true ∧
      Demo.base.Equals (some (Stdlib.Obj.time (O := Demo.Val) Demo.now)) = false :=
  ⟨(time_equals_iff_same_instant Demo.base (some (.other (Demo.Val.String "not a date")))).2.1
      (fun u h => by cases h),
    by decide, by decide⟩

/-- C32: `ToTime` of the object `CreateTime(t)` succeeds, and `GoTime()` of the
`Time` it returns is `t`; `ToTime` returns every `Time` as it is, and
`(nil, false)` for every object that is not a `Time`, nil included. -/
theorem toTime_createTime {O : Type} (t : time.Time) (o : Option (Stdlib.Obj O)) :
    (∃ u, Stdlib.ToTime (some (Stdlib.Obj.time (O := O) (Stdlib.CreateTime t))) = some u ∧
        u.GoTime = t) ∧
      (∀ u : Stdlib.Time, Stdlib.ToTime (some (Stdlib.Obj.time (O := O) u)) = some u) ∧
      ((∀ u, o ≠ some (.time u)) → Stdlib.ToTime o = none) ∧
      (Stdlib.ToTime o ≠ none ↔ ∃ u, o = some (.time u)) := by
  refine ⟨⟨_, rfl, rfl⟩, fun u => rfl, fun h => ?_, ?_⟩
  · rcases o with _ | (u | b | x)
    · rfl
    · exact absurd rfl (h u)
    · rfl
    · rfl
  · rcases o with _ | (u | b | x) <;> simp [Stdlib.ToTime]

/-- Instance of C32 on the example host, the conversions of `TestToTime`: the
string "????" is no time, and a time read from the clock is one. -/
theorem toTime_createTime_witness :
    Stdlib.ToTime (some (.other (Demo.Val.String "????"))) = none ∧
      (Stdlib.ToTime (some (Stdlib.Obj.time (O := Demo.Val) Demo.now))).map
        (fun u => u.GoTime) = some Demo.now.time :=
  ⟨(toTime_createTime Demo.now.time (some (.other (Demo.Val.String "????")))).2.2.1
      (fun u h => by cases h),
    rfl⟩

/-- C39: the numeric constants of the datetime module.  The units are exact
counts of nanoseconds: `nanosecond` is 1, `microsecond` 1000 nanoseconds,
`millisecond` 1000 microseconds, `second` 1000 milliseconds, `minute` 60
seconds and `hour` 60 minutes; `sunday` to `saturday` are 0 to 6 in that order
and `january` to `december` 1 to 12 in calendar order.  Each name has one
entry, and each value is an int64. -/
theorem datetime_constants_consistent :
    (∃ ns us ms s m h : Int,
        Stdlib.datetimeModule.ints.lookup "nanosecond" = some ns ∧
        Stdlib.datetimeModule.ints.lookup "microsecond" = some us ∧
        Stdlib.datetimeModule.ints.lookup "millisecond" = some ms ∧
        Stdlib.datetimeModule.ints.lookup "second" = some s ∧
        Stdlib.datetimeModule.ints.lookup "minute" = some m ∧
        Stdlib.datetimeModule.ints.lookup "hour" = some h ∧
        ns = 1 ∧ us = 1000 * ns ∧ ms = 1000 * us ∧ s = 1000 * ms ∧ m = 60 * s ∧ h = 60 * m ∧
        h = 3600000000000) ∧
      ["sunday", "monday", "tuesday", "wednesday", "thursday", "friday", "saturday"].map
          (fun k => Stdlib.datetimeModule.ints.lookup k) =
        [some 0, some 1, some 2, some 3, some 4, some 5, some 6] ∧
      ["january", "february", "march", "april", "may", "june", "july", "august", "september",
          "october", "november", "december"].map
          (fun k => Stdlib.datetimeModule.ints.lookup k) =
        [some 1, some 2, some 3, some 4, some 5, some 6, some 7, some 8, some 9, some 10,
          some 11, some 12] ∧
      (Stdlib.datetimeModule.ints.map Prod.fst).Nodup ∧
      (∀ p ∈ Stdlib.datetimeModule.ints, IsInt64 p.2) := by
  refine ⟨⟨1, 1000, 1000000, 1000000000, 60000000000, 3600000000000, ?_⟩, ?_, ?_, ?_, ?_⟩
  · refine ⟨?_, ?_, ?_, ?_, ?_, ?_, ?_⟩ <;> decide
  · decide
  · decide
  · decide
  · decide

/-- C33: the functions of the datetime module and the members of a time that
the sources define, under the names the module and `CreateTime` give them.
Each returns `ErrWrongNumArguments` exactly when the number of arguments is
outside its arity, for every argument list and every host: `now`, `date`,
`clock` and `utc` take no argument, `parse_duration` one, `parse` two,
`add_date` three and `new` six to eight.  With a count outside the arity the
result is the nil object and that error whatever the arguments are, so the
count is checked before any argument is inspected. -/
theorem datetime_functions_check_count {O : Type} (X : Stdlib.Deps O) (G : time.Package)
    (t : time.Time) :
    (Stdlib.datetimeModule.funcs X G).map Prod.fst = ["now", "new", "parse", "parse_duration"] ∧
      (Stdlib.CreateTime.funcs X G t).map Prod.fst = ["add_date", "clock", "date", "utc"] ∧
      (∀ f, (Stdlib.datetimeModule.funcs X G).lookup "now" = some f →
        Stdlib.ChecksCount f 0 0) ∧
      (∀ f, (Stdlib.CreateTime.funcs X G t).lookup "date" = some f →
        Stdlib.ChecksCount f 0 0) ∧
      (∀ f, (Stdlib.CreateTime.funcs X G t).lookup "clock" = some f →
        Stdlib.ChecksCount f 0 0) ∧
      (∀ f, (Stdlib.CreateTime.funcs X G t).lookup "utc" = some f →
        Stdlib.ChecksCount f 0 0) ∧
      (∀ f, (Stdlib.datetimeModule.funcs X G).lookup "parse_duration" = some f →
        Stdlib.ChecksCount f 1 1) ∧
      (∀ f, (Stdlib.datetimeModule.funcs X G).lookup "parse" = some f →
        Stdlib.ChecksCount f 2 2) ∧
      (∀ f, (Stdlib.CreateTime.funcs X G t).lookup "add_date" = some f →
        Stdlib.ChecksCount f 3 3) ∧
      (∀ f, (Stdlib.datetimeModule.funcs X G).lookup "new" = some f →
        Stdlib.ChecksCount f 6 8) := by
  refine ⟨rfl, rfl, ?_, ?_, ?_, ?_, ?_, ?_, ?_, ?_⟩
  · intro f h
    have hf : (Stdlib.datetimeModule.funcs X G).lookup "now" = some (Stdlib.datetimeNow G) := rfl
    rw [hf] at h
    cases h
    exact datetimeNow_checksCount G
  · intro f h
    have hf : (Stdlib.CreateTime.funcs X G t).lookup "date" = some (Stdlib.timeDate X G t) := rfl
    rw [hf] at h
    cases h
    exact timeDate_checksCount X G t
  · intro f h
    have hf : (Stdlib.CreateTime.funcs X G t).lookup "clock" = some (Stdlib.timeClock X G t) :=
      rfl
    rw [hf] at h
    cases h
    exact timeClock_checksCount X G t
  · intro f h
    have hf : (Stdlib.CreateTime.funcs X G t).lookup "utc" = some (Stdlib.timeUTC G t) := rfl
    rw [hf] at h
    cases h
    exact timeUTC_checksCount G t
  · intro f h
    have hf : (Stdlib.datetimeModule.funcs X G).lookup "parse_duration" =
        some (Stdlib.datetimeParseDuration X G) := rfl
    rw [hf] at h
    cases h
    exact datetimeParseDuration_checksCount X G
  · intro f h
    have hf : (Stdlib.datetimeModule.funcs X G).lookup "parse" =
        some (Stdlib.datetimeParse X G) := rfl
    rw [hf] at h
    cases h
    exact datetimeParse_checksCount X G
  · intro f h
    have hf : (Stdlib.CreateTime.funcs X G t).lookup "add_date" =
        some (Stdlib.timeAddDate X G t) := rfl
    rw [hf] at h
    cases h
    exact timeAddDate_checksCount X G t
  · intro f h
    have hf : (Stdlib.datetimeModule.funcs X G).lookup "new" =
        some (Stdlib.datetimeNewTime X G) := rfl
    rw [hf] at h
    cases h
    exact datetimeNewTime_checksCount X G

/-- Instance of C33 on the example host, calls of the signature tests: `new()`,
`new` with nine arguments, `now(undefined)`, `parse` with one argument,
`parse_duration()`, `date(false)`, `add_date()` and `utc` with one argument
return `ErrWrongNumArguments`. -/
theorem datetime_functions_check_count_witness :
    (Stdlib.datetimeModule.funcs Demo.stdlib Demo.timePkg).lookup "new" =
        some (Stdlib.datetimeNewTime Demo.stdlib Demo.timePkg) ∧
      Stdlib.datetimeNewTime Demo.stdlib Demo.timePkg [] =
        (none, some .ErrWrongNumArguments) ∧
      Stdlib.datetimeNewTime Demo.stdlib Demo.timePkg
          (List.replicate 9 (.other (.Int 1))) = (none, some .ErrWrongNumArguments) ∧
      Stdlib.datetimeNow Demo.timePkg [Stdlib.Obj.other Demo.Val.Undefined] =
        (none, some .ErrWrongNumArguments) ∧
      Stdlib.datetimeParse Demo.stdlib Demo.timePkg [.other (.String "25-07-22")] =
        (none, some .ErrWrongNumArguments) ∧
      Stdlib.datetimeParseDuration Demo.stdlib Demo.timePkg [] =
        (none, some .ErrWrongNumArguments) ∧
      Stdlib.timeDate Demo.stdlib Demo.timePkg Demo.now.time [.bool false] =
        (none, some .ErrWrongNumArguments) ∧
      Stdlib.timeAddDate Demo.stdlib Demo.timePkg Demo.now.time [] =
        (none, some .ErrWrongNumArguments) ∧
      Stdlib.timeUTC Demo.timePkg Demo.now.time [Stdlib.Obj.other (Demo.Val.String "ong fr")] =
        (none, some .ErrWrongNumArguments) :=
  ⟨rfl,
    ((datetime_functions_check_count Demo.stdlib Demo.timePkg Demo.now.time).2.2.2.2.2.2.2.2.2
      _ rfl []).2 (by decide),
    by decide, by decide, by decide, by decide, by decide, by decide, by decide⟩

/-- C34: `datetime.new` and `add_date` check their arguments from left to
right.  With a valid count, when the arguments before `a` convert to what their
parameters expect (int for the year, the month, the day, the hour, the minute,
the second and the nanosecond, string for the location; int for the years,
months and days of `add_date`) and `a` does not, the call returns the nil
object and `ErrInvalidArgumentType` for the parameter of `a`, with `Found` the
type name of `a`, whatever the arguments after `a` are.  The call succeeds
exactly when every argument converts and, for `new` with a location, the
location loads; and a success returns a time. -/
theorem datetime_args_checked_left_to_right {O : Type} (X : Stdlib.Deps O) (G : time.Package)
    (t : time.Time) (pre : List (Stdlib.Obj O)) (a : Stdlib.Obj O) (post : List (Stdlib.Obj O))
    (p : String × Stdlib.ArgKind) (ha : X.converts p.2 a = false) :
    (6 ≤ (pre ++ a :: post).length → (pre ++ a :: post).length ≤ 8 →
      Stdlib.datetimeNewTime.params[pre.length]? = some p →
      (∀ (i : Nat) b q, pre[i]? = some b → Stdlib.datetimeNewTime.params[i]? = some q →
        X.converts q.2 b = true) →
      Stdlib.datetimeNewTime X G (pre ++ a :: post) =
        (none, some (.ErrInvalidArgumentType p.1 p.2.Expected (a.TypeName X)))) ∧
      ((pre ++ a :: post).length = 3 →
        Stdlib.timeAddDate.params[pre.length]? = some p →
        (∀ (i : Nat) b q, pre[i]? = some b → Stdlib.timeAddDate.params[i]? = some q →
          X.converts q.2 b = true) →
        Stdlib.timeAddDate X G t (pre ++ a :: post) =
          (none, some (.ErrInvalidArgumentType p.1 p.2.Expected (a.TypeName X)))) ∧
      (∀ args : List (Stdlib.Obj O), 6 ≤ args.length → args.length ≤ 8 →
        ((Stdlib.datetimeNewTime X G args).2 = none ↔
          (∀ (i : Nat) b q, args[i]? = some b → Stdlib.datetimeNewTime.params[i]? = some q →
            X.converts q.2 b = true) ∧
          ∀ a7 loc, args[7]? = some a7 → X.ToString (some a7) = some loc →
            ∃ l, G.LoadLocation loc = .ok l) ∧
        ((Stdlib.datetimeNewTime X G args).2 = none →
          ∃ u, (Stdlib.datetimeNewTime X G args).1 = some (.time u))) ∧
      (∀ args : List (Stdlib.Obj O), args.length = 3 →
        ((Stdlib.timeAddDate X G t args).2 = none ↔
          ∀ (i : Nat) b q, args[i]? = some b → Stdlib.timeAddDate.params[i]? = some q →
            X.converts q.2 b = true) ∧
        ((Stdlib.timeAddDate X G t args).2 = none →
          ∃ u, (Stdlib.timeAddDate X G t args).1 = some (.time u))) := by
  refine ⟨fun hlo hhi hp hpre => ?_, fun hlen hp hpre => ?_, fun args hlo hhi => ?_,
    fun args hlen => ?_⟩
  · exact datetimeNewTime_firstInvalid X G _ hlo hhi _
      (firstInvalid_append X a post p ha pre _ hp hpre)
  · exact (timeAddDate_firstInvalid X G t _ hlen).1 _
      (firstInvalid_append X a post p ha pre _ hp hpre)
  · have h := datetimeNewTime_success X G args hlo hhi
    rw [firstInvalid_eq_none] at h
    exact h
  · have h := (timeAddDate_firstInvalid X G t args hlen).2
    rw [firstInvalid_eq_none] at h
    exact h

/-- Instance of C34 on the example host, calls of the signature tests:
`new(2003, "was", 26, 20, 4, 37)` fails on its month, whose type is string, and
`add_date(7, -15, [1, 2])` on its days. -/
theorem datetime_args_checked_left_to_right_witness :
    Demo.stdlib.converts .int (.other (.String "was")) = false ∧
      Stdlib.datetimeNewTime Demo.stdlib Demo.timePkg
          ([.other (.Int 2003)] ++ .other (.String "was") ::
            [.other (.Int 26), .other (.Int 20), .other (.Int 4), .other (.Int 37)]) =
        (none, some (.ErrInvalidArgumentType "month" "int" "string")) ∧
      Stdlib.timeAddDate Demo.stdlib Demo.timePkg Demo.now.time
          [.other (.Int 7), .other (.Int (-15)), .other (.IntArray [1, 2])] =
        (none, some (.ErrInvalidArgumentType "days" "int" "immutable-array")) :=
  ⟨by decide,
    (datetime_args_checked_left_to_right Demo.stdlib Demo.timePkg Demo.now.time
      [.other (.Int 2003)] (.other (.String "was"))
      [.other (.Int 26), .other (.Int 20), .other (.Int 4), .other (.Int 37)] ("month", .int)
      (by decide)).1 (by decide) (by decide) (by decide)
      (fun i b q hb hq => by
        cases i with
        | zero =>
          simp only [List.getElem?_cons_zero, Option.some.injEq] at hb
          subst hb
          simp only [Stdlib.datetimeNewTime.params, List.getElem?_cons_zero,
            Option.some.injEq] at hq
          subst hq
          decide
        | succ i => simp at hb),
    by decide⟩

/-- C35: `datetime.new` on six arguments that convert to the ints `y`, `mo`,
`d`, `h`, `mi`, `s` returns the time `time.Date(y, Month(mo), d, h, mi, s, 0,
Local)`: the nanosecond is 0 and the location the local one.  With a seventh
argument that converts to `ns` it returns `time.Date(..., ns, Local)`, and
with an eighth that converts to the name of a location that loads, the time
`time.Date(..., ns, loc)` for the loaded location, which is the location of
the result since `time.Date` returns a time in the location it is given. -/
theorem datetime_new_is_date {O : Type} (X : Stdlib.Deps O) (G : time.Package)
    (a0 a1 a2 a3 a4 a5 : Stdlib.Obj O) (y mo d h mi s : Int)
    (h0 : X.ToInt (some a0) = some y) (h1 : X.ToInt (some a1) = some mo)
    (h2 : X.ToInt (some a2) = some d) (h3 : X.ToInt (some a3) = some h)
    (h4 : X.ToInt (some a4) = some mi) (h5 : X.ToInt (some a5) = some s) :
    Stdlib.datetimeNewTime X G [a0, a1, a2, a3, a4, a5] =
        (some (.time (Stdlib.CreateTime (G.Date y mo d h mi s 0 G.Local))), none) ∧
      (∀ a6 ns, X.ToInt (some a6) = some ns →
        Stdlib.datetimeNewTime X G [a0, a1, a2, a3, a4, a5, a6] =
          (some (.time (Stdlib.CreateTime (G.Date y mo d h mi s ns G.Local))), none)) ∧
      (∀ a6 ns a7 name loc, X.ToInt (some a6) = some ns → X.ToString (some a7) = some name →
        G.LoadLocation name = .ok loc →
        Stdlib.datetimeNewTime X G [a0, a1, a2, a3, a4, a5, a6, a7] =
            (some (.time (Stdlib.CreateTime (G.Date y mo d h mi s ns loc))), none) ∧
          (G.DateInLocation → (G.Date y mo d h mi s ns loc).loc = loc)) ∧
      (G.DateInLocation → (G.Date y mo d h mi s 0 G.Local).loc = G.Local) := by
  refine ⟨datetimeNewTime_six X G a0 a1 a2 a3 a4 a5 y mo d h mi s h0 h1 h2 h3 h4 h5,
    fun a6 ns h6 =>
      datetimeNewTime_seven X G a0 a1 a2 a3 a4 a5 a6 y mo d h mi s ns h0 h1 h2 h3 h4 h5 h6,
    fun a6 ns a7 name loc h6 h7 hl => ⟨?_, fun hG => hG _ _ _ _ _ _ _ _⟩,
    fun hG => hG _ _ _ _ _ _ _ _⟩
  rw [datetimeNewTime_eight X G a0 a1 a2 a3 a4 a5 a6 a7 y mo d h mi s ns name h0 h1 h2 h3 h4 h5
    h6 h7, hl]

/-- Instance of C35 on the example host, whose locations `UTC` and `Local` are
at the offset zero: `new(2003, december, 26, 20, 4, 37)` is that time in the
local zone, the same call with the nanosecond `0` and the location `UTC` is that
time in `UTC`, and a location that does not load makes the call fail. -/
theorem datetime_new_is_date_witness :
    Stdlib.datetimeNewTime Demo.stdlib Demo.timePkg
        [.other (.Int 2003), .other (.Int time.December), .other (.Int 26), .other (.Int 20),
          .other (.Int 4), .other (.Int 37)] =
      (some (.time (Stdlib.CreateTime
        { wall := 1072469077000000000, mono := none, loc := "Local" })), none) ∧
    Stdlib.datetimeNewTime Demo.stdlib Demo.timePkg
        [.other (.Int 2003), .other (.Int time.December), .other (.Int 26), .other (.Int 20),
          .other (.Int 4), .other (.Int 37), .other (.Int 0), .other (.String "UTC")] =
      (some (.time Demo.base), none) ∧
    Stdlib.datetimeNewTime Demo.stdlib Demo.timePkg
        [.other (.Int 2025), .other (.Int time.July), .other (.Int 26), .other (.Int 23),
          .other (.Int 44), .other (.Int 35), .other (.Int 0),
          .other (.String "Haro/Hawayu")] =
      (none, some (.foreign "unknown time zone Haro/Hawayu")) :=
  ⟨(datetime_new_is_date Demo.stdlib Demo.timePkg (.other (.Int 2003))
      (.other (.Int time.December)) (.other (.Int 26)) (.other (.Int 20)) (.other (.Int 4))
      (.other (.Int 37)) 2003 12 26 20 4 37 rfl rfl rfl rfl rfl rfl).1.trans (by decide),
    by decide, by decide⟩

/-- C11: clone independence.  The programs sit in a memory where a slot table is
an array of its own, which a struct points to.  After `d = c.Clone()`, the
struct of `d` points to an array no other struct points to; a `Set(name, v)` on
`c` returns, does to `c` what `Set` does, and leaves `d.Get(n)` as it was for
every name `n`; and a `Set` on `d` does to `d` what `Set` does and leaves
`c.Get(n)` as it was, whatever the name and the host value. -/
theorem clone_independent_of_set (X : Deps Object Host E) (S : Memory Object)
    (hwf : S.WellFormed) (p : Nat) (c : Compiled Object) (hp : S.view p = some c)
    (hc : c.InBounds) (name : String) (v : Host) :
    ∃ S₁ q, S.Clone X p = .ok (S₁, q) ∧ q ≠ p ∧ S₁.WellFormed ∧ S₁.view p = some c ∧
      S₁.view q = some (c.Clone X) ∧
      (∃ lq, S₁.programs[q]? = some lq ∧
        ∀ r lr, r ≠ q → S₁.programs[r]? = some lr → lr.globals ≠ lq.globals) ∧
      (∃ S₂ err d, S₁.Set X p name v = .ok (S₂, err) ∧ c.Set X name v = .ok (d, err) ∧
        S₂.view p = some d ∧ ∀ n, S₂.Get X q n = S₁.Get X q n) ∧
      (∃ S₂ err d, S₁.Set X q name v = .ok (S₂, err) ∧
        (c.Clone X).Set X name v = .ok (d, err) ∧
        S₂.view q = some d ∧ ∀ n, S₂.Get X p n = S₁.Get X p n) := by
  obtain ⟨l, hl, hg, hb, hi, hm, ho⟩ := memory_view_eq_some hp
  have hplt : p < S.programs.length := (List.getElem?_eq_some.mp hl).1
  have halt : l.globals < S.arrays.length := (List.getElem?_eq_some.mp hg).1
  have hne : S.programs.length ≠ p := by omega
  obtain ⟨S₁, hcl, hb₁, har, hpr⟩ := memory_clone_eq X S p c hp
  have hl₁ : S₁.programs[p]? = some l := by rw [hpr, List.getElem?_append_left hplt, hl]
  have hq₁ : S₁.programs[S.programs.length]? =
      some { indexes := c.indexes, globals := S.arrays.length, maxAllocs := c.maxAllocs,
             outIdx := c.outIdx } := by
    rw [hpr, List.getElem?_append_right (Nat.le_refl _)]
    simp
  have hwf₁ : S₁.WellFormed := by
    intro l' hl'
    rw [hpr, List.mem_append, List.mem_singleton] at hl'
    rw [har, List.length_append, List.length_singleton]
    rcases hl' with h | h
    · exact Nat.lt_succ_of_lt (hwf l' h)
    · rw [h]
      exact Nat.lt_succ_self _
  have hp₁ : S₁.view p = some c := by
    rw [← hp]
    exact memory_view_congr S S₁ p l hb₁ hl hl₁ (by rw [har, List.getElem?_append_left halt])
  have hnew : S₁.view S.programs.length = some (c.Clone X) := by
    simp only [Memory.view, hq₁, har, List.getElem?_append_right (Nat.le_refl _), Nat.sub_self,
      List.getElem?_cons_zero, hb₁, ← hb]
    rfl
  refine ⟨S₁, S.programs.length, hcl, hne, hwf₁, hp₁, hnew, ⟨_, hq₁, fun r lr hr hlr => ?_⟩,
    ?_, ?_⟩
  · have hrlt : r < S.programs.length := by
      have := (List.getElem?_eq_some.mp hlr).1
      rw [hpr, List.length_append, List.length_singleton] at this
      omega
    rw [hpr, List.getElem?_append_left hrlt] at hlr
    exact Nat.ne_of_lt (hwf lr (List.mem_iff_getElem?.mpr ⟨r, hlr⟩))
  · obtain ⟨T, err, d, l', hT, hd, hview, hl', hTb, hTp, hfr⟩ :=
      memory_set_frame X S₁ p c hp₁ hc name v
    have hll : l' = l := Option.some.inj (hl'.symm.trans hl₁)
    refine ⟨T, err, d, hT, hd, hview, fun n => ?_⟩
    have : T.view S.programs.length = S₁.view S.programs.length :=
      memory_view_congr S₁ T _ _ hTb hq₁ (hTp ▸ hq₁) (hfr _ (by rw [hll]; exact Nat.ne_of_gt halt))
    simp only [Memory.Get, this]
  · obtain ⟨T, err, d, l', hT, hd, hview, hl', hTb, hTp, hfr⟩ :=
      memory_set_frame X S₁ S.programs.length (c.Clone X) hnew
        ((clone_sameShape X c).inBounds hc) name v
    have hll : l' = _ := Option.some.inj (hl'.symm.trans hq₁)
    refine ⟨T, err, d, hT, hd, hview, fun n => ?_⟩
    have : T.view p = S₁.view p :=
      memory_view_congr S₁ T _ _ hTb hl₁ (hTp ▸ hl₁) (hfr _ (by rw [hll]; exact Nat.ne_of_lt halt))
    simp only [Memory.Get, this]

/-- Instance of C11 on the example host: after cloning, `Set("a", 6)` on the
origin leaves `a = 5` in the clone, and the other way round. -/
theorem clone_independent_of_set_witness :
    (Memory.ofCompiled Demo.prog).WellFormed ∧
      (Memory.ofCompiled Demo.prog).view 0 = some Demo.prog ∧ Demo.prog.InBounds ∧
      (∃ S₁ q, (Memory.ofCompiled Demo.prog).Clone Demo.deps 0 = .ok (S₁, q) ∧ q ≠ 0) ∧
      ((Memory.ofCompiled Demo.prog).Clone Demo.deps 0).toOption.bind (fun r =>
        (r.1.Set Demo.deps 0 "a" (.int 6)).toOption.map fun r₂ =>
          (r₂.1.Get Demo.deps 0 "a", r₂.1.Get Demo.deps r.2 "a")) =
        some (.ok { name := "a", value := .Int 6 }, .ok { name := "a", value := .Int 5 }) ∧
      ((Memory.ofCompiled Demo.prog).Clone Demo.deps 0).toOption.bind (fun r =>
        (r.1.Set Demo.deps r.2 "a" (.int 6)).toOption.map fun r₂ =>
          (r₂.1.Get Demo.deps 0 "a", r₂.1.Get Demo.deps r.2 "a")) =
        some (.ok { name := "a", value := .Int 5 }, .ok { name := "a", value := .Int 6 }) :=
  ⟨by simp [Memory.WellFormed, Memory.ofCompiled], rfl, Demo.prog_inBounds,
    (clone_independent_of_set Demo.deps (Memory.ofCompiled Demo.prog)
      (by simp [Memory.WellFormed, Memory.ofCompiled]) 0 Demo.prog rfl
      Demo.prog_inBounds "a" (.int 6)).imp fun _ h => h.imp fun _ h' => ⟨h'.1, h'.2.1⟩,
    by decide, by decide⟩

/-- Against C29 as stated, on the example host: `early` and `late` were read from
the clock, `parsed` was not.  `early < late` by the monotonic readings,
`late < parsed` and `parsed < early` by the wall instants: the operator `<` has
a cycle, and so has `<=`, while no two of the three are `Equals`; the operators
do not order these times. -/
theorem time_comparisons_cycle_counterexample :
    Demo.stdlib.ToInt64 (some (.time Demo.late)) = none ∧
      Demo.stdlib.ToInt64 (some (.time Demo.parsed)) = none ∧
      Demo.stdlib.ToInt64 (some (.time Demo.early)) = none ∧
      Demo.early.BinaryOp Demo.stdlib .Less (some (.time Demo.late)) =
        (some (.bool true), none) ∧
      Demo.late.BinaryOp Demo.stdlib .Less (some (.time Demo.parsed)) =
        (some (.bool true), none) ∧
      Demo.parsed.BinaryOp Demo.stdlib .Less (some (.time Demo.early)) =
        (some (.bool true), none) ∧
      Demo.early.BinaryOp Demo.stdlib .Less (some (.time Demo.parsed)) =
        (some (.bool false), none) ∧
      Demo.early.BinaryOp Demo.stdlib .LessEq (some (.time Demo.late)) =
        (some (.bool true), none) ∧
      Demo.late.BinaryOp Demo.stdlib .LessEq (some (.time Demo.parsed)) =
        (some (.bool true), none) ∧
      Demo.early.BinaryOp Demo.stdlib .LessEq (some (.time Demo.parsed)) =
        (some (.bool false), none) ∧
      Demo.early.Equals (some (Stdlib.Obj.time (O := Demo.Val) Demo.late)) = false ∧
      Demo.late.Equals (some (Stdlib.Obj.time (O := Demo.Val) Demo.parsed)) = false ∧
      Demo.parsed.Equals (some (Stdlib.Obj.time (O := Demo.Val) Demo.early)) = false := by
  refine ⟨?_, ?_, ?_, ?_, ?_, ?_, ?_, ?_, ?_, ?_, ?_, ?_, ?_⟩ <;> decide

/-- C29 (amended): the comparison operators of times.  For every two times `t`
and `u`, each of `>`, `>=`, `<`, `<=` returns a boolean and no error; `t >= u`
is `t > u` or `t.Equals(u)`, `t <= u` is `t < u` or `t.Equals(u)`, `t > u` is
`u < t`, exactly one of `t < u`, `t.Equals(u)`, `t > u` holds, `t <= u` is the
negation of `t > u` and `t >= u` the negation of `t < u`.  `BinaryOp` on a time
that does not convert to an int64 is `compareOp`.  For three times `t`, `u`,
`w` that all hold a monotonic reading, or none of which does, the operators
order them: each of the four operators is transitive, `Equals` is transitive,
`<` and `>` are carried along `Equals`, and `t <= u` with `u <= t` is
`t.Equals(u)`. -/
theorem time_comparisons_consistent {O : Type} (X : Stdlib.Deps O) (t u w : Stdlib.Time) :
    (∃ gt ge lt le : Bool,
      t.compareOp .Greater u = ((some (Stdlib.TengoBool gt), none) :
        Option (Stdlib.Obj O) × Option Stdlib.Err) ∧
      t.compareOp .GreaterEq u = ((some (Stdlib.TengoBool ge), none) :
        Option (Stdlib.Obj O) × Option Stdlib.Err) ∧
      t.compareOp .Less u = ((some (Stdlib.TengoBool lt), none) :
        Option (Stdlib.Obj O) × Option Stdlib.Err) ∧
      t.compareOp .LessEq u = ((some (Stdlib.TengoBool le), none) :
        Option (Stdlib.Obj O) × Option Stdlib.Err) ∧
      u.compareOp .Less t = ((some (Stdlib.TengoBool gt), none) :
        Option (Stdlib.Obj O) × Option Stdlib.Err) ∧
      ge = (gt || t.Equals (some (.time u : Stdlib.Obj O))) ∧
      le = (lt || t.Equals (some (.time u : Stdlib.Obj O))) ∧
      ((lt = true ∧ t.Equals (some (.time u : Stdlib.Obj O)) = false ∧ gt = false) ∨
        (lt = false ∧ t.Equals (some (.time u : Stdlib.Obj O)) = true ∧ gt = false) ∨
        (lt = false ∧ t.Equals (some (.time u : Stdlib.Obj O)) = false ∧ gt = true)) ∧
      le = !gt ∧ ge = !lt ∧
      (X.ToInt64 (some (.time u)) = none →
        ∀ op, t.BinaryOp X op (some (.time u)) = t.compareOp op u)) ∧
    (t.time.mono.isSome = u.time.mono.isSome → u.time.mono.isSome = w.time.mono.isSome →
      (∀ op,
        t.compareOp op u = ((some (Stdlib.TengoBool true), none) :
          Option (Stdlib.Obj O) × Option Stdlib.Err) →
        u.compareOp op w = ((some (Stdlib.TengoBool true), none) :
          Option (Stdlib.Obj O) × Option Stdlib.Err) →
        t.compareOp op w = ((some (Stdlib.TengoBool true), none) :
          Option (Stdlib.Obj O) × Option Stdlib.Err)) ∧
      (t.Equals (some (.time u : Stdlib.Obj O)) = true →
        u.Equals (some (.time w : Stdlib.Obj O)) = true →
        t.Equals (some (.time w : Stdlib.Obj O)) = true) ∧
      (∀ op, op = token.Token.Less ∨ op = token.Token.Greater →
        (t.compareOp op u = ((some (Stdlib.TengoBool true), none) :
            Option (Stdlib.Obj O) × Option Stdlib.Err) →
          u.Equals (some (.time w : Stdlib.Obj O)) = true →
          t.compareOp op w = ((some (Stdlib.TengoBool true), none) :
            Option (Stdlib.Obj O) × Option Stdlib.Err)) ∧
        (t.Equals (some (.time u : Stdlib.Obj O)) = true →
          u.compareOp op w = ((some (Stdlib.TengoBool true), none) :
            Option (Stdlib.Obj O) × Option Stdlib.Err) →
          t.compareOp op w = ((some (Stdlib.TengoBool true), none) :
            Option (Stdlib.Obj O) × Option Stdlib.Err))) ∧
      (t.compareOp .LessEq u = ((some (Stdlib.TengoBool true), none) :
          Option (Stdlib.Obj O) × Option Stdlib.Err) →
        u.compareOp .LessEq t = ((some (Stdlib.TengoBool true), none) :
          Option (Stdlib.Obj O) × Option Stdlib.Err) →
        t.Equals (some (.time u : Stdlib.Obj O)) = true)) := by
  refine ⟨⟨t.time.After u.time, t.time.After u.time || t.time.Equal u.time,
    t.time.Before u.time, t.time.Before u.time || t.time.Equal u.time,
    rfl, rfl, rfl, rfl, ?_, rfl, rfl, ?_, ?_, ?_, ?_⟩, ?_⟩
  · simp only [Stdlib.Time.compareOp, time.Time.After, time.Time.Before]
    cases t.time.mono <;> cases u.time.mono <;> rfl
  · simp only [Stdlib.Time.Equals, Stdlib.ToTime, time.Time.After, time.Time.Before,
      time.Time.Equal]
    cases t.time.mono <;> cases u.time.mono <;>
      simp only [decide_eq_true_eq, decide_eq_false_iff_not] <;> omega
  · simp only [time.Time.After, time.Time.Before, time.Time.Equal]
    cases t.time.mono <;> cases u.time.mono <;> exact decide_lt_or_eq _ _
  · simp only [time.Time.After, time.Time.Before, time.Time.Equal]
    cases t.time.mono <;> cases u.time.mono <;> exact decide_gt_or_eq _ _
  · intro h op
    simp only [Stdlib.Time.BinaryOp, h]
  · intro h₁ h₂
    have hinj : ∀ b : Bool, ((some (Stdlib.TengoBool b), none) :
        Option (Stdlib.Obj O) × Option Stdlib.Err) = (some (Stdlib.TengoBool true), none) →
        b = true := by
      intro b hb
      simpa [Stdlib.TengoBool] using hb
    have hlt := time_before_trans t.time u.time w.time h₁ h₂
    have hgt := time_before_trans w.time u.time t.time h₂.symm h₁.symm
    have heq := time_equal_trans t.time u.time w.time h₁ h₂
    have hle := time_before_equal t.time u.time w.time h₁ h₂
    have hge := time_before_equal w.time u.time t.time h₂.symm h₁.symm
    refine ⟨fun op htu huw => ?_, heq, fun op hop => ?_, fun htu hut => ?_⟩
    · by_cases hop : op = .Less ∨ op = .Greater ∨ op = .LessEq ∨ op = .GreaterEq
      swap
      · exfalso
        cases op <;> simp_all [Stdlib.Time.compareOp]
      rcases hop with rfl | rfl | rfl | rfl
      · -- Less
        have a := hinj _ htu
        have b := hinj _ huw
        show ((some (Stdlib.TengoBool (t.time.Before w.time)), none) :
          Option (Stdlib.Obj O) × Option Stdlib.Err) = _
        rw [hlt a b]
      · -- Greater
        have a := hinj _ htu
        have b := hinj _ huw
        rw [time_after_eq_before] at a b
        show ((some (Stdlib.TengoBool (t.time.After w.time)), none) :
          Option (Stdlib.Obj O) × Option Stdlib.Err) = _
        rw [time_after_eq_before, hgt b a]
      · -- LessEq
        have a := hinj _ htu
        have b := hinj _ huw
        show ((some (Stdlib.TengoBool (t.time.Before w.time || t.time.Equal w.time)), none) :
          Option (Stdlib.Obj O) × Option Stdlib.Err) = _
        rw [Bool.or_eq_true] at a b
        have : (t.time.Before w.time || t.time.Equal w.time) = true := by
          rw [Bool.or_eq_true]
          rcases a with a | a <;> rcases b with b | b
          · exact Or.inl (hlt a b)
          · exact Or.inl (hle.1 a b)
          · exact Or.inl (hle.2 a b)
          · exact Or.inr (heq a b)
        rw [this]
      · -- GreaterEq
        have a := hinj _ htu
        have b := hinj _ huw
        show ((some (Stdlib.TengoBool (t.time.After w.time || t.time.Equal w.time)), none) :
          Option (Stdlib.Obj O) × Option Stdlib.Err) = _
        rw [time_after_eq_before, Bool.or_eq_true] at a b
        have : (t.time.After w.time || t.time.Equal w.time) = true := by
          rw [time_after_eq_before, Bool.or_eq_true]
          rcases a with a | a <;> rcases b with b | b
          · exact Or.inl (hgt b a)
          · exact Or.inl (hge.2 (by rw [time_equal_comm]; exact b) a)
          · exact Or.inl (hge.1 b (by rw [time_equal_comm]; exact a))
          · exact Or.inr (heq a b)
        rw [this]
    · rcases hop with rfl | rfl
      · refine ⟨fun a b => ?_, fun a b => ?_⟩
        · show ((some (Stdlib.TengoBool (t.time.Before w.time)), none) :
            Option (Stdlib.Obj O) × Option Stdlib.Err) = _
          rw [hle.1 (hinj _ a) b]
        · show ((some (Stdlib.TengoBool (t.time.Before w.time)), none) :
            Option (Stdlib.Obj O) × Option Stdlib.Err) = _
          rw [hle.2 a (hinj _ b)]
      · refine ⟨fun a b => ?_, fun a b => ?_⟩
        · have a := hinj _ a
          rw [time_after_eq_before] at a
          show ((some (Stdlib.TengoBool (t.time.After w.time)), none) :
            Option (Stdlib.Obj O) × Option Stdlib.Err) = _
          rw [time_after_eq_before, hge.2 (by rw [time_equal_comm]; exact b) a]
        · have b := hinj _ b
          rw [time_after_eq_before] at b
          show ((some (Stdlib.TengoBool (t.time.After w.time)), none) :
            Option (Stdlib.Obj O) × Option Stdlib.Err) = _
          rw [time_after_eq_before, hge.1 b (by rw [time_equal_comm]; exact a)]
    · have a := hinj _ htu
      have b := hinj _ hut
      show t.time.Equal u.time = true
      revert a b
      unfold time.Time.Before time.Time.Equal
      cases ht : t.time.mono <;> cases hu : u.time.mono <;>
        simp only [ht, hu, Bool.or_eq_true, decide_eq_true_eq] <;> omega

/-- Instance of C29 (amended) on the example host, the comparisons of the
operator test: a time of 2003 against a time read from the clock, which does not
convert to an int64; `<` and `<=` return true, `>` and `>=` false.  And three
times read from the clock: `early < late` and `late < now`, so
`early < now`. -/
theorem time_comparisons_consistent_witness :
    Demo.stdlib.ToInt64 (some (.time Demo.now)) = none ∧
      Demo.base.BinaryOp Demo.stdlib .Less (some (.time Demo.now)) =
        (some (.bool true), none) ∧
      Demo.base.BinaryOp Demo.stdlib .LessEq (some (.time Demo.now)) =
        (some (.bool true), none) ∧
      Demo.base.BinaryOp Demo.stdlib .Greater (some (.time Demo.now)) =
        (some (.bool false), none) ∧
      Demo.base.BinaryOp Demo.stdlib .GreaterEq (some (.time Demo.now)) =
        (some (.bool false), none) ∧
      (∀ op, Demo.base.BinaryOp Demo.stdlib op (some (.time Demo.now)) =
        Demo.base.compareOp op Demo.now) ∧
      Demo.early.time.mono.isSome = Demo.late.time.mono.isSome ∧
      Demo.late.time.mono.isSome = Demo.now.time.mono.isSome ∧
      Demo.early.compareOp .Less Demo.late =
        ((some (Stdlib.TengoBool true), none) :
          Option (Stdlib.Obj Demo.Val) × Option Stdlib.Err) ∧
      Demo.late.compareOp .Less Demo.now =
        ((some (Stdlib.TengoBool true), none) :
          Option (Stdlib.Obj Demo.Val) × Option Stdlib.Err) ∧
      Demo.early.compareOp .Less Demo.now =
        ((some (Stdlib.TengoBool true), none) :
          Option (Stdlib.Obj Demo.Val) × Option Stdlib.Err) :=
  ⟨rfl, by decide, by decide, by decide, by decide,
    (time_comparisons_consistent Demo.stdlib Demo.base Demo.now Demo.now).1.elim
      fun _ h => h.elim fun _ h => h.elim fun _ h => h.elim fun _ h => h.2.2.2.2.2.2.2.2.2.2 rfl,
    rfl, rfl, by decide, by decide,
    ((time_comparisons_consistent Demo.stdlib Demo.early Demo.late Demo.now).2 rfl rfl).1 .Less
      (by decide) (by decide)⟩

/-- C24: for a script whose pending variables are a map of `n` names, with `n`
at most `GlobalsSize`, `prepCompile` returns a symbol table and a slot table of
`GlobalsSize` slots: the `i`-th name it enumerates resolves to the global symbol
of index `i`, so the assigned indexes are `0..n-1` in order; slot `i` holds the
object of that variable; every slot from `n` on is empty; the table has `n`
definitions and resolves no other name.  The same holds of `prepCompile` on the
script with the same variables enumerated in any other order.  For any list of
names at all, the "wrong symbol index" panic is not the outcome of the loop. -/
theorem prepCompile_assigns_definition_order (T : Toolchain Object E M W File)
    (s : Script Object M W) (hmap : (s.vars.map Prod.fst).Nodup)
    (hn : s.vars.length ≤ T.GlobalsSize) :
    (∃ st g, s.prepCompile T = .ok (st, g) ∧
      (s.vars.map Prod.fst).map (fun nm => (st.Resolve nm).map (fun sym => sym.Index)) =
        (List.range s.vars.length).map some ∧
      (∀ (i : Nat) nm, (s.vars.map Prod.fst)[i]? = some nm →
        st.Resolve nm = some { Name := nm, Scope := .ScopeGlobal, Index := i } ∧
        ∃ v, s.vars.lookup nm = some v ∧ g[i]? = some (some v.Object)) ∧
      (∀ j, s.vars.length ≤ j → j < T.GlobalsSize → g[j]? = some none) ∧
      g.length = T.GlobalsSize ∧
      st.numDefinition = s.vars.length ∧ st.MaxSymbols = s.vars.length ∧
      (∀ nm, nm ∉ s.vars.map Prod.fst → st.Resolve nm = none)) ∧
    (∀ vars : List (String × Variable Object), vars.Perm s.vars →
      ∃ st g, Script.prepCompile T { s with vars := vars } = .ok (st, g) ∧
        (vars.map Prod.fst).map (fun nm => (st.Resolve nm).map (fun sym => sym.Index)) =
          (List.range s.vars.length).map some ∧
        (∀ (i : Nat) nm, (vars.map Prod.fst)[i]? = some nm →
          st.Resolve nm = some { Name := nm, Scope := .ScopeGlobal, Index := i } ∧
          ∃ v, vars.lookup nm = some v ∧ g[i]? = some (some v.Object)) ∧
        (∀ j, s.vars.length ≤ j → j < T.GlobalsSize → g[j]? = some none) ∧
        g.length = T.GlobalsSize ∧
        st.numDefinition = s.vars.length ∧ st.MaxSymbols = s.vars.length ∧
        (∀ nm, nm ∉ s.vars.map Prod.fst → st.Resolve nm = none)) ∧
    (∀ (l : List String) (g : List (Option Object)) (a b : Nat),
      Script.prepCompile.loop s l.enum NewSymbolTable g ≠ .error (.wrongSymbolIndex a b)) := by
  have key : ∀ r : Script Object M W, (r.vars.map Prod.fst).Nodup →
      r.vars.length ≤ T.GlobalsSize →
      ∃ st g, r.prepCompile T = .ok (st, g) ∧
        (r.vars.map Prod.fst).map (fun nm => (st.Resolve nm).map (fun sym => sym.Index)) =
          (List.range r.vars.length).map some ∧
        (∀ (i : Nat) nm, (r.vars.map Prod.fst)[i]? = some nm →
          st.Resolve nm = some { Name := nm, Scope := .ScopeGlobal, Index := i } ∧
          ∃ v, r.vars.lookup nm = some v ∧ g[i]? = some (some v.Object)) ∧
        (∀ j, r.vars.length ≤ j → j < T.GlobalsSize → g[j]? = some none) ∧
        g.length = T.GlobalsSize ∧
        st.numDefinition = r.vars.length ∧ st.MaxSymbols = r.vars.length ∧
        (∀ nm, nm ∉ r.vars.map Prod.fst → st.Resolve nm = none) := by
    intro r hnd hle
    have hlen : (r.vars.map Prod.fst).length = r.vars.length := List.length_map _ _
    obtain ⟨st, g, hloop, hnum, hmax, hglen, hframe, hslots, hstore, hres⟩ :=
      prepCompile_loop_ok r (r.vars.map Prod.fst) 0 NewSymbolTable
        (List.replicate T.GlobalsSize none) rfl rfl
        (by rw [List.length_replicate, hlen]; omega) (fun nm h => lookup_of_mem_keys h)
    simp only [Nat.zero_add] at hnum hmax hframe hslots hres
    refine ⟨st, g, hloop, ?_, fun i nm hi => ⟨hres hnd i nm hi, hslots i nm hi⟩, ?_, ?_, ?_, ?_,
      fun nm h => hstore nm h⟩
    · have hgen : ∀ names : List String, names.length = r.vars.length →
          (∀ (i : Nat) nm, names[i]? = some nm →
            st.store.lookup nm = some { Name := nm, Scope := .ScopeGlobal, Index := i }) →
          names.map (fun nm => (st.Resolve nm).map (fun sym => sym.Index)) =
            (List.range r.vars.length).map some := by
        intro names hl hr
        apply List.ext_getElem?
        intro i
        rw [List.getElem?_map, List.getElem?_map]
        by_cases hi : i < names.length
        · have hnm : names[i]? = some names[i] := List.getElem?_eq_getElem hi
          rw [hnm, Option.map_some', SymbolTable.Resolve, hr i _ hnm,
            List.getElem?_range (hl ▸ hi)]
          rfl
        · rw [List.getElem?_eq_none (by omega), List.getElem?_eq_none (by simp; omega)]
          rfl
      exact hgen _ hlen (hres hnd)
    · intro j hj hjT
      rw [hframe j (Or.inr (hlen ▸ hj))]
      simp [List.getElem?_replicate, hjT]
    · rw [hglen, List.length_replicate]
    · rw [hnum, hlen]
    · rw [SymbolTable.MaxSymbols, hmax, hlen]
  refine ⟨key s hmap hn, fun vars hperm => ?_,
    fun l g a b => prepCompile_loop_index s l 0 _ g a b rfl⟩
  have hlen : vars.length = s.vars.length := hperm.length_eq
  have hkeys : (vars.map Prod.fst).Perm (s.vars.map Prod.fst) := hperm.map Prod.fst
  obtain ⟨st, g, h⟩ := key { s with vars := vars } (hkeys.nodup_iff.mpr hmap)
    (by show vars.length ≤ T.GlobalsSize; omega)
  refine ⟨st, g, ?_⟩
  have hmem : ∀ nm, nm ∉ s.vars.map Prod.fst → nm ∉ vars.map Prod.fst :=
    fun nm h h' => h (hkeys.mem_iff.mp h')
  simp only [hlen] at h
  exact ⟨h.1, h.2.1, h.2.2.1, h.2.2.2.1, h.2.2.2.2.1, h.2.2.2.2.2.1, h.2.2.2.2.2.2.1,
    fun nm hnm => h.2.2.2.2.2.2.2 nm (hmem nm hnm)⟩

/-- Instance of C24 on a script of the example host with the variables `c = "x"`
and `b = 5`: `prepCompile` gives `c` slot 0 and `b` slot 1, and with the
variables enumerated in the other order `b` gets slot 0 and `c` slot 1. -/
theorem prepCompile_assigns_definition_order_witness :
    ((Demo.script.Add Demo.deps "c" (.str "x")).1.vars.map Prod.fst).Nodup ∧
      (Demo.script.Add Demo.deps "c" (.str "x")).1.vars.length ≤ Demo.toolchain.GlobalsSize ∧
      (∃ st g, (Demo.script.Add Demo.deps "c" (.str "x")).1.prepCompile Demo.toolchain =
          .ok (st, g) ∧
        st.Resolve "c" = some { Name := "c", Scope := .ScopeGlobal, Index := 0 } ∧
        st.Resolve "b" = some { Name := "b", Scope := .ScopeGlobal, Index := 1 }) ∧
      ((Demo.script.Add Demo.deps "c" (.str "x")).1.prepCompile Demo.toolchain).toOption.map
          Prod.snd =
        some [some (.String "x"), some (.Int 5), none, none, none, none, none, none] ∧
      (Script.prepCompile Demo.toolchain
          { (Demo.script.Add Demo.deps "c" (.str "x")).1 with
            vars := (Demo.script.Add Demo.deps "c" (.str "x")).1.vars.reverse }).toOption.map
          Prod.snd =
        some [some (.Int 5), some (.String "x"), none, none, none, none, none, none] :=
  ⟨by decide, by decide,
    (prepCompile_assigns_definition_order Demo.toolchain
      (Demo.script.Add Demo.deps "c" (.str "x")).1 (by decide) (by decide)).1.imp
      fun _ h => h.imp fun _ h' =>
        ⟨h'.1, (h'.2.2.1 0 "c" (by decide)).1, (h'.2.2.1 1 "b" (by decide)).1⟩,
    by decide, by decide⟩

/-- C26, at the failing input of `TestContext`, on the example host.  The
context is cancelled before the call, and the `select` of `runVMContext` can
observe the completion of the run or `ctx.Done()`.  `CompileRunContext` on the
empty script returns a program and no error when the completion is observed,
and the error "context canceled" when `ctx.Done()` is.  `CallByNameContext` of
`add` with `3, 4` under an expired deadline returns `7` and no error, with the
output slot overwritten, when the completion is observed; when `ctx.Done()` is
observed it returns "context deadline exceeded", with the output slot
overwritten by `7` if the engine has executed the call before it sees the abort
request, and with the slot table as it was if the engine sees the request
before its first instruction.  An argument that does not marshal, and a name
bound to a value that is no callable, make the call return its own error, not
`ctx.Err()`. -/
theorem cancelled_context_can_return_nil :
    Context.AlreadyCancelled "context canceled" (Context.live : Context String) ∧
    (∀ k, Context.AlreadyCancelled "context canceled" (Context.done "context canceled" k)) ∧
    (NewScript [] : Script Demo.Obj Unit Unit).CompileRunContext Demo.deps Demo.toolchain
        (some .live) =
      .ok (.ok { bytecode := { MainFunction := { Instructions := [3] }, Constants := [] },
                 indexes := [("$out", 0)], globals := [some .Undefined, none],
                 maxAllocs := -1, outIdx := 0 }) ∧
    (∀ k, (NewScript [] : Script Demo.Obj Unit Unit).CompileRunContext Demo.deps Demo.toolchain
        (some (.done "context canceled" k)) = .ok (.error (.foreign "context canceled"))) ∧
    Context.AlreadyCancelled "context deadline exceeded" (Context.live : Context String) ∧
    (Demo.prog.CallByNameContext Demo.deps (some .live) "add" [.int 3, .int 4]).toOption.map
        (fun o => (o.ret, o.state.globals)) =
      some (.ok (.int 7), [some (.Int 5), some .Sum, some .Fail, none, some (.Int 7)]) ∧
    (Demo.prog.CallByNameContext Demo.deps (some (.done "context deadline exceeded" 100)) "add"
        [.int 3, .int 4]).toOption.map (fun o => (o.ret, o.state.globals)) =
      some (.error (.foreign "context deadline exceeded"),
        [some (.Int 5), some .Sum, some .Fail, none, some (.Int 7)]) ∧
    (Demo.prog.CallByNameContext Demo.deps (some (.done "context deadline exceeded" 0)) "add"
        [.int 3, .int 4]).toOption.map (fun o => (o.ret, o.state.globals)) =
      some (.error (.foreign "context deadline exceeded"), Demo.prog.globals) ∧
    Demo.prog.globals = [some (.Int 5), some .Sum, some .Fail, none, some .Undefined] ∧
    Demo.prog.CallContext Demo.deps (some (.done "context canceled" 0)) (some .Sum) [.chan] =
      .ok { state := Demo.prog, ret := .error (.foreign "unsupported type"), runs := [] } ∧
    Demo.prog.CallByNameContext Demo.deps (some (.done "context canceled" 0)) "a" [] =
      .ok { state := Demo.prog, ret := .error (.New "not a callable"), runs := [] } := by
  refine ⟨Or.inl rfl, fun k => Or.inr ⟨k, rfl⟩, by rfl, fun k => by rfl, Or.inl rfl, by rfl,
    by rfl, by rfl, by rfl, by rfl, by rfl⟩

end Claims

end Tengo
